import Mathlib

/-!
# A user-level thread library: scheduler model and verified properties

Shallow embedding of `src/uthreads.cpp` and `src/thread.{h,cpp}`.

Modelling conventions.

* `Thread *` values are addresses (`Nat`) into an explicit heap.  `new` returns a
  fresh address, `delete` empties the cell.  Addresses are never reused, so a
  dangling pointer stays dangling.
* Dereferencing a null or dangling pointer, taking the front of an empty deque,
  dereferencing `begin()` of an empty set and signed overflow are undefined
  behaviour in C++; the embedding reports them as `Outcome.fault`.
* `std::unordered_map<int, Thread *>` is a finite map `Int → Option Nat`.
  `operator[]` on a missing key inserts a null pointer; every use in the source
  dereferences the result at once, which is a fault.
* `std::set<int>` is a strictly increasing list, so `begin()` is its head.
* A call that ends in `siglongjmp` never returns to its caller in the same
  activation: its outcome is `Outcome.switched`.  `sigsetjmp` is modelled by its
  first return (value `0`); the second return (value `1`) happens in the
  resumed thread, where `timer_handler` falls through without touching the
  scheduler state.
* API calls are atomic with respect to the timer signal, as the masking
  discipline of the source intends.  Which signal the source masks, and which
  one the timer delivers, is modelled apart (`create_signal_set`,
  `handler_signal`, `armed_timer`).
* The loop of `update_sleeping_time` erases from the deque it iterates over,
  which the C++ standard leaves undefined.  It is modelled as the `std::deque`
  of libstdc++ runs it: the iterator walks the slots of the buffer up to the
  `end()` taken before the first pass, and an erase moves the elements of the
  shorter side by one slot, so that a thread can be skipped and another one
  read twice (`erase_slots`, `update_sleeping_loop`).
* Counters are unbounded integers; the only arithmetic on a caller-supplied
  value, `num_quantums + 1` in `uthread_sleep`, faults when it overflows `int`.
* `MAX_THREAD_NUM` comes from `uthreads.h`, which is not part of the sources at
  hand; it is a parameter of the functions that use it.
* Stacks, jump buffers and the timer values carry no scheduler state and are
  left out.
-/

namespace UThreads

/-- Lifecycle state of a thread, `enum State` of `thread.h`. -/
inductive State where
  | READY
  | RUNNING
  | BLOCKED
  | SLEEPING
  | SLEEPING_AND_BLOCKED
  | TERMINATED
  deriving DecidableEq, Repr

/-- The scheduler-relevant fields of `class Thread`. -/
structure Thread where
  _id : Int
  _state : State
  _num_of_quantum : Int
  _quantums_left_in_sleeping : Int
  deriving DecidableEq, Repr

/-- The globals of `uthreads.cpp` together with the heap of `Thread` objects. -/
structure Sched where
  heap : Nat → Option Thread
  next_addr : Nat
  min_tid : Int
  quantum_counter : Int
  ready_threads : List Nat
  blocked_threads : List Nat
  sleeping_threads : List Nat
  current_running_thread : Option Nat
  available_tids : List Int
  tid_to_thread_map : Int → Option Nat

/-- Result of running a piece of the library. -/
inductive Outcome where
  | ret (v : Int) (s : Sched)
  | switched (s : Sched)
  | exit (code : Int)
  | fault

/-- Largest value of a C `int`. -/
def INT_MAX : Int := 2147483647

/-- Conversion `(unsigned int) tid` of a C `int`. -/
def toUnsigned (tid : Int) : Int := tid % 4294967296

/-- Model of `std::set<int>::insert` on a strictly increasing list. -/
def setInsert (x : Int) : List Int → List Int
  | [] => [x]
  | y :: ys => if x < y then x :: y :: ys else if x = y then y :: ys else y :: setInsert x ys

/-- Constructor `Thread::Thread()`: the main thread. -/
def Thread.main : Thread :=
  { _id := 0, _state := State.RUNNING, _num_of_quantum := 0, _quantums_left_in_sleeping := 0 }

/-- Constructor `Thread::Thread(id, entry_point)`. -/
def Thread.spawned (id : Int) : Thread :=
  { _id := id, _state := State.READY, _num_of_quantum := 0, _quantums_left_in_sleeping := 0 }

/-- Store through a pointer. -/
def Sched.write (s : Sched) (p : Nat) (th : Thread) : Sched :=
  { s with heap := Function.update s.heap p (some th) }

/-- Model of `delete p`. -/
def Sched.free (s : Sched) (p : Nat) : Sched :=
  { s with heap := Function.update s.heap p none }

/-- State of the globals before `uthread_init`. -/
def boot : Sched :=
  { heap := fun _ => none
    next_addr := 0
    min_tid := 0
    quantum_counter := 0
    ready_threads := []
    blocked_threads := []
    sleeping_threads := []
    current_running_thread := none
    available_tids := []
    tid_to_thread_map := fun _ => none }

/-- Source function `run_next_ready_thread`. -/
def run_next_ready_thread (s : Sched) : Outcome :=
  match s.ready_threads with
  | [] => Outcome.fault
  | p :: rest =>
    match s.heap p with
    | none => Outcome.fault
    | some th =>
      Outcome.switched
        { (s.write p { th with _state := State.RUNNING,
                               _num_of_quantum := th._num_of_quantum + 1 }) with
          current_running_thread := some p
          quantum_counter := s.quantum_counter + 1
          ready_threads := rest }

/-- Body of the loop of `update_sleeping_time` for the thread `p` that the
iterator points to; `std::find` followed by `erase` is `List.erase`, which
leaves the list alone when `p` is not in it. -/
def wake_step (s : Sched) (p : Nat) : Option Sched :=
  match s.heap p with
  | none => none
  | some th =>
    let left := th._quantums_left_in_sleeping - 1
    if left = 0 then
      if th._state = State.SLEEPING then
        some { (s.write p { th with _quantums_left_in_sleeping := left,
                                    _state := State.READY }) with
               ready_threads := s.ready_threads ++ [p]
               sleeping_threads := s.sleeping_threads.erase p }
      else
        some { (s.write p { th with _quantums_left_in_sleeping := left,
                                    _state := State.BLOCKED }) with
               sleeping_threads := s.sleeping_threads.erase p }
    else
      some (s.write p { th with _quantums_left_in_sleeping := left })

/-- Slots of the buffer of `sleeping_threads` that `std::find` followed by
`erase` leaves outside the deque.  The buffer is `front ++ live ++ back`, where
`live` is the deque itself, `front` the slots before `begin()` and `back` the
slots from `end()` on.  The `std::deque` of libstdc++ (`deque::_M_erase`)
closes the gap from the shorter side.  An element in the front half (index
below `size() / 2`) is erased by moving the elements before it one slot up and
popping the front: the first slot is left behind with its old content.  Any
other element is erased by moving the elements after it one slot down and
popping the back: the last slot is left behind with its old content.  The
result is the new `front` and `back`, the deque becomes `live.erase p`. -/
def erase_slots (front back live : List Nat) (p : Nat) : List Nat × List Nat :=
  if p ∈ live then
    if live.indexOf p < live.length / 2 then (front ++ live.take 1, back)
    else (front, live.getLast?.toList ++ back)
  else (front, back)

/-- The range-for of `update_sleeping_time`.  The source erases from the deque
it is iterating over, which the C++ standard leaves undefined; the loop is
modelled as the `std::deque` of libstdc++ executes it.  The iterator of the
loop is a position `i` in the buffer `front ++ sleeping_threads ++ back`, the
end iterator is taken once, before the first pass, so the loop makes as many
passes as the deque had elements (the first argument), and each pass reads the
slot at `i` as it is then, visits that thread with `wake_step` and moves to
`i + 1`.  After an erase in the back half the slot at `i` holds the next
element, which is therefore skipped, and the last passes read slots behind
`end()`, which still hold the elements that were last.  The slots are taken to
stay allocated during the call. -/
def update_sleeping_loop : Nat → Nat → List Nat → List Nat → Sched → Option Sched
  | 0, _, _, _, s => some s
  | n + 1, i, front, back, s =>
    match (front ++ s.sleeping_threads ++ back)[i]? with
    | none => none
    | some p =>
      match s.heap p with
      | none => none
      | some th =>
        match wake_step s p with
        | none => none
        | some s1 =>
          if th._quantums_left_in_sleeping - 1 = 0 then
            update_sleeping_loop n (i + 1) (erase_slots front back s.sleeping_threads p).1
              (erase_slots front back s.sleeping_threads p).2 s1
          else update_sleeping_loop n (i + 1) front back s1

/-- Source function `update_sleeping_time`. -/
def update_sleeping_time (s : Sched) : Option Sched :=
  update_sleeping_loop s.sleeping_threads.length 0 [] [] s

/-- Source function `timer_handler`.  `Outcome.ret 0` stands for the handler returning without
a dispatch (the `ret_val == -1` path). -/
def timer_handler (s : Sched) : Outcome :=
  match s.current_running_thread with
  | none => Outcome.fault
  | some c =>
    match s.heap c with
    | none => Outcome.fault
    | some th =>
      if th._state = State.TERMINATED ∨ th._state = State.BLOCKED ∨
          th._state = State.SLEEPING ∨ th._state = State.RUNNING then
        match update_sleeping_time s with
        | none => Outcome.fault
        | some s1 =>
          match s1.heap c with
          | none => Outcome.fault
          | some th1 =>
            if th1._state = State.RUNNING then
              run_next_ready_thread
                { (s1.write c { th1 with _state := State.READY }) with
                  ready_threads := s1.ready_threads ++ [c] }
            else if th1._state = State.TERMINATED then
              run_next_ready_thread { (s1.free c) with current_running_thread := none }
            else
              run_next_ready_thread s1
      else
        Outcome.ret 0 s

/-- The loop of `uthread_init` that fills `available_tids` with `1..n`. -/
def fill_available : Nat → List Int → List Int
  | 0, l => l
  | n + 1, l => setInsert (n + 1 : Nat) (fill_available n l)

/-- Source function `uthread_init`. -/
def uthread_init (MAX_THREAD_NUM : Nat) (quantum_usecs : Int) (s : Sched) : Outcome :=
  if quantum_usecs ≤ 0 then Outcome.ret (-1) s
  else
    let c := s.next_addr
    let th : Thread := { Thread.main with _state := State.RUNNING,
                                          _num_of_quantum := Thread.main._num_of_quantum + 1 }
    let avail := fill_available MAX_THREAD_NUM s.available_tids
    match avail.head? with
    | none => Outcome.fault
    | some m =>
      Outcome.ret 0
        { s with
          heap := Function.update s.heap c (some th)
          next_addr := c + 1
          current_running_thread := some c
          quantum_counter := s.quantum_counter + 1
          tid_to_thread_map := Function.update s.tid_to_thread_map 0 (some c)
          available_tids := avail
          min_tid := m }

/-- Source function `uthread_spawn`. -/
def uthread_spawn (MAX_THREAD_NUM : Nat) (s : Sched) : Outcome :=
  if s.min_tid ≥ MAX_THREAD_NUM then Outcome.ret (-1) s
  else
    let p := s.next_addr
    match s.available_tids.tail.head? with
    | none => Outcome.fault
    | some m =>
      Outcome.ret s.min_tid
        { s with
          heap := Function.update s.heap p (some (Thread.spawned s.min_tid))
          next_addr := p + 1
          ready_threads := s.ready_threads ++ [p]
          tid_to_thread_map := Function.update s.tid_to_thread_map s.min_tid (some p)
          available_tids := s.available_tids.tail
          min_tid := m }

/-- The three deques a thread can be terminated from. -/
inductive Queue where
  | ready
  | blocked
  | sleeping
  deriving DecidableEq, Repr

/-- Read a deque. -/
def Sched.queue (s : Sched) : Queue → List Nat
  | Queue.ready => s.ready_threads
  | Queue.blocked => s.blocked_threads
  | Queue.sleeping => s.sleeping_threads

/-- Overwrite a deque. -/
def Sched.setQueue (s : Sched) : Queue → List Nat → Sched
  | Queue.ready, l => { s with ready_threads := l }
  | Queue.blocked, l => { s with blocked_threads := l }
  | Queue.sleeping, l => { s with sleeping_threads := l }

/-- The search loop of `uthread_terminate_thread`: `none` is a fault (an element
could not be dereferenced), `some none` means no element has the id, and
`some (some p)` is the first element whose id is `tid`. -/
def scan_for_tid (heap : Nat → Option Thread) (tid : Int) : List Nat → Option (Option Nat)
  | [] => some none
  | p :: ps =>
    match heap p with
    | none => none
    | some th => if th._id = tid then some (some p) else scan_for_tid heap tid ps

/-- Source function `uthread_terminate_thread`.  The element found is the first occurrence of
its pointer in the deque, so erasing at the iterator is `List.erase`. -/
def uthread_terminate_thread (tid : Int) (q : Queue) (s : Sched) : Outcome :=
  match scan_for_tid s.heap tid (s.queue q) with
  | none => Outcome.fault
  | some none => Outcome.ret (-1) s
  | some (some p) =>
    let s1 := s.setQueue q ((s.queue q).erase p)
    let avail := setInsert tid s1.available_tids
    match avail.head? with
    | none => Outcome.fault
    | some m =>
      Outcome.ret 0
        { (s1.free p) with
          tid_to_thread_map := Function.update s1.tid_to_thread_map tid none
          available_tids := avail
          min_tid := m }

/-- Source function `uthread_terminate_running_thread`. -/
def uthread_terminate_running_thread (tid : Int) (s : Sched) : Outcome :=
  match s.current_running_thread with
  | none => Outcome.fault
  | some c =>
    match s.heap c with
    | none => Outcome.fault
    | some th =>
      if th._id = tid then
        let avail := setInsert tid s.available_tids
        match avail.head? with
        | none => Outcome.fault
        | some m =>
          match timer_handler
              { (s.write c { th with _state := State.TERMINATED }) with
                tid_to_thread_map := Function.update s.tid_to_thread_map tid none
                available_tids := avail
                min_tid := m } with
          | Outcome.ret _ s1 => Outcome.ret 0 s1
          | o => o
      else Outcome.ret (-1) s

/-- Source function `uthread_terminate_single_thread`: the short-circuit chain of `||`. -/
def uthread_terminate_single_thread (tid : Int) (s : Sched) : Outcome :=
  match uthread_terminate_thread tid Queue.ready s with
  | Outcome.ret v s1 =>
    if v = 0 then Outcome.ret 0 s1
    else
      match uthread_terminate_running_thread tid s1 with
      | Outcome.ret v s2 =>
        if v = 0 then Outcome.ret 0 s2
        else
          match uthread_terminate_thread tid Queue.blocked s2 with
          | Outcome.ret v s3 =>
            if v = 0 then Outcome.ret 0 s3
            else
              match uthread_terminate_thread tid Queue.sleeping s3 with
              | Outcome.ret v s4 => if v = 0 then Outcome.ret 0 s4 else Outcome.ret (-1) s4
              | o => o
          | o => o
      | o => o
  | o => o

/-- The loop `for (id = 1; id < MAX_THREAD_NUM; id++) uthread_terminate(id)` of
`uthread_terminate`, over the ids still to visit.  For a non-zero id
`uthread_terminate(id)` is `uthread_terminate_single_thread((unsigned int) id)`. -/
def terminate_all_loop : List Nat → Sched → Outcome
  | [], s => Outcome.ret 0 s
  | id :: ids, s =>
    match uthread_terminate_single_thread (toUnsigned id) s with
    | Outcome.ret _ s1 => terminate_all_loop ids s1
    | o => o

/-- Source function `uthread_terminate`. -/
def uthread_terminate (MAX_THREAD_NUM : Nat) (tid : Int) (s : Sched) : Outcome :=
  if tid = 0 then
    match terminate_all_loop (List.range' 1 (MAX_THREAD_NUM - 1)) s with
    | Outcome.ret _ _ => Outcome.exit 0
    | o => o
  else
    uthread_terminate_single_thread (toUnsigned tid) s

/-- Lines 371-388 of `uthread_block`: the part after the self-block test. -/
def uthread_block_tail (tid : Int) (s : Sched) : Outcome :=
  match s.tid_to_thread_map tid with
  | none => Outcome.fault
  | some p =>
    match s.heap p with
    | none => Outcome.fault
    | some th =>
      if th._state = State.READY then
        Outcome.ret 0
          { (s.write p { th with _state := State.BLOCKED }) with
            blocked_threads := s.blocked_threads ++ [p]
            ready_threads := s.ready_threads.erase p }
      else if th._state = State.SLEEPING then
        Outcome.ret 0
          { (s.write p { th with _state := State.SLEEPING_AND_BLOCKED }) with
            blocked_threads := s.blocked_threads ++ [p] }
      else Outcome.ret 0 s

/-- Source function `uthread_block`.  When the caller blocks itself the call ends in the
dispatcher; the tail runs when the caller is next dispatched. -/
def uthread_block (tid : Int) (s : Sched) : Outcome :=
  if tid ∈ s.available_tids then Outcome.ret (-1) s
  else if tid = 0 then Outcome.ret (-1) s
  else
    match s.current_running_thread with
    | none => Outcome.fault
    | some c =>
      match s.heap c with
      | none => Outcome.fault
      | some th =>
        if th._id = toUnsigned tid then
          match timer_handler
              { (s.write c { th with _state := State.BLOCKED }) with
                blocked_threads := s.blocked_threads ++ [c] } with
          | Outcome.ret _ s1 => uthread_block_tail tid s1
          | o => o
        else uthread_block_tail tid s

/-- Source function `uthread_resume`. -/
def uthread_resume (tid : Int) (s : Sched) : Outcome :=
  if tid ∈ s.available_tids then Outcome.ret (-1) s
  else
    match s.tid_to_thread_map tid with
    | none => Outcome.fault
    | some p =>
      match s.heap p with
      | none => Outcome.fault
      | some th =>
        if th._state = State.SLEEPING_AND_BLOCKED then
          Outcome.ret 0
            { (s.write p { th with _state := State.SLEEPING }) with
              blocked_threads := s.blocked_threads.erase p }
        else if th._state = State.BLOCKED then
          Outcome.ret 0
            { (s.write p { th with _state := State.READY }) with
              ready_threads := s.ready_threads ++ [p]
              blocked_threads := s.blocked_threads.erase p }
        else
          Outcome.ret 0 { s with blocked_threads := s.blocked_threads.erase p }

/-- Source function `uthread_sleep`.  The sum `num_quantums + 1` overflows for
`INT_MAX`, which is undefined behaviour. -/
def uthread_sleep (num_quantums : Int) (s : Sched) : Outcome :=
  if num_quantums = 0 then Outcome.ret 0 s
  else if num_quantums < 0 then Outcome.ret (-1) s
  else
    match s.current_running_thread with
    | none => Outcome.fault
    | some c =>
      match s.heap c with
      | none => Outcome.fault
      | some th =>
        if th._id = 0 then Outcome.ret (-1) s
        else if num_quantums + 1 > INT_MAX then Outcome.fault
        else
          match timer_handler
              { (s.write c { th with _state := State.SLEEPING,
                                     _quantums_left_in_sleeping := num_quantums + 1 }) with
                sleeping_threads := s.sleeping_threads ++ [c] } with
          | Outcome.ret _ s1 => Outcome.ret 0 s1
          | o => o

/-- Source function `uthread_get_tid`. -/
def uthread_get_tid (s : Sched) : Outcome :=
  match s.current_running_thread with
  | none => Outcome.fault
  | some c =>
    match s.heap c with
    | none => Outcome.fault
    | some th => Outcome.ret th._id s

/-- Source function `uthread_get_total_quantums`. -/
def uthread_get_total_quantums (s : Sched) : Outcome :=
  Outcome.ret s.quantum_counter s

/-- Source function `uthread_get_quantums`. -/
def uthread_get_quantums (tid : Int) (s : Sched) : Outcome :=
  match s.tid_to_thread_map tid with
  | none => Outcome.fault
  | some p =>
    match s.heap p with
    | none => Outcome.fault
    | some th => Outcome.ret th._num_of_quantum s

/-- A C `int`. -/
def isInt (x : Int) : Prop := -2147483648 ≤ x ∧ x ≤ INT_MAX

/-- What can happen to the scheduler between two observations: the timer
signal, or an API call made by the running thread. -/
inductive Op where
  | tick
  | spawn
  | terminate (tid : Int)
  | block (tid : Int)
  | resume (tid : Int)
  | sleep (num_quantums : Int)
  | get_tid
  | get_total_quantums
  | get_quantums (tid : Int)

/-- One operation. -/
def step (MAX_THREAD_NUM : Nat) (s : Sched) : Op → Outcome
  | Op.tick => timer_handler s
  | Op.spawn => uthread_spawn MAX_THREAD_NUM s
  | Op.terminate tid => uthread_terminate MAX_THREAD_NUM tid s
  | Op.block tid => uthread_block tid s
  | Op.resume tid => uthread_resume tid s
  | Op.sleep n => uthread_sleep n s
  | Op.get_tid => uthread_get_tid s
  | Op.get_total_quantums => uthread_get_total_quantums s
  | Op.get_quantums tid => uthread_get_quantums tid s

/-- The scheduler state an outcome leaves behind, when the process goes on. -/
def Outcome.state? : Outcome → Option Sched
  | Outcome.ret _ s => some s
  | Outcome.switched s => some s
  | Outcome.exit _ => none
  | Outcome.fault => none

/-- The integer arguments of an operation are C `int`s. -/
def Op.inRange : Op → Prop
  | Op.terminate tid => isInt tid
  | Op.block tid => isInt tid
  | Op.resume tid => isInt tid
  | Op.sleep n => isInt n
  | Op.get_quantums tid => isInt tid
  | _ => True

/-- States reachable from a successful `uthread_init` by timer ticks and API
calls with `int` arguments; `MAX_THREAD_NUM` is an `int` constant. -/
inductive Reachable (MAX_THREAD_NUM : Nat) : Sched → Prop where
  | init (quantum_usecs : Int) (s : Sched) :
      (MAX_THREAD_NUM : Int) ≤ INT_MAX →
      uthread_init MAX_THREAD_NUM quantum_usecs boot = Outcome.ret 0 s →
      Reachable MAX_THREAD_NUM s
  | step (s s1 : Sched) (op : Op) :
      Reachable MAX_THREAD_NUM s →
      op.inRange →
      (step MAX_THREAD_NUM s op).state? = some s1 →
      Reachable MAX_THREAD_NUM s1

/-- Run a list of operations, stopping at the first that ends the process or
faults. -/
def run (MAX_THREAD_NUM : Nat) : Sched → List Op → Option Sched
  | s, [] => some s
  | s, op :: ops =>
    match (step MAX_THREAD_NUM s op).state? with
    | none => none
    | some s1 => run MAX_THREAD_NUM s1 ops

/-- The state reached from `uthread_init` by a list of operations; `boot` if
the run does not get that far. -/
def exec (MAX_THREAD_NUM : Nat) (ops : List Op) : Sched :=
  match uthread_init MAX_THREAD_NUM 1000 boot with
  | Outcome.ret _ s => (run MAX_THREAD_NUM s ops).getD boot
  | _ => boot

/-- What one pass of the loop of `update_sleeping_time` does to a thread of the
SLEEPING deque. -/
def tick_thread (th : Thread) : Thread :=
  { th with
    _quantums_left_in_sleeping := th._quantums_left_in_sleeping - 1
    _state := if th._quantums_left_in_sleeping - 1 = 0 then
        (if th._state = State.SLEEPING then State.READY else State.BLOCKED)
      else th._state }

/-- What `run_next_ready_thread` does to the thread it dispatches. -/
def dispatch_thread (th : Thread) : Thread :=
  { th with _state := State.RUNNING, _num_of_quantum := th._num_of_quantum + 1 }

/-- Some live thread has the id `k`. -/
def Sched.holdsId (s : Sched) (k : Int) : Prop :=
  ∃ p th, s.heap p = some th ∧ th._id = k

/-- Outcome of `n` consecutive calls of `uthread_spawn`: the values returned,
in order, and the state after the last call. -/
def spawn_seq (MAX_THREAD_NUM : Nat) : Nat → Sched → Option (List Int × Sched)
  | 0, s => some ([], s)
  | n + 1, s =>
    match uthread_spawn MAX_THREAD_NUM s with
    | Outcome.ret v s1 =>
      match spawn_seq MAX_THREAD_NUM n s1 with
      | some (vs, s2) => some (v :: vs, s2)
      | none => none
    | _ => none

/-- The signals that the interval timers of `setitimer` deliver. -/
inductive Signal where
  | SIGALRM
  | SIGVTALRM
  | SIGPROF
  deriving DecidableEq, Repr

/-- The interval timers of `setitimer`. -/
inductive Timer where
  | ITIMER_REAL
  | ITIMER_VIRTUAL
  | ITIMER_PROF
  deriving DecidableEq, Repr

/-- The signal an interval timer delivers when it expires. -/
def Timer.signal : Timer → Signal
  | Timer.ITIMER_REAL => Signal.SIGALRM
  | Timer.ITIMER_VIRTUAL => Signal.SIGVTALRM
  | Timer.ITIMER_PROF => Signal.SIGPROF

/-- Source function `create_signal_set`: the content of `signal_set` after
`sigemptyset` and `sigaddset(&signal_set, SIGALRM)`. -/
def create_signal_set : List Signal := [] ++ [Signal.SIGALRM]

/-- The signal for which `create_timer` installs `timer_handler` with
`sigaction`. -/
def handler_signal : Signal := Signal.SIGVTALRM

/-- The timer that `initialize_timer` and `nullify_timer` arm with `setitimer`. -/
def armed_timer : Timer := Timer.ITIMER_VIRTUAL

/-- The process mask after `sigprocmask(SIG_BLOCK, &set, nullptr)`. -/
def sig_block (mask set : List Signal) : List Signal := mask ++ set

/-- Count of quanta of the thread object at `p`: its `_num_of_quantum`, and 0
when there is no thread object at `p`. -/
def quanta_at (heap : Nat → Option Thread) (p : Nat) : Int :=
  match heap p with
  | some th => th._num_of_quantum
  | none => 0

/-- Sum of `_num_of_quantum` over the live thread objects.  Every thread object
was allocated at an address below `next_addr`. -/
def live_quanta (s : Sched) : Int :=
  ((List.range s.next_addr).map (quanta_at s.heap)).sum

/-- Sum of the last `_num_of_quantum` of the thread objects that exist in `s`
and have been deleted in `s1`. -/
def reaped_quanta (s s1 : Sched) : Int :=
  ((List.range s.next_addr).map (fun p =>
    match s1.heap p with
    | none => quanta_at s.heap p
    | some _ => 0)).sum

/-- Relation `Accounted M s r`: the state `s` is reachable from a successful
`uthread_init`, and `r` is the sum of the final `_num_of_quantum` of the
threads that were terminated on the way. -/
inductive Accounted (MAX_THREAD_NUM : Nat) : Sched → Int → Prop where
  | init (quantum_usecs : Int) (s : Sched) :
      (MAX_THREAD_NUM : Int) ≤ INT_MAX →
      uthread_init MAX_THREAD_NUM quantum_usecs boot = Outcome.ret 0 s →
      Accounted MAX_THREAD_NUM s 0
  | step (s s1 : Sched) (op : Op) (r : Int) :
      Accounted MAX_THREAD_NUM s r →
      op.inRange →
      (step MAX_THREAD_NUM s op).state? = some s1 →
      Accounted MAX_THREAD_NUM s1 (r + reaped_quanta s s1)

/-- The state in which `timer_handler` calls `run_next_ready_thread`: the
sleepers have been ticked and the caller has been requeued (RUNNING) or
deleted (TERMINATED).  The value is `none` when the handler does not get to
that call: it returns without a dispatch, or it faults before. -/
def timer_handler_dispatch (s : Sched) : Option Sched :=
  match s.current_running_thread with
  | none => none
  | some c =>
    match s.heap c with
    | none => none
    | some th =>
      if th._state = State.TERMINATED ∨ th._state = State.BLOCKED ∨
          th._state = State.SLEEPING ∨ th._state = State.RUNNING then
        match update_sleeping_time s with
        | none => none
        | some s1 =>
          match s1.heap c with
          | none => none
          | some th1 =>
            if th1._state = State.RUNNING then
              some { (s1.write c { th1 with _state := State.READY }) with
                     ready_threads := s1.ready_threads ++ [c] }
            else if th1._state = State.TERMINATED then
              some { (s1.free c) with current_running_thread := none }
            else
              some s1
      else
        none

/-- The state in which `uthread_terminate_running_thread` calls
`timer_handler`, if it does. -/
def uthread_terminate_running_thread_handler (tid : Int) (s : Sched) : Option Sched :=
  match s.current_running_thread with
  | none => none
  | some c =>
    match s.heap c with
    | none => none
    | some th =>
      if th._id = tid then
        let avail := setInsert tid s.available_tids
        match avail.head? with
        | none => none
        | some m =>
          some { (s.write c { th with _state := State.TERMINATED }) with
                 tid_to_thread_map := Function.update s.tid_to_thread_map tid none
                 available_tids := avail
                 min_tid := m }
      else none

/-- The state in which `uthread_terminate_single_thread` reaches
`timer_handler`, if it does: the search of the READY deque has failed and the
caller is the target. -/
def uthread_terminate_single_thread_handler (tid : Int) (s : Sched) : Option Sched :=
  match uthread_terminate_thread tid Queue.ready s with
  | Outcome.ret v s1 =>
    if v = 0 then none else uthread_terminate_running_thread_handler tid s1
  | _ => none

/-- The state in which the loop of `uthread_terminate(0)` reaches
`timer_handler`, if it does. -/
def terminate_all_loop_handler : List Nat → Sched → Option Sched
  | [], _ => none
  | id :: ids, s =>
    match uthread_terminate_single_thread_handler (toUnsigned id) s with
    | some sm => some sm
    | none =>
      match uthread_terminate_single_thread (toUnsigned id) s with
      | Outcome.ret _ s1 => terminate_all_loop_handler ids s1
      | _ => none

/-- The state in which `uthread_terminate` reaches `timer_handler`, if it
does. -/
def uthread_terminate_handler (MAX_THREAD_NUM : Nat) (tid : Int) (s : Sched) : Option Sched :=
  if tid = 0 then
    terminate_all_loop_handler (List.range' 1 (MAX_THREAD_NUM - 1)) s
  else
    uthread_terminate_single_thread_handler (toUnsigned tid) s

/-- The state in which `uthread_block` calls `timer_handler`, if it does. -/
def uthread_block_handler (tid : Int) (s : Sched) : Option Sched :=
  if tid ∈ s.available_tids then none
  else if tid = 0 then none
  else
    match s.current_running_thread with
    | none => none
    | some c =>
      match s.heap c with
      | none => none
      | some th =>
        if th._id = toUnsigned tid then
          some { (s.write c { th with _state := State.BLOCKED }) with
                 blocked_threads := s.blocked_threads ++ [c] }
        else none

/-- The state in which `uthread_sleep` calls `timer_handler`, if it does. -/
def uthread_sleep_handler (num_quantums : Int) (s : Sched) : Option Sched :=
  if num_quantums = 0 then none
  else if num_quantums < 0 then none
  else
    match s.current_running_thread with
    | none => none
    | some c =>
      match s.heap c with
      | none => none
      | some th =>
        if th._id = 0 then none
        else if num_quantums + 1 > INT_MAX then none
        else
          some { (s.write c { th with _state := State.SLEEPING,
                                      _quantums_left_in_sleeping := num_quantums + 1 }) with
                 sleeping_threads := s.sleeping_threads ++ [c] }

/-- The state in which an operation enters `timer_handler`, if it does: the
state itself for the timer signal, the state prepared by the API call
otherwise. -/
def handler_entry (MAX_THREAD_NUM : Nat) (s : Sched) : Op → Option Sched
  | Op.tick => some s
  | Op.terminate tid => uthread_terminate_handler MAX_THREAD_NUM tid s
  | Op.block tid => uthread_block_handler tid s
  | Op.sleep n => uthread_sleep_handler n s
  | _ => none

/-- The state in which an operation enters `run_next_ready_thread`, if it
does. -/
def dispatcher_entry (MAX_THREAD_NUM : Nat) (s : Sched) (op : Op) : Option Sched :=
  (handler_entry MAX_THREAD_NUM s op).bind timer_handler_dispatch

/-! ### The scheduler invariant -/

/-- Lifecycle state of the thread a pointer refers to, if the pointer is valid. -/
def stOf (heap : Nat → Option Thread) (p : Nat) : Option State :=
  (heap p).map Thread._state

/-- Agreement, for one pointer, between its thread state and its membership in
the three deques.  The SLEEPING deque may hold a dangling pointer. -/
def Agree (st : Option State) (inReady inBlocked inSleeping : Prop) : Prop :=
  (inReady ↔ st = some State.READY) ∧
  (inBlocked ↔ (st = some State.BLOCKED ∨ st = some State.SLEEPING_AND_BLOCKED)) ∧
  ((st = some State.SLEEPING ∨ st = some State.SLEEPING_AND_BLOCKED) → inSleeping) ∧
  (inSleeping → (st = none ∨ st = some State.SLEEPING ∨ st = some State.SLEEPING_AND_BLOCKED))

/-- Agreement between the heap and the three deques. -/
structure QInvC (heap : Nat → Option Thread) (next : Nat) (r b sl : List Nat) : Prop where
  agree : ∀ p, Agree (stOf heap p) (p ∈ r) (p ∈ b) (p ∈ sl)
  ready_nodup : r.Nodup
  blocked_nodup : b.Nodup
  sleeping_nodup : sl.Nodup
  fresh : ∀ p, next ≤ p → heap p = none ∧ p ∉ sl

/-- Agreement between the heap, the id map and the set of free ids. -/
structure IdInvC (M : Nat) (heap : Nat → Option Thread) (map : Int → Option Nat)
    (avail : List Int) (min_tid : Int) : Prop where
  map_live : ∀ p th, heap p = some th → th._state ≠ State.TERMINATED → map th._id = some p
  map_sound : ∀ k p, map k = some p →
    ∃ th, heap p = some th ∧ th._id = k ∧ th._state ≠ State.TERMINATED
  key_range : ∀ k p, map k = some p → 0 ≤ k ∧ k < M
  avail_sorted : avail.Pairwise (fun a c => a < c)
  avail_iff : ∀ k, k ∈ avail ↔ (1 ≤ k ∧ k ≤ M ∧ map k = none)
  min_ok : avail.head? = some min_tid

/-- The current pointer is valid and no other thread is RUNNING or TERMINATED. -/
def CurC (heap : Nat → Option Thread) (cur : Option Nat) : Prop :=
  ∃ c, cur = some c ∧ heap c ≠ none ∧
    ∀ p th, heap p = some th →
      (th._state = State.RUNNING ∨ th._state = State.TERMINATED) → p = c

/-- The current thread is RUNNING and no other thread is RUNNING or TERMINATED. -/
def StableC (heap : Nat → Option Thread) (cur : Option Nat) : Prop :=
  ∃ c th, cur = some c ∧ heap c = some th ∧ th._state = State.RUNNING ∧
    ∀ p th1, heap p = some th1 →
      (th1._state = State.RUNNING ∨ th1._state = State.TERMINATED) → p = c

/-- Invariant that also holds inside an API call, at the entry of
`timer_handler`. -/
structure WInv (M : Nat) (s : Sched) : Prop where
  q : QInvC s.heap s.next_addr s.ready_threads s.blocked_threads s.sleeping_threads
  ids : IdInvC M s.heap s.tid_to_thread_map s.available_tids s.min_tid
  cur : CurC s.heap s.current_running_thread
  max_ok : (M : Int) ≤ INT_MAX

/-- Invariant of the states observed between operations. -/
structure Inv (M : Nat) (s : Sched) : Prop where
  q : QInvC s.heap s.next_addr s.ready_threads s.blocked_threads s.sleeping_threads
  ids : IdInvC M s.heap s.tid_to_thread_map s.available_tids s.min_tid
  stable : StableC s.heap s.current_running_thread
  max_ok : (M : Int) ≤ INT_MAX

/-! ### Preservation of the deque invariant by the elementary transitions -/

set_option linter.unusedTactic false

theorem stOf_update_some (heap : Nat → Option Thread) (p q : Nat) (th : Thread) :
    stOf (Function.update heap p (some th)) q = if q = p then some th._state else stOf heap q := by
  unfold stOf
  by_cases h : q = p
  · subst h; simp
  · simp [h]

theorem stOf_update_none (heap : Nat → Option Thread) (p q : Nat) :
    stOf (Function.update heap p none) q = if q = p then none else stOf heap q := by
  unfold stOf
  by_cases h : q = p
  · subst h; simp
  · simp [h]

theorem stOf_of_heap (heap : Nat → Option Thread) (p : Nat) (th : Thread)
    (h : heap p = some th) : stOf heap p = some th._state := by
  simp [stOf, h]

/-- A thread changes state and the deques are adjusted accordingly. -/
theorem QInvC.retag {heap : Nat → Option Thread} {n : Nat} {r b sl r1 b1 sl1 : List Nat}
    (hq : QInvC heap n r b sl) (p : Nat) (th th1 : Thread) (hp : heap p = some th)
    (hr : ∀ q, q ≠ p → (q ∈ r1 ↔ q ∈ r)) (hb : ∀ q, q ≠ p → (q ∈ b1 ↔ q ∈ b))
    (hs : ∀ q, q ≠ p → (q ∈ sl1 ↔ q ∈ sl))
    (hrn : r1.Nodup) (hbn : b1.Nodup) (hsn : sl1.Nodup)
    (hpa : Agree (some th1._state) (p ∈ r1) (p ∈ b1) (p ∈ sl1)) :
    QInvC (Function.update heap p (some th1)) n r1 b1 sl1 := by
  have hlt : p < n := by
    by_contra hc
    have := (hq.fresh p (by omega)).1
    simp [hp] at this
  refine ⟨?_, hrn, hbn, hsn, ?_⟩
  · intro q
    by_cases hqp : q = p
    · subst hqp
      simpa [stOf_update_some] using hpa
    · have := hq.agree q
      simpa [stOf_update_some, hqp, hr q hqp, hb q hqp, hs q hqp] using this
  · intro q hq1
    have hqp : q ≠ p := by omega
    have := hq.fresh q hq1
    simp [Function.update_apply, hqp, this.1, hs q hqp, this.2]

theorem QInvC.mem_ready {heap : Nat → Option Thread} {n : Nat} {r b sl : List Nat}
    (hq : QInvC heap n r b sl) (p : Nat) (th : Thread) (hp : heap p = some th) :
    p ∈ r ↔ th._state = State.READY := by
  have := (hq.agree p).1
  simpa [stOf, hp] using this

theorem QInvC.mem_blocked {heap : Nat → Option Thread} {n : Nat} {r b sl : List Nat}
    (hq : QInvC heap n r b sl) (p : Nat) (th : Thread) (hp : heap p = some th) :
    p ∈ b ↔ (th._state = State.BLOCKED ∨ th._state = State.SLEEPING_AND_BLOCKED) := by
  have := (hq.agree p).2.1
  simpa [stOf, hp] using this

theorem QInvC.mem_sleeping {heap : Nat → Option Thread} {n : Nat} {r b sl : List Nat}
    (hq : QInvC heap n r b sl) (p : Nat) (th : Thread) (hp : heap p = some th) :
    p ∈ sl ↔ (th._state = State.SLEEPING ∨ th._state = State.SLEEPING_AND_BLOCKED) := by
  have h1 := (hq.agree p).2.2.1
  have h2 := (hq.agree p).2.2.2
  simp [stOf, hp] at h1 h2
  exact ⟨h2, h1⟩

/-- A field other than the state changes. -/
theorem QInvC.field
    {heap : Nat → Option Thread} {n : Nat} {r b sl : List Nat}
    (hq : QInvC heap n r b sl) (p : Nat) (th th1 : Thread) (hp : heap p = some th)
    (h1 : th1._state = th._state) :
    QInvC (Function.update heap p (some th1)) n r b sl := by
  have hr := hq.mem_ready p th hp
  have hb := hq.mem_blocked p th hp
  have hs := hq.mem_sleeping p th hp
  have hsn := hq.sleeping_nodup
  have hrn := hq.ready_nodup
  have hbn := hq.blocked_nodup
  refine hq.retag p th th1 hp ?_ ?_ ?_ ?_ ?_ ?_ ?_
  all_goals first
    | (intro q hqp; simp [hqp, List.mem_erase_of_ne hqp]; done)
    | (simp_all [Agree, List.nodup_append, List.Nodup.mem_erase_iff, List.Nodup.erase]; done)

/-- Wake-up of a SLEEPING thread. -/
theorem QInvC.wake_ready
    {heap : Nat → Option Thread} {n : Nat} {r b sl : List Nat}
    (hq : QInvC heap n r b sl) (p : Nat) (th th1 : Thread) (hp : heap p = some th)
    (h0 : th._state = State.SLEEPING) (h1 : th1._state = State.READY) :
    QInvC (Function.update heap p (some th1)) n (r ++ [p]) b (sl.erase p) := by
  have hr := hq.mem_ready p th hp
  have hb := hq.mem_blocked p th hp
  have hs := hq.mem_sleeping p th hp
  have hsn := hq.sleeping_nodup
  have hrn := hq.ready_nodup
  have hbn := hq.blocked_nodup
  refine hq.retag p th th1 hp ?_ ?_ ?_ ?_ ?_ ?_ ?_
  all_goals first
    | (intro q hqp; simp [hqp, List.mem_erase_of_ne hqp]; done)
    | (simp_all [Agree, List.nodup_append, List.Nodup.mem_erase_iff, List.Nodup.erase]; done)

/-- Sleep expiry of a SLEEPING_AND_BLOCKED thread. -/
theorem QInvC.wake_blocked
    {heap : Nat → Option Thread} {n : Nat} {r b sl : List Nat}
    (hq : QInvC heap n r b sl) (p : Nat) (th th1 : Thread) (hp : heap p = some th)
    (h0 : th._state = State.SLEEPING_AND_BLOCKED) (h1 : th1._state = State.BLOCKED) :
    QInvC (Function.update heap p (some th1)) n r b (sl.erase p) := by
  have hr := hq.mem_ready p th hp
  have hb := hq.mem_blocked p th hp
  have hs := hq.mem_sleeping p th hp
  have hsn := hq.sleeping_nodup
  have hrn := hq.ready_nodup
  have hbn := hq.blocked_nodup
  refine hq.retag p th th1 hp ?_ ?_ ?_ ?_ ?_ ?_ ?_
  all_goals first
    | (intro q hqp; simp [hqp, List.mem_erase_of_ne hqp]; done)
    | (simp_all [Agree, List.nodup_append, List.Nodup.mem_erase_iff, List.Nodup.erase]; done)

/-- The RUNNING thread goes to the tail of READY. -/
theorem QInvC.preempt
    {heap : Nat → Option Thread} {n : Nat} {r b sl : List Nat}
    (hq : QInvC heap n r b sl) (p : Nat) (th th1 : Thread) (hp : heap p = some th)
    (h0 : th._state = State.RUNNING) (h1 : th1._state = State.READY) :
    QInvC (Function.update heap p (some th1)) n (r ++ [p]) b sl := by
  have hr := hq.mem_ready p th hp
  have hb := hq.mem_blocked p th hp
  have hs := hq.mem_sleeping p th hp
  have hsn := hq.sleeping_nodup
  have hrn := hq.ready_nodup
  have hbn := hq.blocked_nodup
  refine hq.retag p th th1 hp ?_ ?_ ?_ ?_ ?_ ?_ ?_
  all_goals first
    | (intro q hqp; simp [hqp, List.mem_erase_of_ne hqp]; done)
    | (simp_all [Agree, List.nodup_append, List.Nodup.mem_erase_iff, List.Nodup.erase]; done)

/-- A READY thread is blocked. -/
theorem QInvC.block_ready
    {heap : Nat → Option Thread} {n : Nat} {r b sl : List Nat}
    (hq : QInvC heap n r b sl) (p : Nat) (th th1 : Thread) (hp : heap p = some th)
    (h0 : th._state = State.READY) (h1 : th1._state = State.BLOCKED) :
    QInvC (Function.update heap p (some th1)) n (r.erase p) (b ++ [p]) sl := by
  have hr := hq.mem_ready p th hp
  have hb := hq.mem_blocked p th hp
  have hs := hq.mem_sleeping p th hp
  have hsn := hq.sleeping_nodup
  have hrn := hq.ready_nodup
  have hbn := hq.blocked_nodup
  refine hq.retag p th th1 hp ?_ ?_ ?_ ?_ ?_ ?_ ?_
  all_goals first
    | (intro q hqp; simp [hqp, List.mem_erase_of_ne hqp]; done)
    | (simp_all [Agree, List.nodup_append, List.Nodup.mem_erase_iff, List.Nodup.erase]; done)

/-- A SLEEPING thread is blocked. -/
theorem QInvC.block_sleeping
    {heap : Nat → Option Thread} {n : Nat} {r b sl : List Nat}
    (hq : QInvC heap n r b sl) (p : Nat) (th th1 : Thread) (hp : heap p = some th)
    (h0 : th._state = State.SLEEPING) (h1 : th1._state = State.SLEEPING_AND_BLOCKED) :
    QInvC (Function.update heap p (some th1)) n r (b ++ [p]) sl := by
  have hr := hq.mem_ready p th hp
  have hb := hq.mem_blocked p th hp
  have hs := hq.mem_sleeping p th hp
  have hsn := hq.sleeping_nodup
  have hrn := hq.ready_nodup
  have hbn := hq.blocked_nodup
  refine hq.retag p th th1 hp ?_ ?_ ?_ ?_ ?_ ?_ ?_
  all_goals first
    | (intro q hqp; simp [hqp, List.mem_erase_of_ne hqp]; done)
    | (simp_all [Agree, List.nodup_append, List.Nodup.mem_erase_iff, List.Nodup.erase]; done)

/-- A SLEEPING_AND_BLOCKED thread is resumed. -/
theorem QInvC.resume_sb
    {heap : Nat → Option Thread} {n : Nat} {r b sl : List Nat}
    (hq : QInvC heap n r b sl) (p : Nat) (th th1 : Thread) (hp : heap p = some th)
    (h0 : th._state = State.SLEEPING_AND_BLOCKED) (h1 : th1._state = State.SLEEPING) :
    QInvC (Function.update heap p (some th1)) n r (b.erase p) sl := by
  have hr := hq.mem_ready p th hp
  have hb := hq.mem_blocked p th hp
  have hs := hq.mem_sleeping p th hp
  have hsn := hq.sleeping_nodup
  have hrn := hq.ready_nodup
  have hbn := hq.blocked_nodup
  refine hq.retag p th th1 hp ?_ ?_ ?_ ?_ ?_ ?_ ?_
  all_goals first
    | (intro q hqp; simp [hqp, List.mem_erase_of_ne hqp]; done)
    | (simp_all [Agree, List.nodup_append, List.Nodup.mem_erase_iff, List.Nodup.erase]; done)

/-- A BLOCKED thread is resumed. -/
theorem QInvC.resume_blocked
    {heap : Nat → Option Thread} {n : Nat} {r b sl : List Nat}
    (hq : QInvC heap n r b sl) (p : Nat) (th th1 : Thread) (hp : heap p = some th)
    (h0 : th._state = State.BLOCKED) (h1 : th1._state = State.READY) :
    QInvC (Function.update heap p (some th1)) n (r ++ [p]) (b.erase p) sl := by
  have hr := hq.mem_ready p th hp
  have hb := hq.mem_blocked p th hp
  have hs := hq.mem_sleeping p th hp
  have hsn := hq.sleeping_nodup
  have hrn := hq.ready_nodup
  have hbn := hq.blocked_nodup
  refine hq.retag p th th1 hp ?_ ?_ ?_ ?_ ?_ ?_ ?_
  all_goals first
    | (intro q hqp; simp [hqp, List.mem_erase_of_ne hqp]; done)
    | (simp_all [Agree, List.nodup_append, List.Nodup.mem_erase_iff, List.Nodup.erase]; done)

/-- The RUNNING thread blocks itself. -/
theorem QInvC.self_block
    {heap : Nat → Option Thread} {n : Nat} {r b sl : List Nat}
    (hq : QInvC heap n r b sl) (p : Nat) (th th1 : Thread) (hp : heap p = some th)
    (h0 : th._state = State.RUNNING) (h1 : th1._state = State.BLOCKED) :
    QInvC (Function.update heap p (some th1)) n r (b ++ [p]) sl := by
  have hr := hq.mem_ready p th hp
  have hb := hq.mem_blocked p th hp
  have hs := hq.mem_sleeping p th hp
  have hsn := hq.sleeping_nodup
  have hrn := hq.ready_nodup
  have hbn := hq.blocked_nodup
  refine hq.retag p th th1 hp ?_ ?_ ?_ ?_ ?_ ?_ ?_
  all_goals first
    | (intro q hqp; simp [hqp, List.mem_erase_of_ne hqp]; done)
    | (simp_all [Agree, List.nodup_append, List.Nodup.mem_erase_iff, List.Nodup.erase]; done)

/-- The RUNNING thread goes to sleep. -/
theorem QInvC.self_sleep
    {heap : Nat → Option Thread} {n : Nat} {r b sl : List Nat}
    (hq : QInvC heap n r b sl) (p : Nat) (th th1 : Thread) (hp : heap p = some th)
    (h0 : th._state = State.RUNNING) (h1 : th1._state = State.SLEEPING) :
    QInvC (Function.update heap p (some th1)) n r b (sl ++ [p]) := by
  have hr := hq.mem_ready p th hp
  have hb := hq.mem_blocked p th hp
  have hs := hq.mem_sleeping p th hp
  have hsn := hq.sleeping_nodup
  have hrn := hq.ready_nodup
  have hbn := hq.blocked_nodup
  refine hq.retag p th th1 hp ?_ ?_ ?_ ?_ ?_ ?_ ?_
  all_goals first
    | (intro q hqp; simp [hqp, List.mem_erase_of_ne hqp]; done)
    | (simp_all [Agree, List.nodup_append, List.Nodup.mem_erase_iff, List.Nodup.erase]; done)

/-- The RUNNING thread is marked TERMINATED. -/
theorem QInvC.self_term
    {heap : Nat → Option Thread} {n : Nat} {r b sl : List Nat}
    (hq : QInvC heap n r b sl) (p : Nat) (th th1 : Thread) (hp : heap p = some th)
    (h0 : th._state = State.RUNNING) (h1 : th1._state = State.TERMINATED) :
    QInvC (Function.update heap p (some th1)) n r b sl := by
  have hr := hq.mem_ready p th hp
  have hb := hq.mem_blocked p th hp
  have hs := hq.mem_sleeping p th hp
  have hsn := hq.sleeping_nodup
  have hrn := hq.ready_nodup
  have hbn := hq.blocked_nodup
  refine hq.retag p th th1 hp ?_ ?_ ?_ ?_ ?_ ?_ ?_
  all_goals first
    | (intro q hqp; simp [hqp, List.mem_erase_of_ne hqp]; done)
    | (simp_all [Agree, List.nodup_append, List.Nodup.mem_erase_iff, List.Nodup.erase]; done)

/-- The head of READY is dispatched. -/
theorem QInvC.dispatch
    {heap : Nat → Option Thread} {n : Nat} {rest b sl : List Nat} (p : Nat)
    (hq : QInvC heap n (p :: rest) b sl) (th th1 : Thread) (hp : heap p = some th)
    (h1 : th1._state = State.RUNNING) :
    QInvC (Function.update heap p (some th1)) n rest b sl := by
  have hr := hq.mem_ready p th hp
  have hb := hq.mem_blocked p th hp
  have hs := hq.mem_sleeping p th hp
  have hsn := hq.sleeping_nodup
  have hrn := hq.ready_nodup
  have hbn := hq.blocked_nodup
  refine hq.retag p th th1 hp ?_ ?_ ?_ ?_ ?_ ?_ ?_
  all_goals first
    | (intro q hqp; simp [hqp, List.mem_erase_of_ne hqp]; done)
    | (simp_all [Agree, List.nodup_append, List.Nodup.mem_erase_iff, List.Nodup.erase]; done)

/-- Resuming a thread that is in no blocked state leaves the BLOCKED deque as it is. -/
theorem QInvC.erase_blocked_noop
    {heap : Nat → Option Thread} {n : Nat} {r b sl : List Nat}
    (hq : QInvC heap n r b sl) (p : Nat) (th : Thread) (hp : heap p = some th)
    (h0 : th._state ≠ State.SLEEPING_AND_BLOCKED) (h1 : th._state ≠ State.BLOCKED) :
    b.erase p = b := by
  apply List.erase_of_not_mem
  rw [hq.mem_blocked p th hp]
  simp [h0, h1]

/-- A thread object is deleted after its pointer left READY and BLOCKED. -/
theorem QInvC.release_queue {heap : Nat → Option Thread} {n : Nat} {r b sl r1 b1 sl1 : List Nat}
    (hq : QInvC heap n r b sl) (p : Nat)
    (hr : ∀ q, q ≠ p → (q ∈ r1 ↔ q ∈ r)) (hb : ∀ q, q ≠ p → (q ∈ b1 ↔ q ∈ b))
    (hs : ∀ q, q ≠ p → (q ∈ sl1 ↔ q ∈ sl))
    (hrn : r1.Nodup) (hbn : b1.Nodup) (hsn : sl1.Nodup)
    (hpr : p ∉ r1) (hpb : p ∉ b1) (hps : n ≤ p → p ∉ sl1) :
    QInvC (Function.update heap p none) n r1 b1 sl1 := by
  refine ⟨?_, hrn, hbn, hsn, ?_⟩
  · intro q
    by_cases hqp : q = p
    · subst hqp
      simp [stOf_update_none, Agree, hpr, hpb]
    · have := hq.agree q
      simpa [stOf_update_none, hqp, hr q hqp, hb q hqp, hs q hqp] using this
  · intro q hq1
    by_cases hqp : q = p
    · subst hqp
      simp [hps hq1]
    · have := hq.fresh q hq1
      simp [Function.update_apply, hqp, this.1, hs q hqp, this.2]

/-- Deleting a thread that is in no deque. -/
theorem QInvC.free_plain {heap : Nat → Option Thread} {n : Nat} {r b sl : List Nat}
    (hq : QInvC heap n r b sl) (p : Nat) (th : Thread) (hp : heap p = some th)
    (h0 : th._state = State.RUNNING ∨ th._state = State.TERMINATED) :
    QInvC (Function.update heap p none) n r b sl := by
  have hr := hq.mem_ready p th hp
  have hb := hq.mem_blocked p th hp
  have hf := hq.fresh p
  refine hq.release_queue p ?_ ?_ ?_ hq.ready_nodup hq.blocked_nodup hq.sleeping_nodup ?_ ?_ ?_
  all_goals first
    | (intro q hqp; simp [hqp, List.mem_erase_of_ne hqp]; done)
    | (rcases h0 with h0 | h0 <;> simp_all; done)

/-- Deleting a READY thread found in the READY deque. -/
theorem QInvC.free_ready {heap : Nat → Option Thread} {n : Nat} {r b sl : List Nat}
    (hq : QInvC heap n r b sl) (p : Nat) (hp : p ∈ r) :
    QInvC (Function.update heap p none) n (r.erase p) b sl := by
  have ha := hq.agree p
  have hf := hq.fresh p
  have hrn := hq.ready_nodup
  refine hq.release_queue p ?_ ?_ ?_ (hq.ready_nodup.erase p) hq.blocked_nodup hq.sleeping_nodup ?_ ?_ ?_
  all_goals first
    | (intro q hqp; simp [hqp, List.mem_erase_of_ne hqp]; done)
    | (simp_all [Agree, List.Nodup.mem_erase_iff]; done)

/-- Deleting a thread found in the BLOCKED deque. -/
theorem QInvC.free_blocked {heap : Nat → Option Thread} {n : Nat} {r b sl : List Nat}
    (hq : QInvC heap n r b sl) (p : Nat) (hp : p ∈ b) :
    QInvC (Function.update heap p none) n r (b.erase p) sl := by
  have ha := hq.agree p
  have hf := hq.fresh p
  have hbn := hq.blocked_nodup
  refine hq.release_queue p ?_ ?_ ?_ hq.ready_nodup (hq.blocked_nodup.erase p) hq.sleeping_nodup ?_ ?_ ?_
  all_goals first
    | (intro q hqp; simp [hqp, List.mem_erase_of_ne hqp]; done)
    | (simp_all [Agree, List.Nodup.mem_erase_iff]; done)
    | (rcases ha with ⟨h1, h2, h3, h4⟩; rcases h2.1 hp with h | h <;> simp_all [List.Nodup.mem_erase_iff]; done)

/-- Deleting a thread found in the SLEEPING deque and absent from BLOCKED. -/
theorem QInvC.free_sleeping {heap : Nat → Option Thread} {n : Nat} {r b sl : List Nat}
    (hq : QInvC heap n r b sl) (p : Nat) (hp : p ∈ sl) (hpb : p ∉ b) :
    QInvC (Function.update heap p none) n r b (sl.erase p) := by
  have ha := hq.agree p
  have hf := hq.fresh p
  have hsn := hq.sleeping_nodup
  refine hq.release_queue p ?_ ?_ ?_ hq.ready_nodup hq.blocked_nodup (hq.sleeping_nodup.erase p) ?_ ?_ ?_
  all_goals first
    | (intro q hqp; simp [hqp, List.mem_erase_of_ne hqp]; done)
    | (simp_all [Agree, List.Nodup.mem_erase_iff]; done)
    | (rcases ha with ⟨h1, h2, h3, h4⟩; rcases h4 hp with h | h | h <;> simp_all [List.Nodup.mem_erase_iff]; done)

/-- A new thread object is allocated; a READY one is appended to READY. -/
theorem QInvC.alloc_queue {heap : Nat → Option Thread} {n : Nat} {r b sl : List Nat}
    (hq : QInvC heap n r b sl) (th : Thread) (r1 : List Nat)
    (h : (th._state = State.READY ∧ r1 = r ++ [n]) ∨ (th._state = State.RUNNING ∧ r1 = r)) :
    QInvC (Function.update heap n (some th)) (n + 1) r1 b sl := by
  have hf := hq.fresh n (le_refl n)
  have ha := hq.agree n
  have hst : stOf heap n = none := by simp [stOf, hf.1]
  rw [hst] at ha
  have hnr : n ∉ r := by simpa using ha.1
  have hnb : n ∉ b := by simpa using ha.2.1
  refine ⟨?_, ?_, hq.blocked_nodup, hq.sleeping_nodup, ?_⟩
  · intro q
    by_cases hqn : q = n
    · subst hqn
      rcases h with ⟨h1, rfl⟩ | ⟨h1, rfl⟩ <;> simp [stOf_update_some, Agree, h1, hnb, hf.2, hnr]
    · have := hq.agree q
      rcases h with ⟨h1, rfl⟩ | ⟨h1, rfl⟩ <;> simpa [stOf_update_some, hqn] using this
  · rcases h with ⟨h1, rfl⟩ | ⟨h1, rfl⟩
    · simp [List.nodup_append, hq.ready_nodup, hnr]
    · exact hq.ready_nodup
  · intro q hq1
    have hqn : q ≠ n := by omega
    have := hq.fresh q (by omega)
    simp [Function.update_apply, hqn, this.1, this.2]

/-! ### Preservation of the id invariant by the elementary transitions -/

theorem mem_setInsert (x k : Int) (l : List Int) : k ∈ setInsert x l ↔ (k = x ∨ k ∈ l) := by
  induction l with
  | nil => simp [setInsert]
  | cons y ys ih =>
    unfold setInsert
    split
    · simp
    · split
      · subst_vars; simp
      · simp [ih]; tauto

theorem sorted_setInsert (x : Int) (l : List Int) (h : l.Pairwise (fun a c => a < c)) :
    (setInsert x l).Pairwise (fun a c => a < c) := by
  induction l with
  | nil => simp [setInsert]
  | cons y ys ih =>
    rw [List.pairwise_cons] at h
    unfold setInsert
    split
    · rename_i hxy
      rw [List.pairwise_cons]
      refine ⟨?_, List.pairwise_cons.mpr h⟩
      intro a ha
      rcases List.mem_cons.mp ha with rfl | ha
      · exact hxy
      · exact lt_trans hxy (h.1 a ha)
    · split
      · exact List.pairwise_cons.mpr h
      · rename_i h1 h2
        rw [List.pairwise_cons]
        refine ⟨?_, ih h.2⟩
        intro a ha
        rcases (mem_setInsert x a ys).mp ha with rfl | ha
        · omega
        · exact h.1 a ha

theorem mem_fill_available (n : Nat) (k : Int) :
    k ∈ fill_available n [] ↔ (1 ≤ k ∧ k ≤ n) := by
  induction n with
  | zero => simp [fill_available]; omega
  | succ n ih =>
    simp only [fill_available, mem_setInsert, ih]
    push_cast
    omega

theorem sorted_fill_available (n : Nat) :
    (fill_available n []).Pairwise (fun a c => a < c) := by
  induction n with
  | zero => simp [fill_available]
  | succ n ih => exact sorted_setInsert _ _ ih

/-- The head of a strictly increasing list is its least element. -/
theorem head_le_of_sorted (l : List Int) (m : Int) (h : l.Pairwise (fun a c => a < c))
    (hm : l.head? = some m) : ∀ k ∈ l, m ≤ k := by
  cases l with
  | nil => simp at hm
  | cons a t =>
    simp at hm
    subst hm
    rw [List.pairwise_cons] at h
    intro k hk
    rcases List.mem_cons.mp hk with rfl | hk
    · exact le_refl _
    · exact le_of_lt (h.1 k hk)

theorem head_mem (l : List Int) (m : Int) (hm : l.head? = some m) : m ∈ l := by
  cases l with
  | nil => simp at hm
  | cons a t => simp at hm; simp [hm]

/-- A state or counter of a thread changes; TERMINATED is neither entered nor left. -/
theorem IdInvC.state {M : Nat} {heap : Nat → Option Thread} {map : Int → Option Nat}
    {avail : List Int} {min_tid : Int} (hi : IdInvC M heap map avail min_tid)
    (p : Nat) (th th1 : Thread) (hp : heap p = some th) (hid : th1._id = th._id)
    (h0 : th._state ≠ State.TERMINATED) (h1 : th1._state ≠ State.TERMINATED) :
    IdInvC M (Function.update heap p (some th1)) map avail min_tid := by
  refine ⟨?_, ?_, hi.key_range, hi.avail_sorted, hi.avail_iff, hi.min_ok⟩
  · intro q t hq ht
    by_cases hqp : q = p
    · subst hqp
      simp at hq
      subst hq
      rw [hid]
      exact hi.map_live q th hp h0
    · simp [Function.update_apply, hqp] at hq
      exact hi.map_live q t hq ht
  · intro k q hk
    obtain ⟨t, ht, htk, hts⟩ := hi.map_sound k q hk
    by_cases hqp : q = p
    · subst hqp
      refine ⟨th1, by simp, ?_, h1⟩
      rw [hid]
      rw [hp] at ht
      cases ht
      exact htk
    · exact ⟨t, by simp [Function.update_apply, hqp, ht], htk, hts⟩

/-- A live thread gives up its id and is marked TERMINATED. -/
theorem IdInvC.mark_terminated {M : Nat} {heap : Nat → Option Thread} {map : Int → Option Nat}
    {avail : List Int} {min_tid : Int} (hi : IdInvC M heap map avail min_tid)
    (p : Nat) (th th1 : Thread) (m : Int) (hp : heap p = some th)
    (h0 : th._state ≠ State.TERMINATED) (h1 : th1._state = State.TERMINATED)
    (hne : th._id ≠ 0) (hm : (setInsert th._id avail).head? = some m) :
    IdInvC M (Function.update heap p (some th1)) (Function.update map th._id none)
      (setInsert th._id avail) m := by
  have hmp := hi.map_live p th hp h0
  have hrange := hi.key_range _ _ hmp
  refine ⟨?_, ?_, ?_, sorted_setInsert _ _ hi.avail_sorted, ?_, hm⟩
  · intro q t hq ht
    by_cases hqp : q = p
    · subst hqp
      simp at hq
      subst hq
      exact absurd h1 ht
    · simp [Function.update_apply, hqp] at hq
      have h2 := hi.map_live q t hq ht
      have : t._id ≠ th._id := by
        intro he
        rw [he, hmp] at h2
        simp at h2
        exact hqp h2.symm
      simp [Function.update_apply, this, h2]
  · intro k q hk
    by_cases hkt : k = th._id
    · subst hkt; simp at hk
    · simp [Function.update_apply, hkt] at hk
      obtain ⟨t, ht, htk, hts⟩ := hi.map_sound k q hk
      have hqp : q ≠ p := by
        intro he
        subst he
        rw [hp] at ht
        cases ht
        exact hkt htk.symm
      exact ⟨t, by simp [Function.update_apply, hqp, ht], htk, hts⟩
  · intro k q hk
    by_cases hkt : k = th._id
    · subst hkt; simp at hk
    · simp [Function.update_apply, hkt] at hk
      exact hi.key_range k q hk
  · intro k
    rw [mem_setInsert, hi.avail_iff]
    by_cases hkt : k = th._id
    · subst hkt
      simp
      omega
    · simp [Function.update_apply, hkt]

/-- A TERMINATED thread object is deleted. -/
theorem IdInvC.free_terminated {M : Nat} {heap : Nat → Option Thread} {map : Int → Option Nat}
    {avail : List Int} {min_tid : Int} (hi : IdInvC M heap map avail min_tid)
    (p : Nat) (th : Thread) (hp : heap p = some th) (h0 : th._state = State.TERMINATED) :
    IdInvC M (Function.update heap p none) map avail min_tid := by
  refine ⟨?_, ?_, hi.key_range, hi.avail_sorted, hi.avail_iff, hi.min_ok⟩
  · intro q t hq ht
    by_cases hqp : q = p
    · subst hqp; simp at hq
    · simp [Function.update_apply, hqp] at hq
      exact hi.map_live q t hq ht
  · intro k q hk
    obtain ⟨t, ht, htk, hts⟩ := hi.map_sound k q hk
    have hqp : q ≠ p := by
      intro he
      subst he
      rw [hp] at ht
      cases ht
      exact hts h0
    exact ⟨t, by simp [Function.update_apply, hqp, ht], htk, hts⟩

/-- A live thread is deleted and its id returned to the free set. -/
theorem IdInvC.release_id {M : Nat} {heap : Nat → Option Thread} {map : Int → Option Nat}
    {avail : List Int} {min_tid : Int} (hi : IdInvC M heap map avail min_tid)
    (p : Nat) (th : Thread) (m : Int) (hp : heap p = some th)
    (h0 : th._state ≠ State.TERMINATED)
    (hne : th._id ≠ 0) (hm : (setInsert th._id avail).head? = some m) :
    IdInvC M (Function.update heap p none) (Function.update map th._id none)
      (setInsert th._id avail) m := by
  have h1 := hi.mark_terminated p th { th with _state := State.TERMINATED } m hp h0 rfl hne hm
  have h2 := h1.free_terminated p { th with _state := State.TERMINATED } (by simp) rfl
  simpa using h2

/-- A thread object is created with the least free id. -/
theorem IdInvC.alloc_id {M : Nat} {heap : Nat → Option Thread} {map : Int → Option Nat}
    {avail : List Int} {min_tid : Int} (hi : IdInvC M heap map avail min_tid)
    (n : Nat) (th : Thread) (m : Int) (hn : heap n = none) (hlt : min_tid < M)
    (hid : th._id = min_tid) (hst : th._state ≠ State.TERMINATED)
    (hm : avail.tail.head? = some m) :
    IdInvC M (Function.update heap n (some th)) (Function.update map min_tid (some n))
      avail.tail m := by
  have hmin := hi.min_ok
  obtain ⟨t, hav⟩ : ∃ t, avail = min_tid :: t := by
    cases avail with
    | nil => simp at hmin
    | cons a t => simp at hmin; exact ⟨t, by rw [hmin]⟩
  have hsorted := hi.avail_sorted
  rw [hav, List.pairwise_cons] at hsorted
  have hmem := (hi.avail_iff min_tid).mp (by rw [hav]; simp)
  have hfresh : ∀ k, map k ≠ some n := by
    intro k hk
    obtain ⟨t1, ht1, _⟩ := hi.map_sound k n hk
    rw [hn] at ht1
    cases ht1
  refine ⟨?_, ?_, ?_, ?_, ?_, hm⟩
  · intro q t1 hq ht
    by_cases hqn : q = n
    · subst hqn
      simp at hq
      rw [← hq, hid]
      simp
    · simp [Function.update_apply, hqn] at hq
      have h2 := hi.map_live q t1 hq ht
      have : t1._id ≠ min_tid := by
        intro he
        rw [he, hmem.2.2] at h2
        cases h2
      simp [Function.update_apply, this, h2]
  · intro k q hk
    by_cases hkm : k = min_tid
    · subst hkm
      simp at hk
      subst hk
      exact ⟨th, by simp, hid, hst⟩
    · simp [Function.update_apply, hkm] at hk
      obtain ⟨t1, ht1, htk, hts⟩ := hi.map_sound k q hk
      have hqn : q ≠ n := by
        intro he
        subst he
        exact hfresh k hk
      exact ⟨t1, by simp [Function.update_apply, hqn, ht1], htk, hts⟩
  · intro k q hk
    by_cases hkm : k = min_tid
    · subst hkm
      omega
    · simp [Function.update_apply, hkm] at hk
      exact hi.key_range k q hk
  · rw [hav]; exact hsorted.2
  · intro k
    have := hi.avail_iff k
    rw [hav] at this ⊢
    simp only [List.tail_cons]
    by_cases hkm : k = min_tid
    · subst hkm
      simp
      intro hk
      have := hsorted.1 k hk
      omega
    · simp [hkm] at this
      simp [Function.update_apply, hkm, this]

/-! ### The dispatcher preserves the invariant -/

theorem CurC.update {heap : Nat → Option Thread} {cur : Option Nat} (hc : CurC heap cur)
    (p : Nat) (th th1 : Thread) (hp : heap p = some th)
    (h : (th1._state = State.RUNNING ∨ th1._state = State.TERMINATED) →
      (th._state = State.RUNNING ∨ th._state = State.TERMINATED)) :
    CurC (Function.update heap p (some th1)) cur := by
  obtain ⟨c, hcur, hlive, huniq⟩ := hc
  refine ⟨c, hcur, ?_, ?_⟩
  · by_cases hcp : c = p
    · subst hcp; simp
    · simpa [Function.update_apply, hcp] using hlive
  · intro q t hq ht
    by_cases hqp : q = p
    · subst hqp
      simp at hq
      subst hq
      exact huniq q th hp (h ht)
    · simp [Function.update_apply, hqp] at hq
      exact huniq q t hq ht

theorem StableC.toCurC {heap : Nat → Option Thread} {cur : Option Nat} (h : StableC heap cur) :
    CurC heap cur := by
  obtain ⟨c, th, hcur, hc, _, hu⟩ := h
  exact ⟨c, hcur, by simp [hc], hu⟩

theorem Inv.toWInv {M : Nat} {s : Sched} (h : Inv M s) : WInv M s :=
  ⟨h.q, h.ids, h.stable.toCurC, h.max_ok⟩

theorem wake_step_cases (s s1 : Sched) (p : Nat) (h : wake_step s p = some s1) :
    ∃ th, s.heap p = some th ∧
      ((th._quantums_left_in_sleeping - 1 = 0 ∧ th._state = State.SLEEPING ∧
        s1 = { (s.write p { th with _quantums_left_in_sleeping := th._quantums_left_in_sleeping - 1,
                                    _state := State.READY }) with
               ready_threads := s.ready_threads ++ [p]
               sleeping_threads := s.sleeping_threads.erase p }) ∨
       (th._quantums_left_in_sleeping - 1 = 0 ∧ th._state ≠ State.SLEEPING ∧
        s1 = { (s.write p { th with _quantums_left_in_sleeping := th._quantums_left_in_sleeping - 1,
                                    _state := State.BLOCKED }) with
               sleeping_threads := s.sleeping_threads.erase p }) ∨
       (th._quantums_left_in_sleeping - 1 ≠ 0 ∧
        s1 = s.write p { th with _quantums_left_in_sleeping := th._quantums_left_in_sleeping - 1 })) := by
  unfold wake_step at h
  split at h
  · simp at h
  · rename_i th hth
    refine ⟨th, hth, ?_⟩
    simp only at h
    split at h
    · split at h
      · left; simp_all
      · right; left; simp_all
    · right; right; simp_all

theorem wake_step_WInv {M : Nat} (s s1 : Sched) (p : Nat) (hw : WInv M s)
    (hp : p ∈ s.sleeping_threads) (h : wake_step s p = some s1) : WInv M s1 := by
  obtain ⟨th, hth, hc⟩ := wake_step_cases s s1 p h
  have hsl := (hw.q.mem_sleeping p th hth).mp hp
  have hnt : th._state ≠ State.TERMINATED := by rcases hsl with h | h <;> simp [h]
  rcases hc with ⟨_, hS, rfl⟩ | ⟨_, hS, rfl⟩ | ⟨_, rfl⟩
  · exact ⟨hw.q.wake_ready p th _ hth hS rfl, hw.ids.state p th _ hth rfl hnt (by simp),
      hw.cur.update p th _ hth (by simp), hw.max_ok⟩
  · have hSB : th._state = State.SLEEPING_AND_BLOCKED := by
      rcases hsl with h | h
      · exact absurd h hS
      · exact h
    exact ⟨hw.q.wake_blocked p th _ hth hSB rfl, hw.ids.state p th _ hth rfl hnt (by simp),
      hw.cur.update p th _ hth (by simp), hw.max_ok⟩
  · exact ⟨hw.q.field p th _ hth rfl, hw.ids.state p th _ hth rfl hnt hnt,
      hw.cur.update p th _ hth (by simp), hw.max_ok⟩

/-- Fields that `wake_step` never touches, and the shape of the READY deque. -/
theorem wake_step_frame (s s1 : Sched) (p : Nat) (h : wake_step s p = some s1) :
    s1.current_running_thread = s.current_running_thread ∧
    s1.blocked_threads = s.blocked_threads ∧ s1.next_addr = s.next_addr ∧
    s1.min_tid = s.min_tid ∧ s1.quantum_counter = s.quantum_counter ∧
    s1.available_tids = s.available_tids ∧ s1.tid_to_thread_map = s.tid_to_thread_map ∧
    (∃ w, s1.ready_threads = s.ready_threads ++ w ∧ ∀ x ∈ w, x = p) ∧
    (∀ q, q ≠ p → s1.heap q = s.heap q) ∧
    (∃ th, s.heap p = some th ∧ s1.heap p = some
      { th with
        _quantums_left_in_sleeping := th._quantums_left_in_sleeping - 1
        _state := if th._quantums_left_in_sleeping - 1 = 0 then
            (if th._state = State.SLEEPING then State.READY else State.BLOCKED)
          else th._state }) := by
  obtain ⟨th, hth, hc⟩ := wake_step_cases s s1 p h
  rcases hc with ⟨h0, hS, rfl⟩ | ⟨h0, hS, rfl⟩ | ⟨h0, rfl⟩
  · refine ⟨rfl, rfl, rfl, rfl, rfl, rfl, rfl, ⟨[p], rfl, by simp⟩, ?_, th, hth, ?_⟩
    · intro q hq; simp [Sched.write, Function.update_apply, hq]
    · simp [Sched.write, h0, hS]
  · refine ⟨rfl, rfl, rfl, rfl, rfl, rfl, rfl, ⟨[], by simp [Sched.write], by simp⟩, ?_,
      th, hth, ?_⟩
    · intro q hq; simp [Sched.write, Function.update_apply, hq]
    · simp [Sched.write, h0, hS]
  · refine ⟨rfl, rfl, rfl, rfl, rfl, rfl, rfl, ⟨[], by simp [Sched.write], by simp⟩, ?_, th, hth, ?_⟩
    · intro q hq; simp [Sched.write, Function.update_apply, hq]
    · simp [Sched.write, h0]

theorem wake_step_sleeping (s s1 : Sched) (p q : Nat) (h : wake_step s p = some s1)
    (hqp : q ≠ p) : q ∈ s1.sleeping_threads ↔ q ∈ s.sleeping_threads := by
  obtain ⟨th, hth, hc⟩ := wake_step_cases s s1 p h
  rcases hc with ⟨_, hS, rfl⟩ | ⟨_, hS, rfl⟩ | ⟨_, rfl⟩
  · simp [List.mem_erase_of_ne hqp]
  · simp [List.mem_erase_of_ne hqp]
  · simp [Sched.write]

theorem erase_slots_mem (front back live : List Nat) (p q : Nat)
    (h : q ∈ (erase_slots front back live p).1 ++ (erase_slots front back live p).2) :
    q ∈ front ++ back ∨ q ∈ live := by
  unfold erase_slots at h
  split at h
  · split at h
    · simp only [List.mem_append] at h ⊢
      rcases h with (h | h) | h
      · exact Or.inl (Or.inl h)
      · exact Or.inr (List.mem_of_mem_take h)
      · exact Or.inl (Or.inr h)
    · simp only [List.mem_append] at h ⊢
      rcases h with h | h | h
      · exact Or.inl (Or.inl h)
      · right
        simp only [Option.mem_toList, Option.mem_def] at h
        exact List.mem_of_getLast?_eq_some h
      · exact Or.inl (Or.inr h)
  · exact Or.inl h

/-- One visit of the loop keeps a pointer in the SLEEPING deque, or leaves it
(or finds it) woken: alive, with no time left, not TERMINATED. -/
theorem wake_step_slot {M : Nat} (s s1 : Sched) (p q : Nat) (hw : WInv M s)
    (h : wake_step s p = some s1)
    (hq : q ∈ s.sleeping_threads ∨
      ∃ t, s.heap q = some t ∧ t._quantums_left_in_sleeping ≤ 0 ∧
        t._state ≠ State.TERMINATED) :
    q ∈ s1.sleeping_threads ∨
      ∃ t, s1.heap q = some t ∧ t._quantums_left_in_sleeping ≤ 0 ∧
        t._state ≠ State.TERMINATED := by
  obtain ⟨th, hth, hc⟩ := wake_step_cases s s1 p h
  by_cases hqp : q = p
  · subst hqp
    rcases hq with hq | ⟨t, ht, hle, hnt⟩
    · have hsl := (hw.q.mem_sleeping q th hth).mp hq
      rcases hc with ⟨h0, hS, rfl⟩ | ⟨h0, hS, rfl⟩ | ⟨h0, rfl⟩
      · right
        refine ⟨{ th with _quantums_left_in_sleeping := th._quantums_left_in_sleeping - 1,
                          _state := State.READY }, by simp [Sched.write], ?_, by simp⟩
        show th._quantums_left_in_sleeping - 1 ≤ 0
        omega
      · right
        refine ⟨{ th with _quantums_left_in_sleeping := th._quantums_left_in_sleeping - 1,
                          _state := State.BLOCKED }, by simp [Sched.write], ?_, by simp⟩
        show th._quantums_left_in_sleeping - 1 ≤ 0
        omega
      · left
        exact hq
    · have e : th = t := Option.some.inj (hth.symm.trans ht)
      rw [← e] at hle hnt
      rcases hc with ⟨h0, _, _⟩ | ⟨h0, _, _⟩ | ⟨h0, rfl⟩
      · omega
      · omega
      · right
        refine ⟨{ th with _quantums_left_in_sleeping := th._quantums_left_in_sleeping - 1 },
          by simp [Sched.write], ?_, hnt⟩
        show th._quantums_left_in_sleeping - 1 ≤ 0
        omega
  · rcases hq with hq | ⟨t, ht, hle, hnt⟩
    · left
      exact (wake_step_sleeping s s1 p q h hqp).mpr hq
    · right
      refine ⟨t, ?_, hle, hnt⟩
      rw [(wake_step_frame s s1 p h).2.2.2.2.2.2.2.2.1 q hqp, ht]

/-- One visit of the loop preserves the invariant, whether the pointer visited
is in the SLEEPING deque or is a thread already woken. -/
theorem wake_step_visit_WInv {M : Nat} (s s1 : Sched) (p : Nat) (hw : WInv M s)
    (hp : p ∈ s.sleeping_threads ∨
      ∃ t, s.heap p = some t ∧ t._quantums_left_in_sleeping ≤ 0 ∧
        t._state ≠ State.TERMINATED)
    (h : wake_step s p = some s1) : WInv M s1 := by
  rcases hp with hp | ⟨t, ht, hle, hnt⟩
  · exact wake_step_WInv s s1 p hw hp h
  · obtain ⟨th, hth, hc⟩ := wake_step_cases s s1 p h
    have e : th = t := Option.some.inj (hth.symm.trans ht)
    rw [← e] at hle hnt
    rcases hc with ⟨h0, _, _⟩ | ⟨h0, _, _⟩ | ⟨h0, rfl⟩
    · omega
    · omega
    · exact ⟨hw.q.field p th _ hth rfl, hw.ids.state p th _ hth rfl hnt hnt,
        hw.cur.update p th _ hth (by simp), hw.max_ok⟩

theorem update_sleeping_loop_WInv {M : Nat} (n i : Nat) (front back : List Nat)
    (s s1 : Sched) (hw : WInv M s)
    (hsl : ∀ q ∈ front ++ back, q ∈ s.sleeping_threads ∨
      ∃ t, s.heap q = some t ∧ t._quantums_left_in_sleeping ≤ 0 ∧
        t._state ≠ State.TERMINATED)
    (h : update_sleeping_loop n i front back s = some s1) : WInv M s1 := by
  induction n generalizing i front back s with
  | zero => simp [update_sleeping_loop] at h; subst h; exact hw
  | succ n ih =>
    unfold update_sleeping_loop at h
    cases hp : (front ++ s.sleeping_threads ++ back)[i]? with
    | none => rw [hp] at h; cases h
    | some p =>
      rw [hp] at h
      simp only at h
      have hmem : p ∈ front ++ s.sleeping_threads ++ back := List.getElem?_mem hp
      have hpd : p ∈ s.sleeping_threads ∨
          ∃ t, s.heap p = some t ∧ t._quantums_left_in_sleeping ≤ 0 ∧
            t._state ≠ State.TERMINATED := by
        simp only [List.mem_append] at hmem
        rcases hmem with (hm | hm) | hm
        · exact hsl p (by simp [hm])
        · exact Or.inl hm
        · exact hsl p (by simp [hm])
      cases hth : s.heap p with
      | none => rw [hth] at h; cases h
      | some th =>
        rw [hth] at h
        simp only at h
        cases hws : wake_step s p with
        | none => rw [hws] at h; cases h
        | some s2 =>
          rw [hws] at h
          simp only at h
          have hw2 := wake_step_visit_WInv s s2 p hw hpd hws
          split at h
          · refine ih _ _ _ s2 hw2 ?_ h
            intro q hq
            apply wake_step_slot s s2 p q hw hws
            rcases erase_slots_mem _ _ _ _ _ hq with hq1 | hq1
            · exact hsl q hq1
            · exact Or.inl hq1
          · exact ih _ _ _ s2 hw2 (fun q hq => wake_step_slot s s2 p q hw hws (hsl q hq)) h

theorem update_sleeping_time_WInv {M : Nat} (s s1 : Sched) (hw : WInv M s)
    (h : update_sleeping_time s = some s1) : WInv M s1 :=
  update_sleeping_loop_WInv _ 0 [] [] s s1 hw (by simp) h

theorem run_next_ready_thread_Inv {M : Nat} (s s1 : Sched)
    (hq : QInvC s.heap s.next_addr s.ready_threads s.blocked_threads s.sleeping_threads)
    (hi : IdInvC M s.heap s.tid_to_thread_map s.available_tids s.min_tid)
    (hmax : (M : Int) ≤ INT_MAX)
    (hno : ∀ p th, s.heap p = some th →
      th._state ≠ State.RUNNING ∧ th._state ≠ State.TERMINATED)
    (h : run_next_ready_thread s = Outcome.switched s1) : Inv M s1 := by
  unfold run_next_ready_thread at h
  split at h
  · cases h
  · rename_i p rest hr
    split at h
    · cases h
    · rename_i th hth
      cases h
      rw [hr] at hq
      refine ⟨hq.dispatch p th _ hth rfl, hi.state p th _ hth rfl (hno p th hth).2 (by simp),
        ?_, hmax⟩
      refine ⟨p, { th with _state := State.RUNNING,
                           _num_of_quantum := th._num_of_quantum + 1 }, rfl,
        by simp [Sched.write], rfl, ?_⟩
      intro q t hqt ht
      by_contra hqp
      simp [Sched.write, Function.update_apply, hqp] at hqt
      have := hno q t hqt
      tauto

theorem run_next_ready_thread_not_ret (s : Sched) (v : Int) (s1 : Sched) :
    run_next_ready_thread s ≠ Outcome.ret v s1 := by
  unfold run_next_ready_thread
  split
  · simp
  · split <;> simp

theorem run_next_ready_thread_not_exit (s : Sched) (v : Int) :
    run_next_ready_thread s ≠ Outcome.exit v := by
  unfold run_next_ready_thread
  split
  · simp
  · split <;> simp

/-! ### What `update_sleeping_time` does to the state -/

theorem wake_step_sublist (s s1 : Sched) (p q : Nat) (h : wake_step s p = some s1)
    (hq : q ∈ s1.sleeping_threads) : q ∈ s.sleeping_threads := by
  obtain ⟨th, hth, hc⟩ := wake_step_cases s s1 p h
  rcases hc with ⟨_, _, rfl⟩ | ⟨_, _, rfl⟩ | ⟨_, rfl⟩
  · exact List.mem_of_mem_erase hq
  · exact List.mem_of_mem_erase hq
  · exact hq

/-- Fields that the loop never touches, the shape of the READY deque, and the
effect on each thread: a thread is visited some number of times, each visit
ticks it once; only threads of the buffer are visited, and a woken thread is
appended to READY. -/
theorem update_sleeping_loop_frame (n i : Nat) (front back : List Nat) (s s1 : Sched)
    (S : List Nat) (hS : ∀ q ∈ front ++ s.sleeping_threads ++ back, q ∈ S)
    (h : update_sleeping_loop n i front back s = some s1) :
    s1.current_running_thread = s.current_running_thread ∧
    s1.blocked_threads = s.blocked_threads ∧ s1.next_addr = s.next_addr ∧
    s1.min_tid = s.min_tid ∧ s1.quantum_counter = s.quantum_counter ∧
    s1.available_tids = s.available_tids ∧ s1.tid_to_thread_map = s.tid_to_thread_map ∧
    (∃ w, s1.ready_threads = s.ready_threads ++ w ∧ ∀ x ∈ w, x ∈ S) ∧
    (∀ q, q ∉ S → s1.heap q = s.heap q) ∧
    (∀ q th, s.heap q = some th → ∃ k, s1.heap q = some (Nat.iterate tick_thread k th)) ∧
    (∀ q, s.heap q = none → s1.heap q = none) := by
  induction n generalizing i front back s with
  | zero =>
    simp [update_sleeping_loop] at h
    subst h
    exact ⟨rfl, rfl, rfl, rfl, rfl, rfl, rfl, ⟨[], by simp, by simp⟩, fun _ _ => rfl,
      fun q th hq => ⟨0, hq⟩, fun _ hq => hq⟩
  | succ n ih =>
    unfold update_sleeping_loop at h
    cases hp : (front ++ s.sleeping_threads ++ back)[i]? with
    | none => rw [hp] at h; cases h
    | some p =>
      rw [hp] at h
      simp only at h
      have hpS : p ∈ S := hS p (List.getElem?_mem hp)
      cases hth : s.heap p with
      | none => rw [hth] at h; cases h
      | some th =>
        rw [hth] at h
        simp only at h
        cases hws : wake_step s p with
        | none => rw [hws] at h; cases h
        | some s2 =>
          rw [hws] at h
          simp only at h
          obtain ⟨a1, a2, a3, a4, a5, a6, a7, ⟨w1, hw1, hw1p⟩, a9, th1, hth1, hth2⟩ :=
            wake_step_frame s s2 p hws
          rw [hth] at hth1
          cases hth1
          have key : ∀ f b, (∀ q ∈ f ++ b, q ∈ front ++ back ∨ q ∈ s.sleeping_threads) →
              update_sleeping_loop n (i + 1) f b s2 = some s1 →
              s1.current_running_thread = s.current_running_thread ∧
              s1.blocked_threads = s.blocked_threads ∧ s1.next_addr = s.next_addr ∧
              s1.min_tid = s.min_tid ∧ s1.quantum_counter = s.quantum_counter ∧
              s1.available_tids = s.available_tids ∧
              s1.tid_to_thread_map = s.tid_to_thread_map ∧
              (∃ w, s1.ready_threads = s.ready_threads ++ w ∧ ∀ x ∈ w, x ∈ S) ∧
              (∀ q, q ∉ S → s1.heap q = s.heap q) ∧
              (∀ q th, s.heap q = some th →
                ∃ k, s1.heap q = some (Nat.iterate tick_thread k th)) ∧
              (∀ q, s.heap q = none → s1.heap q = none) := by
            intro f b hfb h2
            have hS2 : ∀ q ∈ f ++ s2.sleeping_threads ++ b, q ∈ S := by
              intro q hq
              simp only [List.mem_append] at hq
              rcases hq with (hq | hq) | hq
              · rcases hfb q (by simp [hq]) with h3 | h3
                · simp only [List.mem_append] at h3
                  rcases h3 with h3 | h3
                  · exact hS q (by simp [h3])
                  · exact hS q (by simp [h3])
                · exact hS q (by simp [h3])
              · exact hS q (by simp [wake_step_sublist s s2 p q hws hq])
              · rcases hfb q (by simp [hq]) with h3 | h3
                · simp only [List.mem_append] at h3
                  rcases h3 with h3 | h3
                  · exact hS q (by simp [h3])
                  · exact hS q (by simp [h3])
                · exact hS q (by simp [h3])
            obtain ⟨b1, b2, b3, b4, b5, b6, b7, ⟨w2, hw2, hw2p⟩, b9, b10, b11⟩ :=
              ih _ _ _ s2 hS2 h2
            refine ⟨b1.trans a1, b2.trans a2, b3.trans a3, b4.trans a4, b5.trans a5,
              b6.trans a6, b7.trans a7, ⟨w1 ++ w2, ?_, ?_⟩, ?_, ?_, ?_⟩
            · rw [hw2, hw1, List.append_assoc]
            · intro x hx
              rcases List.mem_append.mp hx with hx | hx
              · rw [hw1p x hx]; exact hpS
              · exact hw2p x hx
            · intro q hq
              have hqp : q ≠ p := by
                intro he; subst he; exact hq hpS
              rw [b9 q hq, a9 q hqp]
            · intro q t hq
              by_cases hqp : q = p
              · subst hqp
                rw [hth] at hq
                cases hq
                obtain ⟨k, hk⟩ := b10 q _ hth2
                exact ⟨k + 1, hk⟩
              · exact b10 q t (by rw [a9 q hqp, hq])
            · intro q hq
              have hqp : q ≠ p := by
                intro he; subst he; rw [hth] at hq; cases hq
              exact b11 q (by rw [a9 q hqp, hq])
          split at h
          · exact key _ _ (fun q hq => erase_slots_mem _ _ _ _ _ hq) h
          · exact key _ _ (fun q hq => Or.inl hq) h

/-- What `update_sleeping_time` does: every thread is ticked as many times as
the loop visits it (not at all if it is not in the SLEEPING deque), woken
threads are appended to READY, nothing else moves. -/
theorem update_sleeping_time_frame (s s1 : Sched) (h : update_sleeping_time s = some s1) :
    s1.current_running_thread = s.current_running_thread ∧
    s1.blocked_threads = s.blocked_threads ∧ s1.next_addr = s.next_addr ∧
    s1.min_tid = s.min_tid ∧ s1.quantum_counter = s.quantum_counter ∧
    s1.available_tids = s.available_tids ∧ s1.tid_to_thread_map = s.tid_to_thread_map ∧
    (∃ w, s1.ready_threads = s.ready_threads ++ w ∧ ∀ x ∈ w, x ∈ s.sleeping_threads) ∧
    (∀ q, q ∉ s.sleeping_threads → s1.heap q = s.heap q) ∧
    (∀ q th, s.heap q = some th → ∃ k, s1.heap q = some (Nat.iterate tick_thread k th)) ∧
    (∀ q, s.heap q = none → s1.heap q = none) :=
  update_sleeping_loop_frame _ 0 [] [] s s1 s.sleeping_threads (by simp) h

/-- The first pass of the loop of `update_sleeping_time` reads the front of the
SLEEPING deque before anything has been erased: the thread at the front is
ticked at least once. -/
theorem update_sleeping_time_head (s s1 : Sched) (h : update_sleeping_time s = some s1)
    (x : Nat) (th : Thread) (hx : s.heap x = some th)
    (hhd : s.sleeping_threads.head? = some x) :
    ∃ k, s1.heap x = some (Nat.iterate tick_thread (k + 1) th) := by
  unfold update_sleeping_time at h
  cases hl : s.sleeping_threads with
  | nil => rw [hl] at hhd; cases hhd
  | cons a rest =>
    rw [hl] at hhd
    have hax : a = x := by simpa using hhd
    subst hax
    have hlen : s.sleeping_threads.length = rest.length + 1 := by rw [hl]; rfl
    rw [hlen] at h
    unfold update_sleeping_loop at h
    have h0 : ([] ++ s.sleeping_threads ++ [])[0]? = some a := by rw [hl]; simp
    rw [h0] at h
    simp only at h
    rw [hx] at h
    simp only at h
    cases hws : wake_step s a with
    | none => rw [hws] at h; cases h
    | some s2 =>
      rw [hws] at h
      simp only at h
      obtain ⟨_, _, _, _, _, _, _, _, _, th1, hth1, hth2⟩ := wake_step_frame s s2 a hws
      rw [hx] at hth1
      cases hth1
      have h2 : s2.heap a = some (tick_thread th) := hth2
      split at h
      · obtain ⟨k, hk⟩ :=
          (update_sleeping_loop_frame _ _ _ _ s2 s1 _ (fun q hq => hq) h).2.2.2.2.2.2.2.2.2.1
            a _ h2
        exact ⟨k, hk⟩
      · obtain ⟨k, hk⟩ :=
          (update_sleeping_loop_frame _ _ _ _ s2 s1 _ (fun q hq => hq) h).2.2.2.2.2.2.2.2.2.1
            a _ h2
        exact ⟨k, hk⟩

/-- What `update_sleeping_time` does to one thread: it is ticked once for each
visit of the loop, not at all if it is not in the SLEEPING deque, and at least
once if it is at the front of that deque. -/
theorem update_sleeping_time_cell (s s1 : Sched) (h : update_sleeping_time s = some s1)
    (x : Nat) (th : Thread) (hx : s.heap x = some th) :
    ∃ k, s1.heap x = some (Nat.iterate tick_thread k th) ∧
      (x ∉ s.sleeping_threads → k = 0) ∧
      (s.sleeping_threads.head? = some x → 0 < k) := by
  obtain ⟨_, _, _, _, _, _, _, _, f9, f10, _⟩ := update_sleeping_time_frame s s1 h
  by_cases hhd : s.sleeping_threads.head? = some x
  · obtain ⟨k, hk⟩ := update_sleeping_time_head s s1 h x th hx hhd
    exact ⟨k + 1, hk, fun hn => absurd (List.mem_of_mem_head? hhd) hn, fun _ => Nat.succ_pos k⟩
  · by_cases hxs : x ∈ s.sleeping_threads
    · obtain ⟨k, hk⟩ := f10 x th hx
      exact ⟨k, hk, fun h => absurd hxs h, fun h => absurd h hhd⟩
    · exact ⟨0, by rw [f9 x hxs, hx]; rfl, fun _ => rfl, fun h => absurd h hhd⟩

/-- Ticks change neither the id nor the count of quanta of a thread. -/
theorem iterate_tick_thread_id (k : Nat) (th : Thread) :
    (Nat.iterate tick_thread k th)._id = th._id ∧
    (Nat.iterate tick_thread k th)._num_of_quantum = th._num_of_quantum := by
  induction k generalizing th with
  | zero => exact ⟨rfl, rfl⟩
  | succ k ih =>
    have := ih (tick_thread th)
    exact ⟨this.1, this.2⟩

/-- Ticks leave a SLEEPING thread SLEEPING or make it READY, with no time
left. -/
theorem iterate_tick_thread_sleeping (k : Nat) (th : Thread)
    (h : th._state = State.SLEEPING ∨
      (th._state = State.READY ∧ th._quantums_left_in_sleeping ≤ 0)) :
    (Nat.iterate tick_thread k th)._state = State.SLEEPING ∨
      ((Nat.iterate tick_thread k th)._state = State.READY ∧
        (Nat.iterate tick_thread k th)._quantums_left_in_sleeping ≤ 0) := by
  induction k generalizing th with
  | zero => exact h
  | succ k ih =>
    apply ih (tick_thread th)
    unfold tick_thread
    rcases h with h | ⟨h, hle⟩
    · by_cases hz : th._quantums_left_in_sleeping - 1 = 0
      · right
        simp only [if_pos hz, if_pos h]
        exact ⟨trivial, by omega⟩
      · left
        simp only [if_neg hz]
        exact h
    · right
      have hz : th._quantums_left_in_sleeping - 1 ≠ 0 := by omega
      simp only [if_neg hz]
      exact ⟨h, by omega⟩

/-- Ticks leave a SLEEPING_AND_BLOCKED thread as it is or make it BLOCKED, with
no time left; they leave a BLOCKED thread BLOCKED. -/
theorem iterate_tick_thread_blocked (k : Nat) (th : Thread)
    (h : th._state = State.SLEEPING_AND_BLOCKED ∨ th._state = State.BLOCKED) :
    (Nat.iterate tick_thread k th)._state = State.SLEEPING_AND_BLOCKED ∨
      (Nat.iterate tick_thread k th)._state = State.BLOCKED := by
  induction k generalizing th with
  | zero => exact h
  | succ k ih =>
    apply ih (tick_thread th)
    unfold tick_thread
    rcases h with h | h
    · by_cases hz : th._quantums_left_in_sleeping - 1 = 0
      · right
        simp only [if_pos hz, h]
        simp
      · left
        simp only [if_neg hz]
        exact h
    · right
      by_cases hz : th._quantums_left_in_sleeping - 1 = 0
      · simp only [if_pos hz, h]
        simp
      · simp only [if_neg hz]
        exact h

/-- The record of a thread after `k` ticks: each tick takes one quantum off the
time left, and the tick that brings it to zero makes a SLEEPING thread READY
and any other thread BLOCKED; later ticks leave the state alone. -/
theorem iterate_tick_thread_eq (k : Nat) (th : Thread) :
    Nat.iterate tick_thread k th =
      { th with
        _quantums_left_in_sleeping := th._quantums_left_in_sleeping - k
        _state := if 1 ≤ th._quantums_left_in_sleeping ∧ th._quantums_left_in_sleeping ≤ k then
            (if th._state = State.SLEEPING then State.READY else State.BLOCKED)
          else th._state } := by
  induction k generalizing th with
  | zero =>
    have hc : ¬ (1 ≤ th._quantums_left_in_sleeping ∧
        th._quantums_left_in_sleeping ≤ ((0 : Nat) : Int)) := by
      intro h
      have := h.2
      simp at this
      omega
    cases th
    simp only [Nat.iterate, if_neg hc]
    simp
  | succ k ih =>
    show Nat.iterate tick_thread k (tick_thread th) = _
    rw [ih (tick_thread th)]
    cases th with
    | mk id st nq left =>
      simp only [tick_thread]
      by_cases h1 : left = 1
      · subst h1
        simp
      · have hz : left - 1 ≠ 0 := by omega
        simp only [if_neg hz]
        have e : left - 1 - (k : Int) = left - ((k + 1 : Nat) : Int) := by
          push_cast
          omega
        have hc : (1 ≤ left - 1 ∧ left - 1 ≤ (k : Int)) ↔
            (1 ≤ left ∧ left ≤ ((k + 1 : Nat) : Int)) := by
          push_cast
          constructor
          · intro h; exact ⟨by omega, by omega⟩
          · intro h; exact ⟨by omega, by omega⟩
        simp only [e, hc]

/-! ### `timer_handler` re-establishes the invariant -/

/-- The state `timer_handler` hands to the dispatcher once the sleepers have
been updated: the current thread is requeued if RUNNING, deleted if TERMINATED. -/
theorem timer_handler_switched (s s2 : Sched) (h : timer_handler s = Outcome.switched s2) :
    ∃ c th s1 th1, s.current_running_thread = some c ∧ s.heap c = some th ∧
      (th._state = State.TERMINATED ∨ th._state = State.BLOCKED ∨
        th._state = State.SLEEPING ∨ th._state = State.RUNNING) ∧
      update_sleeping_time s = some s1 ∧ s1.heap c = some th1 ∧
      ((th1._state = State.RUNNING ∧
          run_next_ready_thread
            { (s1.write c { th1 with _state := State.READY }) with
              ready_threads := s1.ready_threads ++ [c] } = Outcome.switched s2) ∨
       (th1._state = State.TERMINATED ∧
          run_next_ready_thread { (s1.free c) with current_running_thread := none }
            = Outcome.switched s2) ∨
       (th1._state ≠ State.RUNNING ∧ th1._state ≠ State.TERMINATED ∧
          run_next_ready_thread s1 = Outcome.switched s2)) := by
  unfold timer_handler at h
  split at h
  · cases h
  · rename_i c hc
    split at h
    · cases h
    · rename_i th hth
      split at h
      · rename_i hst
        split at h
        · cases h
        · rename_i s1 hs1
          split at h
          · cases h
          · rename_i th1 hth1
            refine ⟨c, th, s1, th1, hc, hth, hst, hs1, hth1, ?_⟩
            split at h
            · left; exact ⟨by assumption, h⟩
            · split at h
              · right; left; exact ⟨by assumption, h⟩
              · right; right; exact ⟨by assumption, by assumption, h⟩
      · cases h

theorem timer_handler_ret (s s2 : Sched) (v : Int) (h : timer_handler s = Outcome.ret v s2) :
    s2 = s ∧ v = 0 ∧ ∃ c th, s.current_running_thread = some c ∧ s.heap c = some th ∧
      (th._state = State.READY ∨ th._state = State.SLEEPING_AND_BLOCKED) := by
  unfold timer_handler at h
  split at h
  · cases h
  · rename_i c hc
    split at h
    · cases h
    · rename_i th hth
      split at h
      · split at h
        · cases h
        · split at h
          · cases h
          · split at h
            · exact absurd h (run_next_ready_thread_not_ret _ _ _)
            · split at h
              · exact absurd h (run_next_ready_thread_not_ret _ _ _)
              · exact absurd h (run_next_ready_thread_not_ret _ _ _)
      · rename_i hst
        cases h
        refine ⟨rfl, rfl, c, th, hc, hth, ?_⟩
        cases hs : th._state <;> simp_all

theorem timer_handler_not_exit (s : Sched) (v : Int) : timer_handler s ≠ Outcome.exit v := by
  intro h
  unfold timer_handler at h
  split at h
  · cases h
  · split at h
    · cases h
    · split at h
      · split at h
        · cases h
        · split at h
          · cases h
          · split at h
            · exact absurd h (run_next_ready_thread_not_exit _ _)
            · split at h
              · exact absurd h (run_next_ready_thread_not_exit _ _)
              · exact absurd h (run_next_ready_thread_not_exit _ _)
      · cases h

theorem timer_handler_Inv {M : Nat} (s s2 : Sched) (hw : WInv M s)
    (h : timer_handler s = Outcome.switched s2) : Inv M s2 := by
  obtain ⟨c, th, s1, th1, hc, hth, hst, hs1, hth1, hcase⟩ := timer_handler_switched s s2 h
  have hw1 := update_sleeping_time_WInv s s1 hw hs1
  have hcur1 : s1.current_running_thread = some c := by
    rw [(update_sleeping_time_frame s s1 hs1).1, hc]
  obtain ⟨c1, hc1, hlive, huniq⟩ := hw1.cur
  rw [hcur1] at hc1
  cases hc1
  rcases hcase with ⟨hR, hrun⟩ | ⟨hT, hrun⟩ | ⟨hnR, hnT, hrun⟩
  · refine run_next_ready_thread_Inv _ s2 ?_ ?_ hw.max_ok ?_ hrun
    · exact hw1.q.preempt c th1 _ hth1 hR rfl
    · exact hw1.ids.state c th1 _ hth1 rfl (by simp [hR]) (by simp)
    · intro q t hq
      by_cases hqc : q = c
      · subst hqc
        simp [Sched.write] at hq
        subst hq
        simp
      · simp [Sched.write, Function.update_apply, hqc] at hq
        constructor
        · intro ht; exact hqc (huniq q t hq (Or.inl ht))
        · intro ht; exact hqc (huniq q t hq (Or.inr ht))
  · refine run_next_ready_thread_Inv _ s2 ?_ ?_ hw.max_ok ?_ hrun
    · exact hw1.q.free_plain c th1 hth1 (Or.inr hT)
    · exact hw1.ids.free_terminated c th1 hth1 hT
    · intro q t hq
      by_cases hqc : q = c
      · subst hqc
        simp [Sched.free] at hq
      · simp [Sched.free, Function.update_apply, hqc] at hq
        constructor
        · intro ht; exact hqc (huniq q t hq (Or.inl ht))
        · intro ht; exact hqc (huniq q t hq (Or.inr ht))
  · refine run_next_ready_thread_Inv _ s2 hw1.q hw1.ids hw.max_ok ?_ hrun
    intro q t hq
    by_cases hqc : q = c
    · subst hqc
      rw [hth1] at hq
      cases hq
      exact ⟨hnR, hnT⟩
    · constructor
      · intro ht; exact hqc (huniq q t hq (Or.inl ht))
      · intro ht; exact hqc (huniq q t hq (Or.inr ht))

/-! ### The API calls preserve the invariant -/

theorem StableC.update_other {heap : Nat → Option Thread} {cur : Option Nat}
    (hc : StableC heap cur) (p : Nat) (th th1 : Thread) (hp : heap p = some th)
    (h0 : th._state ≠ State.RUNNING)
    (h1 : th1._state ≠ State.RUNNING ∧ th1._state ≠ State.TERMINATED) :
    StableC (Function.update heap p (some th1)) cur := by
  obtain ⟨c, t, hcur, hlive, hrun, huniq⟩ := hc
  have hcp : c ≠ p := by
    intro he
    subst he
    rw [hp] at hlive
    cases hlive
    exact h0 hrun
  refine ⟨c, t, hcur, by simp [Function.update_apply, hcp, hlive], hrun, ?_⟩
  intro q t1 hq ht
  by_cases hqp : q = p
  · subst hqp
    simp at hq
    subst hq
    tauto
  · simp [Function.update_apply, hqp] at hq
    exact huniq q t1 hq ht

theorem StableC.free_other {heap : Nat → Option Thread} {cur : Option Nat}
    (hc : StableC heap cur) (p : Nat) (th : Thread) (hp : heap p = some th)
    (h0 : th._state ≠ State.RUNNING) :
    StableC (Function.update heap p none) cur := by
  obtain ⟨c, t, hcur, hlive, hrun, huniq⟩ := hc
  have hcp : c ≠ p := by
    intro he
    subst he
    rw [hp] at hlive
    cases hlive
    exact h0 hrun
  refine ⟨c, t, hcur, by simp [Function.update_apply, hcp, hlive], hrun, ?_⟩
  intro q t1 hq ht
  by_cases hqp : q = p
  · subst hqp
    simp at hq
  · simp [Function.update_apply, hqp] at hq
    exact huniq q t1 hq ht

theorem StableC.alloc_other {heap : Nat → Option Thread} {cur : Option Nat}
    (hc : StableC heap cur) (n : Nat) (th1 : Thread) (hn : heap n = none)
    (h1 : th1._state ≠ State.RUNNING ∧ th1._state ≠ State.TERMINATED) :
    StableC (Function.update heap n (some th1)) cur := by
  obtain ⟨c, t, hcur, hlive, hrun, huniq⟩ := hc
  have hcp : c ≠ n := by
    intro he
    subst he
    rw [hn] at hlive
    cases hlive
  refine ⟨c, t, hcur, by simp [Function.update_apply, hcp, hlive], hrun, ?_⟩
  intro q t1 hq ht
  by_cases hqp : q = n
  · subst hqp
    simp at hq
    subst hq
    tauto
  · simp [Function.update_apply, hqp] at hq
    exact huniq q t1 hq ht

/-- A successful `uthread_spawn`, spelled out. -/
theorem uthread_spawn_ret (M : Nat) (s s1 : Sched) (v : Int)
    (h : uthread_spawn M s = Outcome.ret v s1) :
    (s.min_tid ≥ M ∧ v = -1 ∧ s1 = s) ∨
    (s.min_tid < M ∧ v = s.min_tid ∧ ∃ m, s.available_tids.tail.head? = some m ∧
      s1 = { s with
          heap := Function.update s.heap s.next_addr (some (Thread.spawned s.min_tid))
          next_addr := s.next_addr + 1
          ready_threads := s.ready_threads ++ [s.next_addr]
          tid_to_thread_map := Function.update s.tid_to_thread_map s.min_tid (some s.next_addr)
          available_tids := s.available_tids.tail
          min_tid := m }) := by
  unfold uthread_spawn at h
  split at h
  · cases h
    left
    exact ⟨by assumption, rfl, rfl⟩
  · rename_i hlt
    simp only at h
    split at h
    · cases h
    · rename_i m hm
      cases h
      right
      exact ⟨by omega, rfl, m, hm, rfl⟩

theorem uthread_spawn_not_switched (M : Nat) (s s1 : Sched) :
    uthread_spawn M s ≠ Outcome.switched s1 := by
  unfold uthread_spawn
  split
  · simp
  · simp only
    split <;> simp

theorem uthread_spawn_Inv {M : Nat} (s s1 : Sched) (v : Int) (hi : Inv M s)
    (h : uthread_spawn M s = Outcome.ret v s1) : Inv M s1 := by
  rcases uthread_spawn_ret M s s1 v h with ⟨_, _, rfl⟩ | ⟨hlt, _, m, hm, rfl⟩
  · exact hi
  · have hf := (hi.q.fresh s.next_addr (le_refl _)).1
    exact ⟨hi.q.alloc_queue (Thread.spawned s.min_tid) _ (Or.inl ⟨rfl, rfl⟩),
      hi.ids.alloc_id s.next_addr (Thread.spawned s.min_tid) m hf hlt rfl
        (by simp [Thread.spawned]) hm,
      hi.stable.alloc_other s.next_addr _ hf (by simp [Thread.spawned]), hi.max_ok⟩

/-- The outcome of the tail of `uthread_block`, spelled out. -/
theorem uthread_block_tail_ret (tid : Int) (s s1 : Sched) (v : Int)
    (h : uthread_block_tail tid s = Outcome.ret v s1) :
    v = 0 ∧ ∃ p th, s.tid_to_thread_map tid = some p ∧ s.heap p = some th ∧
      ((th._state = State.READY ∧
        s1 = { (s.write p { th with _state := State.BLOCKED }) with
            blocked_threads := s.blocked_threads ++ [p]
            ready_threads := s.ready_threads.erase p }) ∨
       (th._state = State.SLEEPING ∧
        s1 = { (s.write p { th with _state := State.SLEEPING_AND_BLOCKED }) with
            blocked_threads := s.blocked_threads ++ [p] }) ∨
       (th._state ≠ State.READY ∧ th._state ≠ State.SLEEPING ∧ s1 = s)) := by
  unfold uthread_block_tail at h
  split at h
  · cases h
  · rename_i p hp
    split at h
    · cases h
    · rename_i th hth
      split at h
      · cases h
        exact ⟨rfl, p, th, hp, hth, Or.inl ⟨by assumption, rfl⟩⟩
      · split at h
        · cases h
          exact ⟨rfl, p, th, hp, hth, Or.inr (Or.inl ⟨by assumption, rfl⟩)⟩
        · cases h
          exact ⟨rfl, p, th, hp, hth, Or.inr (Or.inr ⟨by assumption, by assumption, rfl⟩)⟩

theorem uthread_block_tail_not_switched (tid : Int) (s s1 : Sched) :
    uthread_block_tail tid s ≠ Outcome.switched s1 := by
  unfold uthread_block_tail
  split
  · simp
  · split
    · simp
    · split
      · simp
      · split <;> simp

theorem uthread_block_tail_Inv {M : Nat} (tid : Int) (s s1 : Sched) (v : Int) (hi : Inv M s)
    (h : uthread_block_tail tid s = Outcome.ret v s1) : Inv M s1 := by
  obtain ⟨_, p, th, hp, hth, hc⟩ := uthread_block_tail_ret tid s s1 v h
  rcases hc with ⟨hst, rfl⟩ | ⟨hst, rfl⟩ | ⟨_, _, rfl⟩
  · exact ⟨hi.q.block_ready p th _ hth hst rfl,
      hi.ids.state p th _ hth rfl (by simp [hst]) (by simp),
      hi.stable.update_other p th _ hth (by simp [hst]) (by simp), hi.max_ok⟩
  · exact ⟨hi.q.block_sleeping p th _ hth hst rfl,
      hi.ids.state p th _ hth rfl (by simp [hst]) (by simp),
      hi.stable.update_other p th _ hth (by simp [hst]) (by simp), hi.max_ok⟩
  · exact hi

/-- The outcome of `uthread_resume`, spelled out. -/
theorem uthread_resume_ret (tid : Int) (s s1 : Sched) (v : Int)
    (h : uthread_resume tid s = Outcome.ret v s1) :
    (tid ∈ s.available_tids ∧ v = -1 ∧ s1 = s) ∨
    (tid ∉ s.available_tids ∧ v = 0 ∧ ∃ p th, s.tid_to_thread_map tid = some p ∧
      s.heap p = some th ∧
      ((th._state = State.SLEEPING_AND_BLOCKED ∧
        s1 = { (s.write p { th with _state := State.SLEEPING }) with
            blocked_threads := s.blocked_threads.erase p }) ∨
       (th._state = State.BLOCKED ∧
        s1 = { (s.write p { th with _state := State.READY }) with
            ready_threads := s.ready_threads ++ [p]
            blocked_threads := s.blocked_threads.erase p }) ∨
       (th._state ≠ State.SLEEPING_AND_BLOCKED ∧ th._state ≠ State.BLOCKED ∧
        s1 = { s with blocked_threads := s.blocked_threads.erase p }))) := by
  unfold uthread_resume at h
  split at h
  · cases h
    exact Or.inl ⟨by assumption, rfl, rfl⟩
  · rename_i hav
    split at h
    · cases h
    · rename_i p hp
      split at h
      · cases h
      · rename_i th hth
        right
        split at h
        · cases h
          exact ⟨hav, rfl, p, th, hp, hth, Or.inl ⟨by assumption, rfl⟩⟩
        · split at h
          · cases h
            exact ⟨hav, rfl, p, th, hp, hth, Or.inr (Or.inl ⟨by assumption, rfl⟩)⟩
          · cases h
            exact ⟨hav, rfl, p, th, hp, hth,
              Or.inr (Or.inr ⟨by assumption, by assumption, rfl⟩)⟩

theorem uthread_resume_not_switched (tid : Int) (s s1 : Sched) :
    uthread_resume tid s ≠ Outcome.switched s1 := by
  unfold uthread_resume
  split
  · simp
  · split
    · simp
    · split
      · simp
      · split
        · simp
        · split <;> simp

theorem uthread_resume_Inv {M : Nat} (tid : Int) (s s1 : Sched) (v : Int) (hi : Inv M s)
    (h : uthread_resume tid s = Outcome.ret v s1) : Inv M s1 := by
  rcases uthread_resume_ret tid s s1 v h with ⟨_, _, rfl⟩ | ⟨_, _, p, th, hp, hth, hc⟩
  · exact hi
  · rcases hc with ⟨hst, rfl⟩ | ⟨hst, rfl⟩ | ⟨h1, h2, rfl⟩
    · exact ⟨hi.q.resume_sb p th _ hth hst rfl,
        hi.ids.state p th _ hth rfl (by simp [hst]) (by simp),
        hi.stable.update_other p th _ hth (by simp [hst]) (by simp), hi.max_ok⟩
    · exact ⟨hi.q.resume_blocked p th _ hth hst rfl,
        hi.ids.state p th _ hth rfl (by simp [hst]) (by simp),
        hi.stable.update_other p th _ hth (by simp [hst]) (by simp), hi.max_ok⟩
    · have he := hi.q.erase_blocked_noop p th hth h1 h2
      refine ⟨?_, hi.ids, hi.stable, hi.max_ok⟩
      show QInvC s.heap s.next_addr s.ready_threads (s.blocked_threads.erase p) s.sleeping_threads
      rw [he]
      exact hi.q

/-- In a stable state the current thread is the only RUNNING one. -/
theorem StableC.cur_running {heap : Nat → Option Thread} {cur : Option Nat}
    (hs : StableC heap cur) (c : Nat) (th : Thread) (hc : cur = some c)
    (hth : heap c = some th) : th._state = State.RUNNING := by
  obtain ⟨c1, t, hcur, hlive, hrun, _⟩ := hs
  rw [hc] at hcur
  cases hcur
  rw [hth] at hlive
  cases hlive
  exact hrun

/-- The outcome of `uthread_block`, spelled out. -/
theorem uthread_block_cases (tid : Int) (s : Sched) (o : Outcome) (h : uthread_block tid s = o) :
    ((tid ∈ s.available_tids ∨ tid = 0) ∧ o = Outcome.ret (-1) s) ∨
    (tid ∉ s.available_tids ∧ tid ≠ 0 ∧
      ((s.current_running_thread = none ∧ o = Outcome.fault) ∨
       ∃ c, s.current_running_thread = some c ∧
        ((s.heap c = none ∧ o = Outcome.fault) ∨
         ∃ th, s.heap c = some th ∧
          ((th._id ≠ toUnsigned tid ∧ o = uthread_block_tail tid s) ∨
           (th._id = toUnsigned tid ∧
            o = match timer_handler
                { (s.write c { th with _state := State.BLOCKED }) with
                  blocked_threads := s.blocked_threads ++ [c] } with
              | Outcome.ret _ s1 => uthread_block_tail tid s1
              | o1 => o1))))) := by
  unfold uthread_block at h
  split at h
  · left; exact ⟨Or.inl (by assumption), h.symm⟩
  · split at h
    · left; exact ⟨Or.inr (by assumption), h.symm⟩
    · right
      refine ⟨by assumption, by assumption, ?_⟩
      split at h
      · left; exact ⟨by assumption, h.symm⟩
      · rename_i c hc
        right
        refine ⟨c, hc, ?_⟩
        split at h
        · left; exact ⟨by assumption, h.symm⟩
        · rename_i th hth
          right
          refine ⟨th, hth, ?_⟩
          split at h
          · right; exact ⟨by assumption, h.symm⟩
          · left; exact ⟨by assumption, h.symm⟩

/-- The state in which a self-blocking caller enters the dispatcher. -/
theorem self_block_WInv {M : Nat} (s : Sched) (c : Nat) (th : Thread) (hi : Inv M s)
    (hc : s.current_running_thread = some c) (hth : s.heap c = some th) :
    WInv M { (s.write c { th with _state := State.BLOCKED }) with
             blocked_threads := s.blocked_threads ++ [c] } := by
  have hrun := hi.stable.cur_running c th hc hth
  exact ⟨hi.q.self_block c th _ hth hrun rfl,
    hi.ids.state c th _ hth rfl (by simp [hrun]) (by simp),
    hi.stable.toCurC.update c th _ hth (by simp), hi.max_ok⟩

theorem uthread_block_Inv {M : Nat} (tid : Int) (s s1 : Sched) (hi : Inv M s)
    (h : (uthread_block tid s).state? = some s1) : Inv M s1 := by
  rcases uthread_block_cases tid s _ rfl with ⟨_, ho⟩ | ⟨_, _, ⟨_, ho⟩ | ⟨c, hc, ⟨_, ho⟩ | ⟨th, hth, ⟨_, ho⟩ | ⟨_, ho⟩⟩⟩⟩
  · rw [ho] at h; cases h; exact hi
  · rw [ho] at h; cases h
  · rw [ho] at h; cases h
  · rw [ho] at h
    cases ht : uthread_block_tail tid s with
    | ret v s2 =>
      rw [ht] at h; cases h
      exact uthread_block_tail_Inv tid s _ v hi ht
    | switched s2 => exact absurd ht (uthread_block_tail_not_switched _ _ _)
    | exit v => rw [ht] at h; cases h
    | fault => rw [ht] at h; cases h
  · rw [ho] at h
    have hw := self_block_WInv s c th hi hc hth
    cases ht : timer_handler
        { (s.write c { th with _state := State.BLOCKED }) with
          blocked_threads := s.blocked_threads ++ [c] } with
    | ret v s2 =>
      obtain ⟨_, _, c1, t1, hc1, ht1, hst⟩ := timer_handler_ret _ _ _ ht
      simp [Sched.write, hc] at hc1
      subst hc1
      simp [Sched.write] at ht1
      subst ht1
      simp at hst
    | switched s2 =>
      rw [ht] at h; cases h
      exact timer_handler_Inv _ _ hw ht
    | exit v => rw [ht] at h; cases h
    | fault => rw [ht] at h; cases h

/-- The outcome of `uthread_sleep`, spelled out. -/
theorem uthread_sleep_cases (n : Int) (s : Sched) (o : Outcome) (h : uthread_sleep n s = o) :
    (n = 0 ∧ o = Outcome.ret 0 s) ∨ (n < 0 ∧ o = Outcome.ret (-1) s) ∨
    (0 < n ∧
      ((s.current_running_thread = none ∧ o = Outcome.fault) ∨
       ∃ c, s.current_running_thread = some c ∧
        ((s.heap c = none ∧ o = Outcome.fault) ∨
         ∃ th, s.heap c = some th ∧
          ((th._id = 0 ∧ o = Outcome.ret (-1) s) ∨
           (th._id ≠ 0 ∧ n + 1 > INT_MAX ∧ o = Outcome.fault) ∨
           (th._id ≠ 0 ∧ n + 1 ≤ INT_MAX ∧
            o = match timer_handler
                { (s.write c { th with _state := State.SLEEPING,
                                       _quantums_left_in_sleeping := n + 1 }) with
                  sleeping_threads := s.sleeping_threads ++ [c] } with
              | Outcome.ret _ s1 => Outcome.ret 0 s1
              | o1 => o1))))) := by
  unfold uthread_sleep at h
  split at h
  · left; exact ⟨by assumption, h.symm⟩
  · split at h
    · right; left; exact ⟨by assumption, h.symm⟩
    · right; right
      refine ⟨by omega, ?_⟩
      split at h
      · left; exact ⟨by assumption, h.symm⟩
      · rename_i c hc
        right
        refine ⟨c, hc, ?_⟩
        split at h
        · left; exact ⟨by assumption, h.symm⟩
        · rename_i th hth
          right
          refine ⟨th, hth, ?_⟩
          split at h
          · left; exact ⟨by assumption, h.symm⟩
          · split at h
            · right; left; exact ⟨by assumption, by assumption, h.symm⟩
            · right; right; exact ⟨by assumption, by omega, h.symm⟩

/-- The state in which a caller of `uthread_sleep` enters the dispatcher. -/
theorem self_sleep_WInv {M : Nat} (s : Sched) (c : Nat) (th : Thread) (n : Int) (hi : Inv M s)
    (hc : s.current_running_thread = some c) (hth : s.heap c = some th) :
    WInv M { (s.write c { th with _state := State.SLEEPING,
                                  _quantums_left_in_sleeping := n }) with
             sleeping_threads := s.sleeping_threads ++ [c] } := by
  have hrun := hi.stable.cur_running c th hc hth
  exact ⟨hi.q.self_sleep c th _ hth hrun rfl,
    hi.ids.state c th _ hth rfl (by simp [hrun]) (by simp),
    hi.stable.toCurC.update c th _ hth (by simp), hi.max_ok⟩

theorem uthread_sleep_Inv {M : Nat} (n : Int) (s s1 : Sched) (hi : Inv M s)
    (h : (uthread_sleep n s).state? = some s1) : Inv M s1 := by
  rcases uthread_sleep_cases n s _ rfl with ⟨_, ho⟩ | ⟨_, ho⟩ | ⟨_, ⟨_, ho⟩ | ⟨c, hc, ⟨_, ho⟩ | ⟨th, hth, ⟨_, ho⟩ | ⟨_, _, ho⟩ | ⟨_, _, ho⟩⟩⟩⟩
  · rw [ho] at h; cases h; exact hi
  · rw [ho] at h; cases h; exact hi
  · rw [ho] at h; cases h
  · rw [ho] at h; cases h
  · rw [ho] at h; cases h; exact hi
  · rw [ho] at h; cases h
  · rw [ho] at h
    have hw := self_sleep_WInv s c th (n + 1) hi hc hth
    cases ht : timer_handler
        { (s.write c { th with _state := State.SLEEPING,
                               _quantums_left_in_sleeping := n + 1 }) with
          sleeping_threads := s.sleeping_threads ++ [c] } with
    | ret v s2 =>
      obtain ⟨_, _, c1, t1, hc1, ht1, hst⟩ := timer_handler_ret _ _ _ ht
      simp [Sched.write, hc] at hc1
      subst hc1
      simp [Sched.write] at ht1
      subst ht1
      simp at hst
    | switched s2 =>
      rw [ht] at h; cases h
      exact timer_handler_Inv _ _ hw ht
    | exit v => rw [ht] at h; cases h
    | fault => rw [ht] at h; cases h

/-! ### Termination preserves the invariant -/

theorem scan_for_tid_found (heap : Nat → Option Thread) (tid : Int) (l : List Nat) (p : Nat)
    (h : scan_for_tid heap tid l = some (some p)) :
    p ∈ l ∧ ∃ th, heap p = some th ∧ th._id = tid := by
  induction l with
  | nil => simp [scan_for_tid] at h
  | cons a t ih =>
    unfold scan_for_tid at h
    split at h
    · cases h
    · rename_i th hth
      split at h
      · rename_i hid
        simp at h
        subst h
        exact ⟨by simp, th, hth, hid⟩
      · obtain ⟨h1, h2⟩ := ih h
        exact ⟨by simp [h1], h2⟩

theorem scan_for_tid_absent (heap : Nat → Option Thread) (tid : Int) (l : List Nat)
    (h : scan_for_tid heap tid l = some none) :
    ∀ q ∈ l, ∃ th, heap q = some th ∧ th._id ≠ tid := by
  induction l with
  | nil => simp
  | cons a t ih =>
    unfold scan_for_tid at h
    split at h
    · cases h
    · rename_i th hth
      split at h
      · simp at h
      · rename_i hid
        intro q hq
        rcases List.mem_cons.mp hq with rfl | hq
        · exact ⟨th, hth, hid⟩
        · exact ih h q hq

/-- The outcome of `uthread_terminate_thread`, spelled out. -/
theorem uthread_terminate_thread_cases (tid : Int) (q : Queue) (s : Sched) (o : Outcome)
    (h : uthread_terminate_thread tid q s = o) :
    (scan_for_tid s.heap tid (s.queue q) = none ∧ o = Outcome.fault) ∨
    (scan_for_tid s.heap tid (s.queue q) = some none ∧ o = Outcome.ret (-1) s) ∨
    (∃ p m, scan_for_tid s.heap tid (s.queue q) = some (some p) ∧
      (setInsert tid (s.setQueue q ((s.queue q).erase p)).available_tids).head? = some m ∧
      o = Outcome.ret 0
        { ((s.setQueue q ((s.queue q).erase p)).free p) with
          tid_to_thread_map := Function.update s.tid_to_thread_map tid none
          available_tids := setInsert tid s.available_tids
          min_tid := m }) := by
  unfold uthread_terminate_thread at h
  split at h
  · left; exact ⟨by assumption, h.symm⟩
  · right; left; exact ⟨by assumption, h.symm⟩
  · rename_i p hp
    simp only at h
    split at h
    · rename_i hm
      exfalso
      have : tid ∈ setInsert tid (s.setQueue q ((s.queue q).erase p)).available_tids :=
        (mem_setInsert _ _ _).mpr (Or.inl rfl)
      cases hl : setInsert tid (s.setQueue q ((s.queue q).erase p)).available_tids with
      | nil => rw [hl] at this; simp at this
      | cons a t => rw [hl] at hm; simp at hm
    · rename_i m hm
      right; right
      refine ⟨p, m, hp, hm, ?_⟩
      rw [← h]
      cases q <;> rfl

theorem uthread_terminate_thread_Inv {M : Nat} (tid : Int) (q : Queue) (s s1 : Sched) (v : Int)
    (hi : Inv M s) (hne : tid ≠ 0)
    (hb : q = Queue.sleeping →
      ∀ x ∈ s.blocked_threads, ∃ th, s.heap x = some th ∧ th._id ≠ tid)
    (h : uthread_terminate_thread tid q s = Outcome.ret v s1) : Inv M s1 := by
  rcases uthread_terminate_thread_cases tid q s _ h with ⟨_, ho⟩ | ⟨_, ho⟩ | ⟨p, m, hp, hm, ho⟩
  · cases ho
  · cases ho; exact hi
  · cases ho
    obtain ⟨hmem, th, hth, hid⟩ := scan_for_tid_found _ _ _ _ hp
    have hm1 : (setInsert th._id s.available_tids).head? = some m := by
      rw [hid]; cases q <;> exact hm
    cases q with
    | ready =>
      have hst := (hi.q.mem_ready p th hth).mp hmem
      have h2 := hi.ids.release_id p th m hth (by simp [hst]) (by rw [hid]; exact hne) hm1
      rw [hid] at h2
      exact ⟨hi.q.free_ready p hmem, h2, hi.stable.free_other p th hth (by simp [hst]), hi.max_ok⟩
    | blocked =>
      have hst := (hi.q.mem_blocked p th hth).mp hmem
      have hnt : th._state ≠ State.TERMINATED := by rcases hst with h | h <;> simp [h]
      have hnr : th._state ≠ State.RUNNING := by rcases hst with h | h <;> simp [h]
      have h2 := hi.ids.release_id p th m hth hnt (by rw [hid]; exact hne) hm1
      rw [hid] at h2
      exact ⟨hi.q.free_blocked p hmem, h2, hi.stable.free_other p th hth hnr, hi.max_ok⟩
    | sleeping =>
      have hst := (hi.q.mem_sleeping p th hth).mp hmem
      have hnt : th._state ≠ State.TERMINATED := by rcases hst with h | h <;> simp [h]
      have hnr : th._state ≠ State.RUNNING := by rcases hst with h | h <;> simp [h]
      have h2 := hi.ids.release_id p th m hth hnt (by rw [hid]; exact hne) hm1
      rw [hid] at h2
      have hpb : p ∉ s.blocked_threads := by
        intro hpb
        obtain ⟨t, ht, htid⟩ := hb rfl p hpb
        rw [hth] at ht
        cases ht
        exact htid hid
      exact ⟨hi.q.free_sleeping p hmem hpb, h2, hi.stable.free_other p th hth hnr, hi.max_ok⟩

theorem uthread_terminate_thread_not_switched (tid : Int) (q : Queue) (s s1 : Sched) :
    uthread_terminate_thread tid q s ≠ Outcome.switched s1 := by
  intro h
  rcases uthread_terminate_thread_cases tid q s _ h with ⟨_, ho⟩ | ⟨_, ho⟩ | ⟨p, m, hp, hm, ho⟩ <;>
    cases ho

theorem uthread_terminate_thread_not_exit (tid : Int) (q : Queue) (s : Sched) (v : Int) :
    uthread_terminate_thread tid q s ≠ Outcome.exit v := by
  intro h
  rcases uthread_terminate_thread_cases tid q s _ h with ⟨_, ho⟩ | ⟨_, ho⟩ | ⟨p, m, hp, hm, ho⟩ <;>
    cases ho

/-- A failed search leaves the state alone. -/
theorem uthread_terminate_thread_miss (tid : Int) (q : Queue) (s s1 : Sched) (v : Int)
    (h : uthread_terminate_thread tid q s = Outcome.ret v s1) (hv : v ≠ 0) :
    s1 = s ∧ ∀ x ∈ s.queue q, ∃ th, s.heap x = some th ∧ th._id ≠ tid := by
  rcases uthread_terminate_thread_cases tid q s _ h with ⟨_, ho⟩ | ⟨hs, ho⟩ | ⟨p, m, hp, hm, ho⟩
  · cases ho
  · cases ho
    exact ⟨rfl, scan_for_tid_absent _ _ _ hs⟩
  · cases ho
    exact absurd rfl hv

/-- The outcome of `uthread_terminate_running_thread`, spelled out. -/
theorem uthread_terminate_running_thread_cases (tid : Int) (s : Sched) (o : Outcome)
    (h : uthread_terminate_running_thread tid s = o) :
    (s.current_running_thread = none ∧ o = Outcome.fault) ∨
    ∃ c, s.current_running_thread = some c ∧
      ((s.heap c = none ∧ o = Outcome.fault) ∨
       ∃ th, s.heap c = some th ∧
        ((th._id ≠ tid ∧ o = Outcome.ret (-1) s) ∨
         (th._id = tid ∧ ∃ m, (setInsert tid s.available_tids).head? = some m ∧
          o = match timer_handler
              { (s.write c { th with _state := State.TERMINATED }) with
                tid_to_thread_map := Function.update s.tid_to_thread_map tid none
                available_tids := setInsert tid s.available_tids
                min_tid := m } with
            | Outcome.ret _ s1 => Outcome.ret 0 s1
            | o1 => o1))) := by
  unfold uthread_terminate_running_thread at h
  split at h
  · left; exact ⟨by assumption, h.symm⟩
  · rename_i c hc
    right
    refine ⟨c, hc, ?_⟩
    split at h
    · left; exact ⟨by assumption, h.symm⟩
    · rename_i th hth
      right
      refine ⟨th, hth, ?_⟩
      split at h
      · rename_i hid
        right
        simp only at h
        split at h
        · rename_i hm
          exfalso
          have : tid ∈ setInsert tid s.available_tids := (mem_setInsert _ _ _).mpr (Or.inl rfl)
          cases hl : setInsert tid s.available_tids with
          | nil => rw [hl] at this; simp at this
          | cons a t => rw [hl] at hm; simp at hm
        · rename_i m hm
          exact ⟨hid, m, hm, h.symm⟩
      · left; exact ⟨by assumption, h.symm⟩

/-- The state in which a self-terminating caller enters the dispatcher. -/
theorem self_terminate_WInv {M : Nat} (s : Sched) (c : Nat) (th : Thread) (m : Int)
    (hi : Inv M s) (hc : s.current_running_thread = some c) (hth : s.heap c = some th)
    (hne : th._id ≠ 0) (hm : (setInsert th._id s.available_tids).head? = some m) :
    WInv M { (s.write c { th with _state := State.TERMINATED }) with
             tid_to_thread_map := Function.update s.tid_to_thread_map th._id none
             available_tids := setInsert th._id s.available_tids
             min_tid := m } := by
  have hrun := hi.stable.cur_running c th hc hth
  exact ⟨hi.q.self_term c th _ hth hrun rfl,
    hi.ids.mark_terminated c th _ m hth (by simp [hrun]) rfl hne hm,
    hi.stable.toCurC.update c th _ hth (by simp [hrun]), hi.max_ok⟩

theorem uthread_terminate_running_thread_Inv {M : Nat} (tid : Int) (s s1 : Sched)
    (hi : Inv M s) (hne : tid ≠ 0)
    (h : (uthread_terminate_running_thread tid s).state? = some s1) : Inv M s1 := by
  rcases uthread_terminate_running_thread_cases tid s _ rfl with
    ⟨_, ho⟩ | ⟨c, hc, ⟨_, ho⟩ | ⟨th, hth, ⟨_, ho⟩ | ⟨hid, m, hm, ho⟩⟩⟩
  · rw [ho] at h; cases h
  · rw [ho] at h; cases h
  · rw [ho] at h; cases h; exact hi
  · rw [ho] at h
    subst hid
    have hw := self_terminate_WInv s c th m hi hc hth hne hm
    cases ht : timer_handler
        { (s.write c { th with _state := State.TERMINATED }) with
          tid_to_thread_map := Function.update s.tid_to_thread_map th._id none
          available_tids := setInsert th._id s.available_tids
          min_tid := m } with
    | ret v s2 =>
      obtain ⟨_, _, c1, t1, hc1, ht1, hst⟩ := timer_handler_ret _ _ _ ht
      simp [Sched.write, hc] at hc1
      subst hc1
      simp [Sched.write] at ht1
      subst ht1
      simp at hst
    | switched s2 =>
      rw [ht] at h; cases h
      exact timer_handler_Inv _ _ hw ht
    | exit v => rw [ht] at h; cases h
    | fault => rw [ht] at h; cases h

/-- The function `uthread_terminate_running_thread` returns a non-zero value only when the
id is not the caller's, and then the state is untouched. -/
theorem uthread_terminate_running_thread_miss (tid : Int) (s s1 : Sched) (v : Int)
    (h : uthread_terminate_running_thread tid s = Outcome.ret v s1) (hv : v ≠ 0) :
    s1 = s ∧ ∃ c th, s.current_running_thread = some c ∧ s.heap c = some th ∧ th._id ≠ tid := by
  rcases uthread_terminate_running_thread_cases tid s _ h with
    ⟨_, ho⟩ | ⟨c, hc, ⟨_, ho⟩ | ⟨th, hth, ⟨hid, ho⟩ | ⟨hid, m, hm, ho⟩⟩⟩
  · cases ho
  · cases ho
  · cases ho
    exact ⟨rfl, c, th, hc, hth, hid⟩
  · exfalso
    split at ho
    · cases ho; exact hv rfl
    · rename_i o1 hno
      exact hno v s1 ho.symm

theorem uthread_terminate_single_thread_Inv {M : Nat} (tid : Int) (s s1 : Sched)
    (hi : Inv M s) (hne : tid ≠ 0)
    (h : (uthread_terminate_single_thread tid s).state? = some s1) : Inv M s1 := by
  unfold uthread_terminate_single_thread at h
  cases h1 : uthread_terminate_thread tid Queue.ready s with
  | switched s2 => exact absurd h1 (uthread_terminate_thread_not_switched _ _ _ _)
  | exit v => rw [h1] at h; cases h
  | fault => rw [h1] at h; cases h
  | ret v1 s2 =>
    rw [h1] at h
    simp only at h
    by_cases hv1 : v1 = 0
    · rw [if_pos hv1] at h
      cases h
      exact uthread_terminate_thread_Inv tid _ s _ v1 hi hne (by simp) h1
    · rw [if_neg hv1] at h
      obtain ⟨rfl, _⟩ := uthread_terminate_thread_miss tid _ s s2 v1 h1 hv1
      cases h2 : uthread_terminate_running_thread tid s2 with
      | switched s3 =>
        rw [h2] at h
        exact uthread_terminate_running_thread_Inv tid s2 s1 hi hne (by rw [h2]; exact h)
      | exit v => rw [h2] at h; cases h
      | fault => rw [h2] at h; cases h
      | ret v2 s3 =>
        rw [h2] at h
        simp only at h
        by_cases hv2 : v2 = 0
        · rw [if_pos hv2] at h
          cases h
          exact uthread_terminate_running_thread_Inv tid s2 _ hi hne (by rw [h2]; rfl)
        · rw [if_neg hv2] at h
          obtain ⟨rfl, _⟩ := uthread_terminate_running_thread_miss tid s2 s3 v2 h2 hv2
          cases h3 : uthread_terminate_thread tid Queue.blocked s3 with
          | switched s4 => exact absurd h3 (uthread_terminate_thread_not_switched _ _ _ _)
          | exit v => rw [h3] at h; cases h
          | fault => rw [h3] at h; cases h
          | ret v3 s4 =>
            rw [h3] at h
            simp only at h
            by_cases hv3 : v3 = 0
            · rw [if_pos hv3] at h
              cases h
              exact uthread_terminate_thread_Inv tid _ s3 _ v3 hi hne (by simp) h3
            · rw [if_neg hv3] at h
              obtain ⟨rfl, habs⟩ := uthread_terminate_thread_miss tid _ s3 s4 v3 h3 hv3
              cases h4 : uthread_terminate_thread tid Queue.sleeping s4 with
              | switched s5 => exact absurd h4 (uthread_terminate_thread_not_switched _ _ _ _)
              | exit v => rw [h4] at h; cases h
              | fault => rw [h4] at h; cases h
              | ret v4 s5 =>
                rw [h4] at h
                simp only at h
                have hI := uthread_terminate_thread_Inv tid _ s4 _ v4 hi hne (fun _ => habs) h4
                by_cases hv4 : v4 = 0
                · rw [if_pos hv4] at h; cases h; exact hI
                · rw [if_neg hv4] at h; cases h; exact hI

theorem toUnsigned_of_nonneg (x : Int) (h0 : 0 ≤ x) (h1 : x ≤ INT_MAX) : toUnsigned x = x := by
  unfold toUnsigned
  unfold INT_MAX at h1
  omega

theorem toUnsigned_ne_zero (x : Int) (h : isInt x) (h0 : x ≠ 0) : toUnsigned x ≠ 0 := by
  unfold toUnsigned
  unfold isInt INT_MAX at h
  omega

theorem terminate_all_loop_Inv {M : Nat} (ids : List Nat) (s s1 : Sched) (hi : Inv M s)
    (hids : ∀ i ∈ ids, 1 ≤ i ∧ (i : Int) ≤ INT_MAX)
    (h : (terminate_all_loop ids s).state? = some s1) : Inv M s1 := by
  induction ids generalizing s with
  | nil => simp [terminate_all_loop, Outcome.state?] at h; subst h; exact hi
  | cons i ids ih =>
    unfold terminate_all_loop at h
    have hi1 := hids i (by simp)
    have hne : toUnsigned (i : Int) ≠ 0 := by
      rw [toUnsigned_of_nonneg _ (by omega) hi1.2]; omega
    cases h1 : uthread_terminate_single_thread (toUnsigned i) s with
    | ret v s2 =>
      rw [h1] at h
      simp only at h
      exact ih s2 (uthread_terminate_single_thread_Inv _ s s2 hi hne (by rw [h1]; rfl))
        (fun j hj => hids j (by simp [hj])) h
    | switched s2 =>
      rw [h1] at h
      cases h
      exact uthread_terminate_single_thread_Inv _ s _ hi hne (by rw [h1]; rfl)
    | exit v => rw [h1] at h; cases h
    | fault => rw [h1] at h; cases h

theorem uthread_terminate_Inv {M : Nat} (tid : Int) (s s1 : Sched) (hi : Inv M s)
    (ht : isInt tid) (h : (uthread_terminate M tid s).state? = some s1) : Inv M s1 := by
  unfold uthread_terminate at h
  split at h
  · cases h1 : terminate_all_loop (List.range' 1 (M - 1)) s with
    | ret v s2 => rw [h1] at h; cases h
    | switched s2 =>
      rw [h1] at h
      cases h
      refine terminate_all_loop_Inv _ s _ hi ?_ (by rw [h1]; rfl)
      intro i hi1
      have hmax := hi.max_ok
      rw [List.mem_range'_1] at hi1
      constructor
      · omega
      · omega
    | exit v => rw [h1] at h; cases h
    | fault => rw [h1] at h; cases h
  · rename_i hne
    exact uthread_terminate_single_thread_Inv _ s s1 hi (toUnsigned_ne_zero tid ht hne) h

theorem uthread_init_Inv {M : Nat} (q : Int) (s : Sched) (hmax : (M : Int) ≤ INT_MAX)
    (h : uthread_init M q boot = Outcome.ret 0 s) : Inv M s := by
  unfold uthread_init at h
  split at h
  · cases h
  · simp only at h
    split at h
    · cases h
    · rename_i m hm
      cases h
      simp only [boot] at hm ⊢
      refine ⟨?_, ?_, ?_, hmax⟩
      · have hq0 : QInvC (fun _ => none) 0 [] [] [] := by
          refine ⟨?_, by simp, by simp, by simp, by simp⟩
          intro p
          simp [Agree, stOf]
        exact hq0.alloc_queue _ [] (Or.inr ⟨rfl, rfl⟩)
      · refine ⟨?_, ?_, ?_, sorted_fill_available M, ?_, hm⟩
        · intro p th hp _
          by_cases hp0 : p = 0
          · subst hp0
            simp at hp
            subst hp
            simp [Thread.main]
          · simp [Function.update_apply, hp0] at hp
        · intro k p hk
          by_cases hk0 : k = 0
          · subst hk0
            simp at hk
            subst hk
            simp [Thread.main]
          · simp [Function.update_apply, hk0] at hk
        · intro k p hk
          by_cases hk0 : k = 0
          · subst hk0
            have hm1 := head_mem _ _ hm
            rw [mem_fill_available] at hm1
            omega
          · simp [Function.update_apply, hk0] at hk
        · intro k
          rw [mem_fill_available]
          by_cases hk0 : k = 0
          · subst hk0; simp
          · simp [Function.update_apply, hk0]
      · refine ⟨0, ⟨Thread.main._id, State.RUNNING, Thread.main._num_of_quantum + 1,
          Thread.main._quantums_left_in_sleeping⟩, rfl, ?_, rfl, ?_⟩
        · simp
        intro p th hp _
        by_contra hp0
        simp [Function.update_apply, hp0] at hp

theorem step_Inv {M : Nat} (s s1 : Sched) (op : Op) (hi : Inv M s) (hr : op.inRange)
    (h : (step M s op).state? = some s1) : Inv M s1 := by
  cases op with
  | tick =>
    simp only [step] at h
    cases ht : timer_handler s with
    | ret v s2 =>
      rw [ht] at h; cases h
      rw [(timer_handler_ret _ _ _ ht).1]
      exact hi
    | switched s2 =>
      rw [ht] at h; cases h
      exact timer_handler_Inv _ _ hi.toWInv ht
    | exit v => rw [ht] at h; cases h
    | fault => rw [ht] at h; cases h
  | spawn =>
    simp only [step] at h
    cases ht : uthread_spawn M s with
    | ret v s2 =>
      rw [ht] at h; cases h
      exact uthread_spawn_Inv _ _ v hi ht
    | switched s2 => exact absurd ht (uthread_spawn_not_switched _ _ _)
    | exit v => rw [ht] at h; cases h
    | fault => rw [ht] at h; cases h
  | terminate tid => exact uthread_terminate_Inv tid s s1 hi hr h
  | block tid => exact uthread_block_Inv tid s s1 hi h
  | resume tid =>
    simp only [step] at h
    cases ht : uthread_resume tid s with
    | ret v s2 =>
      rw [ht] at h; cases h
      exact uthread_resume_Inv tid _ _ v hi ht
    | switched s2 => exact absurd ht (uthread_resume_not_switched _ _ _)
    | exit v => rw [ht] at h; cases h
    | fault => rw [ht] at h; cases h
  | sleep n => exact uthread_sleep_Inv n s s1 hi h
  | get_tid =>
    simp only [step, uthread_get_tid] at h
    split at h
    · cases h
    · split at h
      · cases h
      · cases h; exact hi
  | get_total_quantums =>
    simp only [step, uthread_get_total_quantums] at h
    cases h; exact hi
  | get_quantums tid =>
    simp only [step, uthread_get_quantums] at h
    split at h
    · cases h
    · split at h
      · cases h
      · cases h; exact hi

/-- Every reachable state satisfies the scheduler invariant. -/
theorem Reachable.inv {M : Nat} {s : Sched} (h : Reachable M s) : Inv M s := by
  induction h with
  | init q s hmax hinit => exact uthread_init_Inv q s hmax hinit
  | step s s1 op _ hr hstep ih => exact step_Inv s s1 op ih hr hstep

/-! ### The dispatcher, step by step -/

/-- A successful `run_next_ready_thread`, spelled out. -/
theorem run_next_ready_thread_switched (s s1 : Sched)
    (h : run_next_ready_thread s = Outcome.switched s1) :
    ∃ p rest th, s.ready_threads = p :: rest ∧ s.heap p = some th ∧
      s1 = { (s.write p (dispatch_thread th)) with
          current_running_thread := some p
          quantum_counter := s.quantum_counter + 1
          ready_threads := rest } := by
  unfold run_next_ready_thread at h
  split at h
  · cases h
  · rename_i p rest hr
    split at h
    · cases h
    · rename_i th hth
      cases h
      exact ⟨p, rest, th, hr, hth, rfl⟩

/-- The state in which `timer_handler` calls the dispatcher. -/
theorem timer_handler_pre_dispatch {M : Nat} (s s2 : Sched) (hw : WInv M s)
    (h : timer_handler s = Outcome.switched s2) :
    ∃ c s1 sd th1, s.current_running_thread = some c ∧ update_sleeping_time s = some s1 ∧
      s1.heap c = some th1 ∧
      run_next_ready_thread sd = Outcome.switched s2 ∧
      QInvC sd.heap sd.next_addr sd.ready_threads sd.blocked_threads sd.sleeping_threads ∧
      (∀ x, x ≠ c → sd.heap x = s1.heap x) ∧
      sd.blocked_threads = s1.blocked_threads ∧ sd.sleeping_threads = s1.sleeping_threads ∧
      sd.next_addr = s1.next_addr ∧ sd.min_tid = s1.min_tid ∧
      sd.quantum_counter = s1.quantum_counter ∧ sd.available_tids = s1.available_tids ∧
      sd.tid_to_thread_map = s1.tid_to_thread_map ∧
      ((th1._state = State.RUNNING ∧ sd.heap c = some { th1 with _state := State.READY } ∧
          sd.ready_threads = s1.ready_threads ++ [c]) ∨
       (th1._state = State.TERMINATED ∧ sd.heap c = none ∧
          sd.ready_threads = s1.ready_threads) ∨
       (th1._state ≠ State.RUNNING ∧ th1._state ≠ State.TERMINATED ∧ sd.heap c = some th1 ∧
          sd.ready_threads = s1.ready_threads)) := by
  obtain ⟨c, th, s1, th1, hc, hth, hst, hs1, hth1, hcase⟩ := timer_handler_switched s s2 h
  have hw1 := update_sleeping_time_WInv s s1 hw hs1
  rcases hcase with ⟨hR, hrun⟩ | ⟨hT, hrun⟩ | ⟨hnR, hnT, hrun⟩
  · refine ⟨c, s1, _, th1, hc, hs1, hth1, hrun, hw1.q.preempt c th1 _ hth1 hR rfl, ?_,
      rfl, rfl, rfl, rfl, rfl, rfl, rfl, Or.inl ⟨hR, by simp [Sched.write], rfl⟩⟩
    intro x hx
    simp [Sched.write, Function.update_apply, hx]
  · refine ⟨c, s1, _, th1, hc, hs1, hth1, hrun, hw1.q.free_plain c th1 hth1 (Or.inr hT), ?_,
      rfl, rfl, rfl, rfl, rfl, rfl, rfl, Or.inr (Or.inl ⟨hT, by simp [Sched.free], rfl⟩)⟩
    intro x hx
    simp [Sched.free, Function.update_apply, hx]
  · exact ⟨c, s1, s1, th1, hc, hs1, hth1, hrun, hw1.q, fun _ _ => rfl,
      rfl, rfl, rfl, rfl, rfl, rfl, rfl, Or.inr (Or.inr ⟨hnR, hnT, hth1, rfl⟩)⟩

/-- Fields of the scheduler that a dispatch through `timer_handler` leaves
alone, and the step of the quantum counter. -/
theorem timer_handler_frame {M : Nat} (s s2 : Sched) (hw : WInv M s)
    (h : timer_handler s = Outcome.switched s2) :
    s2.blocked_threads = s.blocked_threads ∧ s2.next_addr = s.next_addr ∧
    s2.min_tid = s.min_tid ∧ s2.available_tids = s.available_tids ∧
    s2.tid_to_thread_map = s.tid_to_thread_map ∧
    s2.quantum_counter = s.quantum_counter + 1 := by
  obtain ⟨c, s1, sd, th1, hc, hs1, hth1, hrun, hqd, hheap, e1, e2, e3, e4, e5, e6, e7, hcase⟩ :=
    timer_handler_pre_dispatch s s2 hw h
  obtain ⟨f1, f2, f3, f4, f5, f6, f7, _⟩ := update_sleeping_time_frame s s1 hs1
  obtain ⟨p, rest, th, hr, hp, rfl⟩ := run_next_ready_thread_switched sd s2 hrun
  simp only [Sched.write]
  exact ⟨e1.trans f2, e3.trans f3, e4.trans f4, e6.trans f6, e7.trans f7, by rw [e5, f5]⟩

/-- What a dispatch through `timer_handler` does to a thread other than the
caller: it is ticked once for each visit of the loop of `update_sleeping_time`
(not at all if it was not in the SLEEPING deque, at least once if it was at the
front of it), and it is the thread dispatched only if that left it READY. -/
theorem timer_handler_other {M : Nat} (s s2 : Sched) (hw : WInv M s)
    (h : timer_handler s = Outcome.switched s2) (c x : Nat) (th : Thread)
    (hc : s.current_running_thread = some c) (hxc : x ≠ c) (hx : s.heap x = some th) :
    ∃ t1, (∃ k, t1 = Nat.iterate tick_thread k th ∧ (x ∉ s.sleeping_threads → k = 0) ∧
        (s.sleeping_threads.head? = some x → 0 < k)) ∧
      ((s2.current_running_thread ≠ some x ∧ s2.heap x = some t1) ∨
       (s2.current_running_thread = some x ∧ t1._state = State.READY ∧
        s2.heap x = some (dispatch_thread t1))) := by
  obtain ⟨c1, s1, sd, th1, hc1, hs1, hth1, hrun, hqd, hheap, e1, e2, e3, e4, e5, e6, e7, hcase⟩ :=
    timer_handler_pre_dispatch s s2 hw h
  rw [hc] at hc1
  cases hc1
  obtain ⟨k, hs1x, hk0⟩ := update_sleeping_time_cell s s1 hs1 x th hx
  refine ⟨Nat.iterate tick_thread k th, ⟨k, rfl, hk0⟩, ?_⟩
  have hsd : sd.heap x = some (Nat.iterate tick_thread k th) := by
    rw [hheap x hxc, hs1x]
  obtain ⟨p, rest, t, hr, hp, rfl⟩ := run_next_ready_thread_switched sd s2 hrun
  by_cases hxp : x = p
  · subst hxp
    right
    rw [hsd] at hp
    cases hp
    refine ⟨rfl, ?_, by simp [Sched.write]⟩
    exact (hqd.mem_ready x _ hsd).mp (by rw [hr]; simp)
  · left
    refine ⟨?_, ?_⟩
    · simp
      intro he
      exact hxp he.symm
    · simp [Sched.write, Function.update_apply, hxp, hsd]

/-! ### Reachability of concrete states -/

theorem run_Reachable {M : Nat} (ops : List Op) (s s1 : Sched) (hs : Reachable M s)
    (hops : ∀ op ∈ ops, op.inRange) (h : run M s ops = some s1) : Reachable M s1 := by
  induction ops generalizing s with
  | nil => simp [run] at h; subst h; exact hs
  | cons op ops ih =>
    unfold run at h
    split at h
    · cases h
    · rename_i s2 hs2
      exact ih s2 (Reachable.step s s2 op hs (hops op (by simp)) hs2)
        (fun o ho => hops o (by simp [ho])) h

/-- A run that gets through all its operations ends in a reachable state. -/
theorem exec_Reachable (M : Nat) (ops : List Op) (hmax : (M : Int) ≤ INT_MAX)
    (hops : ∀ op ∈ ops, op.inRange)
    (h : ∃ s0 s1, uthread_init M 1000 boot = Outcome.ret 0 s0 ∧ run M s0 ops = some s1) :
    Reachable M (exec M ops) := by
  obtain ⟨s0, s1, h0, h1⟩ := h
  have : exec M ops = s1 := by
    unfold exec
    rw [h0]
    simp [h1]
  rw [this]
  exact run_Reachable ops s0 s1 (Reachable.init 1000 s0 hmax h0) hops h1

/-- The last operation of a run that gets through starts in the state the
operations before it lead to. -/
theorem run_snoc (M : Nat) (ops : List Op) (op : Op) (s s2 : Sched)
    (h : run M s (ops ++ [op]) = some s2) :
    ∃ s1, run M s ops = some s1 ∧ (step M s1 op).state? = some s2 := by
  induction ops generalizing s with
  | nil =>
    refine ⟨s, rfl, ?_⟩
    simp only [List.nil_append, run] at h
    cases hs : (step M s op).state? with
    | none => rw [hs] at h; cases h
    | some s1 => rw [hs] at h; exact h
  | cons a ops ih =>
    simp only [List.cons_append, run] at h ⊢
    cases hs : (step M s a).state? with
    | none => rw [hs] at h; cases h
    | some s1 =>
      rw [hs] at h
      exact ih s1 h

/-- A run that gets through all its operations ends in a reachable state; that
it gets through is stated as a test that can be evaluated. -/
theorem exec_Reachable_isSome (M : Nat) (ops : List Op) (hmax : (M : Int) ≤ INT_MAX)
    (hops : ∀ op ∈ ops, op.inRange)
    (h : ∃ s0, uthread_init M 1000 boot = Outcome.ret 0 s0 ∧ (run M s0 ops).isSome = true) :
    Reachable M (exec M ops) := by
  obtain ⟨s0, h0, h1⟩ := h
  cases h2 : run M s0 ops with
  | none => rw [h2] at h1; cases h1
  | some s1 => exact exec_Reachable M ops hmax hops ⟨s0, s1, h0, h2⟩

/-- The last operation of a run that gets through, when it ends in a dispatch:
it leads from the state of the run before it to the state of the whole run. -/
theorem exec_step_switched (M : Nat) (ops : List Op) (op : Op)
    (h : ∃ s0, uthread_init M 1000 boot = Outcome.ret 0 s0 ∧
      (run M s0 (ops ++ [op])).isSome = true)
    (hs : (match step M (exec M ops) op with
      | Outcome.switched _ => true
      | _ => false) = true) :
    step M (exec M ops) op = Outcome.switched (exec M (ops ++ [op])) := by
  obtain ⟨s0, h0, h2⟩ := h
  cases h3 : run M s0 (ops ++ [op]) with
  | none => rw [h3] at h2; cases h2
  | some s2 =>
    obtain ⟨s1, h1, h12⟩ := run_snoc M ops op s0 s2 h3
    have e1 : exec M ops = s1 := by
      unfold exec
      rw [h0]
      simp [h1]
    have e2 : exec M (ops ++ [op]) = s2 := by
      unfold exec
      rw [h0]
      simp [h3]
    rw [e2]
    rw [e1] at hs ⊢
    cases h4 : step M s1 op with
    | ret v s4 => rw [h4] at hs; cases hs
    | exit v => rw [h4] at hs; cases hs
    | fault => rw [h4] at hs; cases hs
    | switched s4 =>
      rw [h4] at h12
      cases h12
      rfl

/-! ### C1: round-robin dispatch -/

/-- C1: in a reachable state, a timer tick that preempts the RUNNING thread `t`
while the READY deque is `h :: rest` dispatches `h`; the READY deque becomes
`rest`, then the threads woken in this tick, then `t`; and `t` ends the tick
READY, as the last element of the deque. -/
theorem C1_round_robin_dispatch (M : Nat) (s s1 : Sched) (t h : Nat) (rest : List Nat)
    (hreach : Reachable M s) (hcur : s.current_running_thread = some t)
    (hready : s.ready_threads = h :: rest)
    (htick : timer_handler s = Outcome.switched s1) :
    s1.current_running_thread = some h ∧
    (∃ th, s1.heap h = some th ∧ th._state = State.RUNNING) ∧
    (∃ woken, s1.ready_threads = rest ++ woken ++ [t] ∧
      ∀ w ∈ woken, w ∈ s.sleeping_threads) ∧
    (∃ th, s1.heap t = some th ∧ th._state = State.READY) ∧
    s1.ready_threads.getLast? = some t := by
  have hi := hreach.inv
  obtain ⟨c, sA, sd, th1, hc, hsA, hth1, hrun, hqd, hheap, e1, e2, e3, e4, e5, e6, e7, hcase⟩ :=
    timer_handler_pre_dispatch s s1 hi.toWInv htick
  rw [hcur] at hc
  cases hc
  obtain ⟨f1, f2, f3, f4, f5, f6, f7, ⟨w, hw, hwm⟩, f9, f10⟩ :=
    update_sleeping_time_frame s sA hsA
  obtain ⟨t0, tht, hcur0, hlive, hrunning, _⟩ := hi.stable
  rw [hcur] at hcur0
  cases hcur0
  have hts : t ∉ s.sleeping_threads := by
    rw [hi.q.mem_sleeping t tht hlive]
    simp [hrunning]
  have hth1' : th1 = tht := by
    rw [f9 t hts, hlive] at hth1
    cases hth1
    rfl
  subst hth1'
  have hth : t ≠ h := by
    intro he
    subst he
    have := (hi.q.mem_ready t th1 hlive).mp (by rw [hready]; simp)
    rw [hrunning] at this
    cases this
  rcases hcase with ⟨_, hsdt, hsdr⟩ | ⟨hT, _⟩ | ⟨hnR, _⟩
  · obtain ⟨p, rest1, thp, hr, hp, rfl⟩ := run_next_ready_thread_switched sd s1 hrun
    rw [hsdr, hw, hready] at hr
    simp at hr
    obtain ⟨rfl, rfl⟩ := hr
    refine ⟨rfl, ⟨dispatch_thread thp, by simp [Sched.write], rfl⟩, ⟨w, by simp, hwm⟩, ?_,
      by simp⟩
    exact ⟨{ th1 with _state := State.READY },
      by simp [Sched.write, Function.update_apply, hth, hsdt], rfl⟩
  · rw [hrunning] at hT; cases hT
  · exact absurd hrunning hnR

/-- C1 at a concrete state: three threads, the main thread is preempted. -/
theorem C1_round_robin_dispatch_witness :
    (exec 4 [Op.spawn, Op.spawn, Op.tick]).current_running_thread = some 1 ∧
    (∃ th, (exec 4 [Op.spawn, Op.spawn, Op.tick]).heap 1 = some th ∧
      th._state = State.RUNNING) ∧
    (∃ woken, (exec 4 [Op.spawn, Op.spawn, Op.tick]).ready_threads = [2] ++ woken ++ [0] ∧
      ∀ w ∈ woken, w ∈ (exec 4 [Op.spawn, Op.spawn]).sleeping_threads) ∧
    (∃ th, (exec 4 [Op.spawn, Op.spawn, Op.tick]).heap 0 = some th ∧
      th._state = State.READY) ∧
    (exec 4 [Op.spawn, Op.spawn, Op.tick]).ready_threads.getLast? = some 0 :=
  C1_round_robin_dispatch 4 (exec 4 [Op.spawn, Op.spawn]) (exec 4 [Op.spawn, Op.spawn, Op.tick])
    0 1 [2]
    (exec_Reachable 4 _ (by decide) (by simp [Op.inRange]) ⟨_, _, rfl, rfl⟩)
    rfl rfl rfl

/-! ### C2: `uthread_spawn` hands out the smallest free id -/

/-- Between operations no thread object is marked TERMINATED. -/
theorem Inv.not_terminated {M : Nat} {s : Sched} (hi : Inv M s) (p : Nat) (th : Thread)
    (hp : s.heap p = some th) : th._state ≠ State.TERMINATED := by
  intro hT
  obtain ⟨c, tc, hcur, hlive, hrun, huniq⟩ := hi.stable
  have := huniq p th hp (Or.inr hT)
  subst this
  rw [hp] at hlive
  cases hlive
  rw [hT] at hrun
  cases hrun

/-- Between operations an id is held by a live thread exactly when it is a key
of the id map. -/
theorem Inv.holdsId_iff {M : Nat} {s : Sched} (hi : Inv M s) (k : Int) :
    s.holdsId k ↔ s.tid_to_thread_map k ≠ none := by
  constructor
  · rintro ⟨p, th, hp, hid⟩
    have := hi.ids.map_live p th hp (hi.not_terminated p th hp)
    rw [hid] at this
    simp [this]
  · intro h
    cases hk : s.tid_to_thread_map k with
    | none => exact absurd hk h
    | some p =>
      obtain ⟨th, hth, hid, _⟩ := hi.ids.map_sound k p hk
      exact ⟨p, th, hth, hid⟩

/-- The free ids in `[1, MAX_THREAD_NUM)` are those of `available_tids` below
`MAX_THREAD_NUM`, and `min_tid` is the least element of `available_tids`. -/
theorem Inv.min_tid_least {M : Nat} {s : Sched} (hi : Inv M s) :
    1 ≤ s.min_tid ∧ s.min_tid ≤ M ∧ ¬ s.holdsId s.min_tid ∧
    ∀ j : Int, 1 ≤ j → j ≤ M → ¬ s.holdsId j → s.min_tid ≤ j := by
  have hmin := hi.ids.min_ok
  have hmem := (hi.ids.avail_iff s.min_tid).mp (head_mem _ _ hmin)
  refine ⟨hmem.1, hmem.2.1, ?_, ?_⟩
  · rw [hi.holdsId_iff]
    simp [hmem.2.2]
  · intro j h1 h2 h3
    rw [hi.holdsId_iff] at h3
    simp at h3
    exact head_le_of_sorted _ _ hi.ids.avail_sorted hmin j
      ((hi.ids.avail_iff j).mpr ⟨h1, h2, h3⟩)

/-- With a free id below `MAX_THREAD_NUM`, `uthread_spawn` succeeds. -/
theorem uthread_spawn_succeeds {M : Nat} (s : Sched) (hi : Inv M s) (hlt : s.min_tid < M) :
    ∃ m, s.available_tids.tail.head? = some m ∧
      uthread_spawn M s = Outcome.ret s.min_tid
        { s with
          heap := Function.update s.heap s.next_addr (some (Thread.spawned s.min_tid))
          next_addr := s.next_addr + 1
          ready_threads := s.ready_threads ++ [s.next_addr]
          tid_to_thread_map := Function.update s.tid_to_thread_map s.min_tid (some s.next_addr)
          available_tids := s.available_tids.tail
          min_tid := m } := by
  have hmin := hi.ids.min_ok
  have hM : (M : Int) ∈ s.available_tids := by
    rw [hi.ids.avail_iff]
    refine ⟨by have := hi.min_tid_least.1; omega, le_refl _, ?_⟩
    cases hk : s.tid_to_thread_map M with
    | none => rfl
    | some p => have := hi.ids.key_range _ _ hk; omega
  obtain ⟨t, hav⟩ : ∃ t, s.available_tids = s.min_tid :: t := by
    cases hl : s.available_tids with
    | nil => rw [hl] at hmin; simp at hmin
    | cons a t => rw [hl] at hmin; simp at hmin; exact ⟨t, by rw [hmin]⟩
  have hMt : (M : Int) ∈ t := by
    rw [hav] at hM
    rcases List.mem_cons.mp hM with h | h
    · omega
    · exact h
  obtain ⟨m, hm⟩ : ∃ m, s.available_tids.tail.head? = some m := by
    rw [hav]
    cases t with
    | nil => simp at hMt
    | cons a t => exact ⟨a, rfl⟩
  refine ⟨m, hm, ?_⟩
  unfold uthread_spawn
  rw [if_neg (by omega)]
  simp only [hm]

/-- A successful `uthread_terminate_thread` deletes a thread that has the id
and removes the id from the map. -/
theorem uthread_terminate_thread_success (tid : Int) (q : Queue) (s s1 : Sched)
    (h : uthread_terminate_thread tid q s = Outcome.ret 0 s1) :
    s1.tid_to_thread_map tid = none ∧
    ∃ p th, p ∈ s.queue q ∧ s.heap p = some th ∧ th._id = tid ∧ s1.heap p = none ∧
      (∀ x, x ≠ p → s1.heap x = s.heap x) ∧ s1.queue q = (s.queue q).erase p := by
  rcases uthread_terminate_thread_cases tid q s _ h with ⟨_, ho⟩ | ⟨_, ho⟩ | ⟨p, m, hp, hm, ho⟩
  · cases ho
  · cases ho
  · cases ho
    obtain ⟨hmem, th, hth, hid⟩ := scan_for_tid_found _ _ _ _ hp
    refine ⟨by simp, p, th, hmem, hth, hid, ?_, ?_, ?_⟩
    · cases q <;> simp [Sched.free, Sched.setQueue]
    · intro x hx
      cases q <;> simp [Sched.free, Sched.setQueue, Function.update_apply, hx]
    · cases q <;> simp [Sched.free, Sched.setQueue, Sched.queue]

/-- A self-termination deletes the caller and removes its id from the map. -/
theorem uthread_terminate_running_thread_success {M : Nat} (tid : Int) (s s1 : Sched)
    (hi : Inv M s) (hne : tid ≠ 0)
    (h : uthread_terminate_running_thread tid s = Outcome.ret 0 s1 ∨
      uthread_terminate_running_thread tid s = Outcome.switched s1) :
    uthread_terminate_running_thread tid s = Outcome.switched s1 ∧
    s1.tid_to_thread_map tid = none ∧
    ∃ c th, s.current_running_thread = some c ∧ s.heap c = some th ∧ th._id = tid ∧
      s1.heap c = none := by
  rcases uthread_terminate_running_thread_cases tid s _ rfl with
    ⟨_, ho⟩ | ⟨c, hc, ⟨_, ho⟩ | ⟨th, hth, ⟨_, ho⟩ | ⟨hid, m, hm, ho⟩⟩⟩
  · rw [ho] at h; rcases h with h | h <;> cases h
  · rw [ho] at h; rcases h with h | h <;> cases h
  · rw [ho] at h; rcases h with h | h <;> cases h
  · subst hid
    have hw := self_terminate_WInv s c th m hi hc hth hne hm
    cases ht : timer_handler
        { (s.write c { th with _state := State.TERMINATED }) with
          tid_to_thread_map := Function.update s.tid_to_thread_map th._id none
          available_tids := setInsert th._id s.available_tids
          min_tid := m } with
    | ret v s2 =>
      obtain ⟨_, _, c1, t1, hc1, ht1, hst⟩ := timer_handler_ret _ _ _ ht
      simp [Sched.write, hc] at hc1
      subst hc1
      simp [Sched.write] at ht1
      subst ht1
      simp at hst
    | exit v => rw [ho, ht] at h; rcases h with h | h <;> cases h
    | fault => rw [ho, ht] at h; rcases h with h | h <;> cases h
    | switched s2 =>
      rw [ho, ht] at h
      rcases h with h | h
      · cases h
      · cases h
        refine ⟨by rw [ho, ht], ?_, c, th, hc, hth, rfl, ?_⟩
        · rw [(timer_handler_frame _ _ hw ht).2.2.2.2.1]
          simp
        · obtain ⟨c1, sA, sd, th1, hc1, hsA, hth1, hrun, hqd, hheap, _, _, _, _, _, _, _, hcase⟩ :=
            timer_handler_pre_dispatch _ _ hw ht
          simp [Sched.write, hc] at hc1
          subst hc1
          have hns : c ∉ s.sleeping_threads := by
            rw [hi.q.mem_sleeping c th hth]
            simp [hi.stable.cur_running c th hc hth]
          obtain ⟨_, _, _, _, _, _, _, _, f9, _⟩ :=
            update_sleeping_time_frame _ sA hsA
          have := f9 c hns
          simp [Sched.write] at this
          rw [this] at hth1
          cases hth1
          rcases hcase with ⟨hR, _⟩ | ⟨_, hfree, _⟩ | ⟨_, hnT, _⟩
          · simp at hR
          · obtain ⟨p, rest, tp, hr, hp, rfl⟩ := run_next_ready_thread_switched sd _ hrun
            have hpc : c ≠ p := by
              intro he
              subst he
              rw [hfree] at hp
              cases hp
            simp [Sched.write, Function.update_apply, hpc, hfree]
          · simp at hnT

/-- A successful `uthread_terminate_single_thread` deletes a thread that has
the id and removes the id from the map. -/
theorem uthread_terminate_single_thread_success {M : Nat} (tid : Int) (s s1 : Sched)
    (hi : Inv M s) (hne : tid ≠ 0)
    (h : uthread_terminate_single_thread tid s = Outcome.ret 0 s1 ∨
      uthread_terminate_single_thread tid s = Outcome.switched s1) :
    s1.tid_to_thread_map tid = none ∧
    ∃ p th, s.heap p = some th ∧ th._id = tid ∧ s1.heap p = none := by
  unfold uthread_terminate_single_thread at h
  cases h1 : uthread_terminate_thread tid Queue.ready s with
  | switched s2 => exact absurd h1 (uthread_terminate_thread_not_switched _ _ _ _)
  | exit v => rw [h1] at h; rcases h with h | h <;> cases h
  | fault => rw [h1] at h; rcases h with h | h <;> cases h
  | ret v1 s2 =>
    rw [h1] at h
    simp only at h
    by_cases hv1 : v1 = 0
    · subst hv1
      rw [if_pos rfl] at h
      rcases h with h | h
      · cases h
        obtain ⟨hm, p, th, _, hp, hid, hfree, _⟩ := uthread_terminate_thread_success _ _ _ _ h1
        exact ⟨hm, p, th, hp, hid, hfree⟩
      · cases h
    · rw [if_neg hv1] at h
      obtain ⟨rfl, _⟩ := uthread_terminate_thread_miss tid _ s s2 v1 h1 hv1
      cases h2 : uthread_terminate_running_thread tid s2 with
      | switched s3 =>
        rw [h2] at h
        rcases h with h | h
        · cases h
        · cases h
          obtain ⟨_, hm, c, th, _, hp, hid, hfree⟩ :=
            uthread_terminate_running_thread_success tid s2 _ hi hne (Or.inr h2)
          exact ⟨hm, c, th, hp, hid, hfree⟩
      | exit v => rw [h2] at h; rcases h with h | h <;> cases h
      | fault => rw [h2] at h; rcases h with h | h <;> cases h
      | ret v2 s3 =>
        rw [h2] at h
        simp only at h
        by_cases hv2 : v2 = 0
        · subst hv2
          have := (uthread_terminate_running_thread_success tid s2 _ hi hne (Or.inl h2)).1
          rw [h2] at this
          cases this
        · rw [if_neg hv2] at h
          obtain ⟨rfl, _⟩ := uthread_terminate_running_thread_miss tid s2 s3 v2 h2 hv2
          cases h3 : uthread_terminate_thread tid Queue.blocked s3 with
          | switched s4 => exact absurd h3 (uthread_terminate_thread_not_switched _ _ _ _)
          | exit v => rw [h3] at h; rcases h with h | h <;> cases h
          | fault => rw [h3] at h; rcases h with h | h <;> cases h
          | ret v3 s4 =>
            rw [h3] at h
            simp only at h
            by_cases hv3 : v3 = 0
            · subst hv3
              rw [if_pos rfl] at h
              rcases h with h | h
              · cases h
                obtain ⟨hm, p, th, _, hp, hid, hfree, _⟩ :=
                  uthread_terminate_thread_success _ _ _ _ h3
                exact ⟨hm, p, th, hp, hid, hfree⟩
              · cases h
            · rw [if_neg hv3] at h
              obtain ⟨rfl, habs⟩ := uthread_terminate_thread_miss tid _ s3 s4 v3 h3 hv3
              cases h4 : uthread_terminate_thread tid Queue.sleeping s4 with
              | switched s5 => exact absurd h4 (uthread_terminate_thread_not_switched _ _ _ _)
              | exit v => rw [h4] at h; rcases h with h | h <;> cases h
              | fault => rw [h4] at h; rcases h with h | h <;> cases h
              | ret v4 s5 =>
                rw [h4] at h
                simp only at h
                by_cases hv4 : v4 = 0
                · subst hv4
                  rw [if_pos rfl] at h
                  rcases h with h | h
                  · cases h
                    obtain ⟨hm, p, th, _, hp, hid, hfree, _⟩ :=
                      uthread_terminate_thread_success _ _ _ _ h4
                    exact ⟨hm, p, th, hp, hid, hfree⟩
                  · cases h
                · rw [if_neg hv4] at h
                  rcases h with h | h <;> cases h

theorem toUnsigned_eq_of_small (x : Int) (M : Nat) (hx : isInt x) (hM : (M : Int) ≤ INT_MAX)
    (h0 : 0 ≤ toUnsigned x) (h1 : toUnsigned x < M) : toUnsigned x = x := by
  unfold toUnsigned at *
  unfold isInt INT_MAX at *
  omega

/-- C2: in a reachable state with a free id in `[1, MAX_THREAD_NUM)`,
`uthread_spawn` returns the smallest such id, creates a READY thread with that
id and no quantum at the tail of the READY deque, and changes no other thread;
and after a successful `uthread_terminate(tid)` the next spawn returns `tid`
exactly when `tid` is then the smallest free id. -/
theorem C2_spawn_smallest_free_id (M : Nat) (s : Sched) (hreach : Reachable M s) :
    ((∃ k : Int, 1 ≤ k ∧ k < M ∧ ¬ s.holdsId k) →
      ∃ s1, uthread_spawn M s = Outcome.ret s.min_tid s1 ∧
        (1 ≤ s.min_tid ∧ s.min_tid < M ∧ ¬ s.holdsId s.min_tid ∧
          ∀ j : Int, 1 ≤ j → j < M → ¬ s.holdsId j → s.min_tid ≤ j) ∧
        s.heap s.next_addr = none ∧
        s1.heap s.next_addr = some
          { _id := s.min_tid, _state := State.READY, _num_of_quantum := 0,
            _quantums_left_in_sleeping := 0 } ∧
        s1.ready_threads = s.ready_threads ++ [s.next_addr] ∧
        (∀ p, p ≠ s.next_addr → s1.heap p = s.heap p) ∧
        s1.blocked_threads = s.blocked_threads ∧
        s1.sleeping_threads = s.sleeping_threads ∧
        s1.current_running_thread = s.current_running_thread ∧
        s1.quantum_counter = s.quantum_counter) ∧
    (∀ (tid : Int) (s1 : Sched), isInt tid → tid ≠ 0 →
      (uthread_terminate M tid s = Outcome.ret 0 s1 ∨
        uthread_terminate M tid s = Outcome.switched s1) →
      ∃ v s2, uthread_spawn M s1 = Outcome.ret v s2 ∧
        (v = tid ↔ ∀ j : Int, 1 ≤ j → j < M → ¬ s1.holdsId j → tid ≤ j)) := by
  have key : ∀ s : Sched, Inv M s → (∃ k : Int, 1 ≤ k ∧ k < M ∧ ¬ s.holdsId k) →
      ∃ s1, uthread_spawn M s = Outcome.ret s.min_tid s1 ∧
        (1 ≤ s.min_tid ∧ s.min_tid < M ∧ ¬ s.holdsId s.min_tid ∧
          ∀ j : Int, 1 ≤ j → j < M → ¬ s.holdsId j → s.min_tid ≤ j) ∧
        s.heap s.next_addr = none ∧
        s1.heap s.next_addr = some
          { _id := s.min_tid, _state := State.READY, _num_of_quantum := 0,
            _quantums_left_in_sleeping := 0 } ∧
        s1.ready_threads = s.ready_threads ++ [s.next_addr] ∧
        (∀ p, p ≠ s.next_addr → s1.heap p = s.heap p) ∧
        s1.blocked_threads = s.blocked_threads ∧
        s1.sleeping_threads = s.sleeping_threads ∧
        s1.current_running_thread = s.current_running_thread ∧
        s1.quantum_counter = s.quantum_counter := by
    intro s hi ⟨k, hk1, hk2, hk3⟩
    obtain ⟨m1, m2, m3, m4⟩ := hi.min_tid_least
    have hlt : s.min_tid < M := lt_of_le_of_lt (m4 k hk1 (le_of_lt hk2) hk3) hk2
    obtain ⟨m, hm, hsp⟩ := uthread_spawn_succeeds s hi hlt
    refine ⟨_, hsp, ⟨m1, hlt, m3, fun j h1 h2 h3 => m4 j h1 (le_of_lt h2) h3⟩,
      (hi.q.fresh _ (le_refl _)).1, by simp [Thread.spawned], rfl, ?_, rfl, rfl, rfl, rfl⟩
    intro p hp
    simp [Function.update_apply, hp]
  refine ⟨key s hreach.inv, ?_⟩
  intro tid s1 htid hne hterm
  have hi := hreach.inv
  have hi1 : Inv M s1 := by
    refine uthread_terminate_Inv tid s s1 hi htid ?_
    rcases hterm with h | h <;> rw [h] <;> rfl
  have hsingle : uthread_terminate M tid s = uthread_terminate_single_thread (toUnsigned tid) s := by
    unfold uthread_terminate
    rw [if_neg hne]
  rw [hsingle] at hterm
  obtain ⟨hmap, p, th, hp, hid, _⟩ :=
    uthread_terminate_single_thread_success (toUnsigned tid) s s1 hi
      (toUnsigned_ne_zero tid htid hne) hterm
  have hkey := hi.ids.map_live p th hp (hi.not_terminated p th hp)
  have hrange := hi.ids.key_range _ _ hkey
  rw [hid] at hrange
  have hu : toUnsigned tid = tid := toUnsigned_eq_of_small tid M htid hi.max_ok hrange.1 hrange.2
  rw [hu] at hmap hrange
  have hfree : ¬ s1.holdsId tid := by
    rw [hi1.holdsId_iff]
    simp [hmap]
  have h1 : 1 ≤ tid := by omega
  obtain ⟨s2, hsp, ⟨_, _, n3, n4⟩, _⟩ := key s1 hi1 ⟨tid, h1, hrange.2, hfree⟩
  refine ⟨s1.min_tid, s2, hsp, ?_⟩
  constructor
  · intro hv j hj1 hj2 hj3
    rw [← hv]
    exact n4 j hj1 hj2 hj3
  · intro hall
    have a := n4 tid h1 hrange.2 hfree
    have b := hall s1.min_tid (hi1.min_tid_least.1) (by
      obtain ⟨_, _, ⟨_, hlt, _, _⟩, _⟩ := key s1 hi1 ⟨tid, h1, hrange.2, hfree⟩
      exact hlt) n3
    omega

/-- C2 at a concrete state: ids 1 and 2 were handed out and 1 was given back;
the next spawn returns 1 and queues the new thread behind thread 2. -/
theorem C2_spawn_smallest_free_id_witness :
    ∃ s1, uthread_spawn 4 (exec 4 [Op.spawn, Op.spawn, Op.terminate 1]) = Outcome.ret 1 s1 ∧
      s1.ready_threads = [2, 3] := by
  have hr : Reachable 4 (exec 4 [Op.spawn, Op.spawn, Op.terminate 1]) :=
    exec_Reachable 4 _ (by decide) (by simp [Op.inRange, isInt, INT_MAX]) ⟨_, _, rfl, rfl⟩
  obtain ⟨s1, h1, _, _, _, h2, _⟩ :=
    (C2_spawn_smallest_free_id 4 _ hr).1
      ⟨3, by decide, by decide, by rw [hr.inv.holdsId_iff]; simp; rfl⟩
  exact ⟨s1, h1, h2⟩

/-! ### Operations that return to their caller -/

/-- A dispatch never brings a deleted thread object back. -/
theorem timer_handler_none {M : Nat} (s s2 : Sched) (hw : WInv M s)
    (h : timer_handler s = Outcome.switched s2) (x : Nat) (hx : s.heap x = none) :
    s2.heap x = none := by
  obtain ⟨c, s1, sd, th1, hc, hs1, hth1, hrun, hqd, hheap, _, _, _, _, _, _, _, hcase⟩ :=
    timer_handler_pre_dispatch s s2 hw h
  have h1 : s1.heap x = none :=
    (update_sleeping_time_frame s s1 hs1).2.2.2.2.2.2.2.2.2.2 x hx
  have hxc : x ≠ c := by
    intro he
    subst he
    rw [h1] at hth1
    cases hth1
  have hd : sd.heap x = none := by rw [hheap x hxc, h1]
  obtain ⟨p, rest, t, hr, hp, rfl⟩ := run_next_ready_thread_switched sd s2 hrun
  have hxp : x ≠ p := by
    intro he
    subst he
    rw [hd] at hp
    cases hp
  simp [Sched.write, Function.update_apply, hxp, hd]

/-- The function `uthread_terminate_single_thread`, when it returns, has deleted at most
thread objects. -/
theorem uthread_terminate_single_thread_ret_heap {M : Nat} (tid : Int) (s s1 : Sched) (v : Int)
    (hi : Inv M s) (hne : tid ≠ 0)
    (h : uthread_terminate_single_thread tid s = Outcome.ret v s1) (x : Nat) :
    s1.heap x = none ∨ s1.heap x = s.heap x := by
  have key : ∀ (q : Queue) (sa sb : Sched) (w : Int),
      uthread_terminate_thread tid q sa = Outcome.ret w sb →
      sb.heap x = none ∨ sb.heap x = sa.heap x := by
    intro q sa sb w hq
    by_cases hw : w = 0
    · subst hw
      obtain ⟨_, p, th, _, _, _, hfree, hsame, _⟩ := uthread_terminate_thread_success _ _ _ _ hq
      by_cases hxp : x = p
      · subst hxp; exact Or.inl hfree
      · exact Or.inr (hsame x hxp)
    · rw [(uthread_terminate_thread_miss _ _ _ _ _ hq hw).1]
      exact Or.inr rfl
  unfold uthread_terminate_single_thread at h
  cases h1 : uthread_terminate_thread tid Queue.ready s with
  | switched s2 => exact absurd h1 (uthread_terminate_thread_not_switched _ _ _ _)
  | exit v => rw [h1] at h; cases h
  | fault => rw [h1] at h; cases h
  | ret v1 s2 =>
    rw [h1] at h
    simp only at h
    by_cases hv1 : v1 = 0
    · rw [if_pos hv1] at h
      cases h
      exact key _ _ _ _ h1
    · rw [if_neg hv1] at h
      obtain ⟨rfl, _⟩ := uthread_terminate_thread_miss tid _ s s2 v1 h1 hv1
      cases h2 : uthread_terminate_running_thread tid s2 with
      | switched s3 => rw [h2] at h; cases h
      | exit v => rw [h2] at h; cases h
      | fault => rw [h2] at h; cases h
      | ret v2 s3 =>
        rw [h2] at h
        simp only at h
        by_cases hv2 : v2 = 0
        · subst hv2
          have := (uthread_terminate_running_thread_success tid s2 _ hi hne (Or.inl h2)).1
          rw [h2] at this
          cases this
        · rw [if_neg hv2] at h
          obtain ⟨rfl, _⟩ := uthread_terminate_running_thread_miss tid s2 s3 v2 h2 hv2
          cases h3 : uthread_terminate_thread tid Queue.blocked s3 with
          | switched s4 => exact absurd h3 (uthread_terminate_thread_not_switched _ _ _ _)
          | exit v => rw [h3] at h; cases h
          | fault => rw [h3] at h; cases h
          | ret v3 s4 =>
            rw [h3] at h
            simp only at h
            by_cases hv3 : v3 = 0
            · rw [if_pos hv3] at h
              cases h
              exact key _ _ _ _ h3
            · rw [if_neg hv3] at h
              obtain ⟨rfl, _⟩ := uthread_terminate_thread_miss tid _ s3 s4 v3 h3 hv3
              cases h4 : uthread_terminate_thread tid Queue.sleeping s4 with
              | switched s5 => exact absurd h4 (uthread_terminate_thread_not_switched _ _ _ _)
              | exit v => rw [h4] at h; cases h
              | fault => rw [h4] at h; cases h
              | ret v4 s5 =>
                rw [h4] at h
                simp only at h
                by_cases hv4 : v4 = 0
                · rw [if_pos hv4] at h; cases h; exact key _ _ _ _ h4
                · rw [if_neg hv4] at h; cases h; exact key _ _ _ _ h4

/-- A self-termination through `uthread_terminate_single_thread` is the only
way for that function to end in a dispatch; spelled out. -/
theorem uthread_terminate_single_thread_switched (tid : Int) (s s1 : Sched)
    (h : uthread_terminate_single_thread tid s = Outcome.switched s1) :
    uthread_terminate_running_thread tid s = Outcome.switched s1 := by
  unfold uthread_terminate_single_thread at h
  cases h1 : uthread_terminate_thread tid Queue.ready s with
  | switched s2 => exact absurd h1 (uthread_terminate_thread_not_switched _ _ _ _)
  | exit v => rw [h1] at h; cases h
  | fault => rw [h1] at h; cases h
  | ret v1 s2 =>
    rw [h1] at h
    simp only at h
    by_cases hv1 : v1 = 0
    · rw [if_pos hv1] at h
      cases h
    · rw [if_neg hv1] at h
      obtain ⟨rfl, _⟩ := uthread_terminate_thread_miss tid _ s s2 v1 h1 hv1
      cases h2 : uthread_terminate_running_thread tid s2 with
      | switched s3 => rw [h2] at h; exact h
      | exit v => rw [h2] at h; cases h
      | fault => rw [h2] at h; cases h
      | ret v2 s3 =>
        rw [h2] at h
        simp only at h
        by_cases hv2 : v2 = 0
        · rw [if_pos hv2] at h; cases h
        · rw [if_neg hv2] at h
          obtain ⟨rfl, _⟩ := uthread_terminate_running_thread_miss tid s2 s3 v2 h2 hv2
          cases h3 : uthread_terminate_thread tid Queue.blocked s3 with
          | switched s4 => exact absurd h3 (uthread_terminate_thread_not_switched _ _ _ _)
          | exit v => rw [h3] at h; cases h
          | fault => rw [h3] at h; cases h
          | ret v3 s4 =>
            rw [h3] at h
            simp only at h
            by_cases hv3 : v3 = 0
            · rw [if_pos hv3] at h; cases h
            · rw [if_neg hv3] at h
              obtain ⟨rfl, _⟩ := uthread_terminate_thread_miss tid _ s3 s4 v3 h3 hv3
              cases h4 : uthread_terminate_thread tid Queue.sleeping s4 with
              | switched s5 => exact absurd h4 (uthread_terminate_thread_not_switched _ _ _ _)
              | exit v => rw [h4] at h; cases h
              | fault => rw [h4] at h; cases h
              | ret v4 s5 =>
                rw [h4] at h
                simp only at h
                by_cases hv4 : v4 = 0
                · rw [if_pos hv4] at h; cases h
                · rw [if_neg hv4] at h; cases h

/-- The function `uthread_terminate` never returns from the branch for id 0. -/
theorem uthread_terminate_zero_not_ret (M : Nat) (s s1 : Sched) (v : Int) :
    uthread_terminate M 0 s ≠ Outcome.ret v s1 := by
  unfold uthread_terminate
  rw [if_pos rfl]
  cases terminate_all_loop (List.range' 1 (M - 1)) s <;> simp

theorem range_ids_ok {M : Nat} (hmax : (M : Int) ≤ INT_MAX) :
    ∀ i ∈ List.range' 1 (M - 1), 1 ≤ i ∧ (i : Int) ≤ INT_MAX := by
  intro i hi1
  rw [List.mem_range'_1] at hi1
  constructor
  · omega
  · omega

/-- An operation that returns to its caller leaves every thread as it is,
deletes it, or moves it between a blocked state and its unblocked
counterpart. -/
theorem quiet_step_thread {M : Nat} (s s1 : Sched) (op : Op) (v : Int) (hi : Inv M s)
    (hr : op.inRange) (h : step M s op = Outcome.ret v s1) (c : Nat) (th : Thread)
    (hth : s.heap c = some th) :
    s1.heap c = none ∨ s1.heap c = some th ∨
    (th._state = State.READY ∧ s1.heap c = some { th with _state := State.BLOCKED }) ∨
    (th._state = State.SLEEPING ∧
      s1.heap c = some { th with _state := State.SLEEPING_AND_BLOCKED }) ∨
    (th._state = State.SLEEPING_AND_BLOCKED ∧
      s1.heap c = some { th with _state := State.SLEEPING }) ∨
    (th._state = State.BLOCKED ∧ s1.heap c = some { th with _state := State.READY }) := by
  cases op with
  | tick =>
    simp only [step] at h
    rw [(timer_handler_ret _ _ _ h).1]
    exact Or.inr (Or.inl hth)
  | spawn =>
    simp only [step] at h
    rcases uthread_spawn_ret M s s1 v h with ⟨_, _, rfl⟩ | ⟨_, _, m, _, rfl⟩
    · exact Or.inr (Or.inl hth)
    · have hf := (hi.q.fresh s.next_addr (le_refl _)).1
      have hcn : c ≠ s.next_addr := by
        intro he; rw [he, hf] at hth; cases hth
      right; left
      simp [Function.update_apply, hcn, hth]
  | terminate tid =>
    simp only [step] at h
    by_cases h0 : tid = 0
    · subst h0
      exact absurd h (uthread_terminate_zero_not_ret _ _ _ _)
    · unfold uthread_terminate at h
      rw [if_neg h0] at h
      rcases uthread_terminate_single_thread_ret_heap _ s s1 v hi
        (toUnsigned_ne_zero tid hr h0) h c with hx | hx
      · exact Or.inl hx
      · exact Or.inr (Or.inl (by rw [hx, hth]))
  | block tid =>
    simp only [step] at h
    have htail : ∀ sa, sa = s → uthread_block_tail tid sa = Outcome.ret v s1 →
        s1.heap c = none ∨ s1.heap c = some th ∨
        (th._state = State.READY ∧ s1.heap c = some { th with _state := State.BLOCKED }) ∨
        (th._state = State.SLEEPING ∧
          s1.heap c = some { th with _state := State.SLEEPING_AND_BLOCKED }) ∨
        (th._state = State.SLEEPING_AND_BLOCKED ∧
          s1.heap c = some { th with _state := State.SLEEPING }) ∨
        (th._state = State.BLOCKED ∧ s1.heap c = some { th with _state := State.READY }) := by
      intro sa hsa hta
      subst hsa
      obtain ⟨_, p, tp, _, hp, hcase⟩ := uthread_block_tail_ret tid _ s1 v hta
      by_cases hcp : c = p
      · subst hcp
        rw [hth] at hp
        cases hp
        rcases hcase with ⟨hst, rfl⟩ | ⟨hst, rfl⟩ | ⟨_, _, rfl⟩
        · right; right; left
          exact ⟨hst, by simp [Sched.write]⟩
        · right; right; right; left
          exact ⟨hst, by simp [Sched.write]⟩
        · exact Or.inr (Or.inl hth)
      · right; left
        rcases hcase with ⟨hst, rfl⟩ | ⟨hst, rfl⟩ | ⟨_, _, rfl⟩
        · simp [Sched.write, Function.update_apply, hcp, hth]
        · simp [Sched.write, Function.update_apply, hcp, hth]
        · exact hth
    rcases uthread_block_cases tid s _ h with
      ⟨_, ho⟩ | ⟨_, _, ⟨_, ho⟩ | ⟨cur, hc, ⟨_, ho⟩ | ⟨tc, htc, ⟨_, ho⟩ | ⟨_, ho⟩⟩⟩⟩
    · cases ho; exact Or.inr (Or.inl hth)
    · cases ho
    · cases ho
    · exact htail s rfl ho.symm
    · exfalso
      cases ht : timer_handler
          { (s.write cur { tc with _state := State.BLOCKED }) with
            blocked_threads := s.blocked_threads ++ [cur] } with
      | ret v s2 =>
        obtain ⟨_, _, c1, t1, hc1, ht1, hst⟩ := timer_handler_ret _ _ _ ht
        simp [Sched.write, hc] at hc1
        subst hc1
        simp [Sched.write] at ht1
        subst ht1
        simp at hst
      | switched s2 => rw [ht] at ho; cases ho
      | exit v => rw [ht] at ho; cases ho
      | fault => rw [ht] at ho; cases ho
  | resume tid =>
    simp only [step] at h
    rcases uthread_resume_ret tid s s1 v h with ⟨_, _, rfl⟩ | ⟨_, _, p, tp, _, hp, hcase⟩
    · exact Or.inr (Or.inl hth)
    · by_cases hcp : c = p
      · subst hcp
        rw [hth] at hp
        cases hp
        rcases hcase with ⟨hst, rfl⟩ | ⟨hst, rfl⟩ | ⟨_, _, rfl⟩
        · right; right; right; right; left
          exact ⟨hst, by simp [Sched.write]⟩
        · right; right; right; right; right
          exact ⟨hst, by simp [Sched.write]⟩
        · exact Or.inr (Or.inl hth)
      · right; left
        rcases hcase with ⟨hst, rfl⟩ | ⟨hst, rfl⟩ | ⟨_, _, rfl⟩
        · simp [Sched.write, Function.update_apply, hcp, hth]
        · simp [Sched.write, Function.update_apply, hcp, hth]
        · exact hth
  | sleep n =>
    simp only [step] at h
    rcases uthread_sleep_cases n s _ h with
      ⟨_, ho⟩ | ⟨_, ho⟩ | ⟨_, ⟨_, ho⟩ | ⟨cur, hc, ⟨_, ho⟩ | ⟨tc, htc, ⟨_, ho⟩ | ⟨_, _, ho⟩ | ⟨_, _, ho⟩⟩⟩⟩
    · cases ho; exact Or.inr (Or.inl hth)
    · cases ho; exact Or.inr (Or.inl hth)
    · cases ho
    · cases ho
    · cases ho; exact Or.inr (Or.inl hth)
    · cases ho
    · exfalso
      cases ht : timer_handler
          { (s.write cur { tc with _state := State.SLEEPING,
                                   _quantums_left_in_sleeping := n + 1 }) with
            sleeping_threads := s.sleeping_threads ++ [cur] } with
      | ret v s2 =>
        obtain ⟨_, _, c1, t1, hc1, ht1, hst⟩ := timer_handler_ret _ _ _ ht
        simp [Sched.write, hc] at hc1
        subst hc1
        simp [Sched.write] at ht1
        subst ht1
        simp at hst
      | switched s2 => rw [ht] at ho; cases ho
      | exit v => rw [ht] at ho; cases ho
      | fault => rw [ht] at ho; cases ho
  | get_tid =>
    simp only [step, uthread_get_tid] at h
    split at h
    · cases h
    · split at h
      · cases h
      · cases h; exact Or.inr (Or.inl hth)
  | get_total_quantums =>
    simp only [step, uthread_get_total_quantums] at h
    cases h; exact Or.inr (Or.inl hth)
  | get_quantums tid =>
    simp only [step, uthread_get_quantums] at h
    split at h
    · cases h
    · split at h
      · cases h
      · cases h; exact Or.inr (Or.inl hth)

/-! ### C3: how long `uthread_sleep` sleeps -/

/-- C3 (the code at the failing input): in a reachable state five threads go
to sleep one after the other, for 10, 10, 3, 10 and 2 quanta; the dispatch of
the last call leaves them with 6, 7, 1, 9 and 2 quanta of sleep.  Thread 5 called `uthread_sleep(2)`
and the dispatch of that call is its tick 1, after which it is SLEEPING with 2
left.  In the next timer tick, its tick 2, the loop of `update_sleeping_time`
wakes thread 3 and erases it from the back half of the deque: thread 4 moves
into the slot just read and is skipped, and thread 5 is read twice, in its new
slot and in the slot it left.  So thread 5 is READY and in the READY deque
after tick 2, one tick early, and thread 4 has not been ticked at all. -/
theorem C3_sleep_wakes_one_tick_early :
    Reachable 8 (exec 8 [Op.spawn, Op.spawn, Op.spawn, Op.spawn, Op.spawn, Op.tick,
      Op.sleep 10, Op.sleep 10, Op.sleep 3, Op.sleep 10]) ∧
    (exec 8 [Op.spawn, Op.spawn, Op.spawn, Op.spawn, Op.spawn, Op.tick,
      Op.sleep 10, Op.sleep 10, Op.sleep 3, Op.sleep 10]).current_running_thread = some 5 ∧
    step 8 (exec 8 [Op.spawn, Op.spawn, Op.spawn, Op.spawn, Op.spawn, Op.tick,
      Op.sleep 10, Op.sleep 10, Op.sleep 3, Op.sleep 10]) (Op.sleep 2) =
      Outcome.switched (exec 8 [Op.spawn, Op.spawn, Op.spawn, Op.spawn, Op.spawn, Op.tick,
        Op.sleep 10, Op.sleep 10, Op.sleep 3, Op.sleep 10, Op.sleep 2]) ∧
    Reachable 8 (exec 8 [Op.spawn, Op.spawn, Op.spawn, Op.spawn, Op.spawn, Op.tick,
      Op.sleep 10, Op.sleep 10, Op.sleep 3, Op.sleep 10, Op.sleep 2]) ∧
    (exec 8 [Op.spawn, Op.spawn, Op.spawn, Op.spawn, Op.spawn, Op.tick,
      Op.sleep 10, Op.sleep 10, Op.sleep 3, Op.sleep 10, Op.sleep 2]).sleeping_threads
      = [1, 2, 3, 4, 5] ∧
    (exec 8 [Op.spawn, Op.spawn, Op.spawn, Op.spawn, Op.spawn, Op.tick,
      Op.sleep 10, Op.sleep 10, Op.sleep 3, Op.sleep 10, Op.sleep 2]).heap 1 = some
      { _id := 1, _state := State.SLEEPING, _num_of_quantum := 1,
        _quantums_left_in_sleeping := 6 } ∧
    (exec 8 [Op.spawn, Op.spawn, Op.spawn, Op.spawn, Op.spawn, Op.tick,
      Op.sleep 10, Op.sleep 10, Op.sleep 3, Op.sleep 10, Op.sleep 2]).heap 2 = some
      { _id := 2, _state := State.SLEEPING, _num_of_quantum := 1,
        _quantums_left_in_sleeping := 7 } ∧
    (exec 8 [Op.spawn, Op.spawn, Op.spawn, Op.spawn, Op.spawn, Op.tick,
      Op.sleep 10, Op.sleep 10, Op.sleep 3, Op.sleep 10, Op.sleep 2]).heap 3 = some
      { _id := 3, _state := State.SLEEPING, _num_of_quantum := 1,
        _quantums_left_in_sleeping := 1 } ∧
    (exec 8 [Op.spawn, Op.spawn, Op.spawn, Op.spawn, Op.spawn, Op.tick,
      Op.sleep 10, Op.sleep 10, Op.sleep 3, Op.sleep 10, Op.sleep 2]).heap 4 = some
      { _id := 4, _state := State.SLEEPING, _num_of_quantum := 1,
        _quantums_left_in_sleeping := 9 } ∧
    (exec 8 [Op.spawn, Op.spawn, Op.spawn, Op.spawn, Op.spawn, Op.tick,
      Op.sleep 10, Op.sleep 10, Op.sleep 3, Op.sleep 10, Op.sleep 2]).heap 5 = some
      { _id := 5, _state := State.SLEEPING, _num_of_quantum := 1,
        _quantums_left_in_sleeping := 2 } ∧
    step 8 (exec 8 [Op.spawn, Op.spawn, Op.spawn, Op.spawn, Op.spawn, Op.tick,
      Op.sleep 10, Op.sleep 10, Op.sleep 3, Op.sleep 10, Op.sleep 2]) Op.tick =
      Outcome.switched (exec 8 [Op.spawn, Op.spawn, Op.spawn, Op.spawn, Op.spawn, Op.tick,
        Op.sleep 10, Op.sleep 10, Op.sleep 3, Op.sleep 10, Op.sleep 2, Op.tick]) ∧
    (exec 8 [Op.spawn, Op.spawn, Op.spawn, Op.spawn, Op.spawn, Op.tick,
      Op.sleep 10, Op.sleep 10, Op.sleep 3, Op.sleep 10, Op.sleep 2, Op.tick]).heap 5 = some
      { _id := 5, _state := State.READY, _num_of_quantum := 1,
        _quantums_left_in_sleeping := 0 } ∧
    (exec 8 [Op.spawn, Op.spawn, Op.spawn, Op.spawn, Op.spawn, Op.tick,
      Op.sleep 10, Op.sleep 10, Op.sleep 3, Op.sleep 10, Op.sleep 2, Op.tick]).heap 4 = some
      { _id := 4, _state := State.SLEEPING, _num_of_quantum := 1,
        _quantums_left_in_sleeping := 9 } ∧
    (exec 8 [Op.spawn, Op.spawn, Op.spawn, Op.spawn, Op.spawn, Op.tick,
      Op.sleep 10, Op.sleep 10, Op.sleep 3, Op.sleep 10, Op.sleep 2, Op.tick]).ready_threads
      = [5, 0] ∧
    (exec 8 [Op.spawn, Op.spawn, Op.spawn, Op.spawn, Op.spawn, Op.tick,
      Op.sleep 10, Op.sleep 10, Op.sleep 3, Op.sleep 10, Op.sleep 2, Op.tick]).sleeping_threads
      = [1, 2, 4] ∧
    (exec 8 [Op.spawn, Op.spawn, Op.spawn, Op.spawn, Op.spawn, Op.tick,
      Op.sleep 10, Op.sleep 10, Op.sleep 3, Op.sleep 10, Op.sleep 2,
      Op.tick]).current_running_thread = some 3 :=
  ⟨exec_Reachable_isSome 8 _ (by decide) (by simp [Op.inRange, isInt, INT_MAX])
      ⟨_, rfl, by decide!⟩,
    by decide!,
    exec_step_switched 8 _ _ ⟨_, rfl, by decide!⟩ (by decide!),
    exec_Reachable_isSome 8 _ (by decide) (by simp [Op.inRange, isInt, INT_MAX])
      ⟨_, rfl, by decide!⟩,
    by decide!, by decide!, by decide!, by decide!, by decide!, by decide!,
    exec_step_switched 8 _ _ ⟨_, rfl, by decide!⟩ (by decide!),
    by decide!, by decide!, by decide!, by decide!, by decide!⟩

/-! ### C4: terminating a thread that is asleep and blocked -/

/-- C4 (the code at the failing input): thread 1 sleeps and is then blocked, so
it is SLEEPING_AND_BLOCKED and sits in both the BLOCKED and the SLEEPING deque.
`uthread_terminate(1)` from the main thread returns 0, deletes the thread,
unmaps the id and frees it, but the deleted thread's pointer stays in the
SLEEPING deque; the next timer tick dereferences it. -/
theorem C4_terminate_leaves_sleeping_entry :
    Reachable 4 (exec 4 [Op.spawn, Op.tick, Op.sleep 5, Op.block 1]) ∧
    (exec 4 [Op.spawn, Op.tick, Op.sleep 5, Op.block 1]).current_running_thread = some 0 ∧
    (exec 4 [Op.spawn, Op.tick, Op.sleep 5, Op.block 1]).heap 1 = some
      { _id := 1, _state := State.SLEEPING_AND_BLOCKED, _num_of_quantum := 1,
        _quantums_left_in_sleeping := 5 } ∧
    (exec 4 [Op.spawn, Op.tick, Op.sleep 5, Op.block 1]).blocked_threads = [1] ∧
    (exec 4 [Op.spawn, Op.tick, Op.sleep 5, Op.block 1]).sleeping_threads = [1] ∧
    uthread_terminate 4 1 (exec 4 [Op.spawn, Op.tick, Op.sleep 5, Op.block 1]) =
      Outcome.ret 0 (exec 4 [Op.spawn, Op.tick, Op.sleep 5, Op.block 1, Op.terminate 1]) ∧
    (exec 4 [Op.spawn, Op.tick, Op.sleep 5, Op.block 1, Op.terminate 1]).heap 1 = none ∧
    (exec 4 [Op.spawn, Op.tick, Op.sleep 5, Op.block 1, Op.terminate 1]).tid_to_thread_map 1
      = none ∧
    (exec 4 [Op.spawn, Op.tick, Op.sleep 5, Op.block 1, Op.terminate 1]).available_tids
      = [1, 2, 3, 4] ∧
    (exec 4 [Op.spawn, Op.tick, Op.sleep 5, Op.block 1, Op.terminate 1]).blocked_threads = [] ∧
    (exec 4 [Op.spawn, Op.tick, Op.sleep 5, Op.block 1, Op.terminate 1]).sleeping_threads
      = [1] ∧
    timer_handler (exec 4 [Op.spawn, Op.tick, Op.sleep 5, Op.block 1, Op.terminate 1])
      = Outcome.fault :=
  ⟨exec_Reachable 4 _ (by decide) (by simp [Op.inRange, isInt, INT_MAX]) ⟨_, _, rfl, rfl⟩,
    rfl, rfl, rfl, rfl, rfl, rfl, rfl, rfl, rfl, rfl, rfl⟩

/-! ### C5: `uthread_block` and `uthread_resume` on an id that names no thread -/

/-- C5 (the code at the failing input): right after `uthread_init` only id 0
is in use.  For the unused ids -1 and 5, which are not in `available_tids`,
`uthread_block` and `uthread_resume` pass the existence test and dereference
the null pointer that `tid_to_thread_map[tid]` yields; only for the unused ids
of `available_tids` (here 1 to 4) do they return -1. -/
theorem C5_block_resume_unknown_id_faults :
    Reachable 4 (exec 4 []) ∧
    (exec 4 []).tid_to_thread_map (-1) = none ∧ (exec 4 []).tid_to_thread_map 5 = none ∧
    (exec 4 []).available_tids = [1, 2, 3, 4] ∧
    uthread_block (-1) (exec 4 []) = Outcome.fault ∧
    uthread_resume (-1) (exec 4 []) = Outcome.fault ∧
    uthread_block 5 (exec 4 []) = Outcome.fault ∧
    uthread_resume 5 (exec 4 []) = Outcome.fault ∧
    uthread_block 4 (exec 4 []) = Outcome.ret (-1) (exec 4 []) ∧
    uthread_resume 4 (exec 4 []) = Outcome.ret (-1) (exec 4 []) :=
  ⟨exec_Reachable 4 _ (by decide) (by simp) ⟨_, _, rfl, rfl⟩,
    rfl, rfl, rfl, rfl, rfl, rfl, rfl, rfl, rfl⟩

/-! ### C6: `uthread_get_quantums` on an id that names no thread -/

/-- C6 (the code at the failing input): thread 1 is spawned, runs and
terminates itself; afterwards no thread has id 1, and `uthread_get_quantums(1)`
dereferences the null pointer that `tid_to_thread_map[1]` yields instead of
returning -1.  For the live id 0 it returns the thread's quantum count. -/
theorem C6_get_quantums_unknown_id_faults :
    Reachable 4 (exec 4 [Op.spawn, Op.tick, Op.terminate 1]) ∧
    (exec 4 [Op.spawn, Op.tick]).current_running_thread = some 1 ∧
    (exec 4 [Op.spawn, Op.tick]).tid_to_thread_map 1 = some 1 ∧
    (exec 4 [Op.spawn, Op.tick, Op.terminate 1]).tid_to_thread_map 1 = none ∧
    (exec 4 [Op.spawn, Op.tick, Op.terminate 1]).heap 1 = none ∧
    uthread_get_quantums 1 (exec 4 [Op.spawn, Op.tick, Op.terminate 1]) = Outcome.fault ∧
    uthread_get_quantums 0 (exec 4 [Op.spawn, Op.tick, Op.terminate 1]) =
      Outcome.ret 2 (exec 4 [Op.spawn, Op.tick, Op.terminate 1]) :=
  ⟨exec_Reachable 4 _ (by decide) (by simp [Op.inRange, isInt, INT_MAX]) ⟨_, _, rfl, rfl⟩,
    rfl, rfl, rfl, rfl, rfl, rfl⟩

/-! ### C7: `uthread_terminate(0)` called by a spawned thread -/

/-- C7 (the code at the failing input): thread 1 is running and calls
`uthread_terminate(0)`.  The loop over the ids reaches the caller's own id, the
caller terminates itself there and the dispatcher hands the CPU to the main
thread: the call ends in a context switch, not in `exit(0)`.  Called by the
main thread, the same call does exit with status 0. -/
theorem C7_terminate_zero_from_spawned_thread :
    Reachable 4 (exec 4 [Op.spawn, Op.tick]) ∧
    (exec 4 [Op.spawn, Op.tick]).current_running_thread = some 1 ∧
    (exec 4 [Op.spawn, Op.tick]).heap 1 = some
      { _id := 1, _state := State.RUNNING, _num_of_quantum := 1,
        _quantums_left_in_sleeping := 0 } ∧
    uthread_terminate 4 0 (exec 4 [Op.spawn, Op.tick]) =
      Outcome.switched (exec 4 [Op.spawn, Op.tick, Op.terminate 0]) ∧
    (exec 4 [Op.spawn, Op.tick, Op.terminate 0]).current_running_thread = some 0 ∧
    (exec 4 [Op.spawn, Op.tick, Op.terminate 0]).heap 0 = some
      { _id := 0, _state := State.RUNNING, _num_of_quantum := 2,
        _quantums_left_in_sleeping := 0 } ∧
    uthread_terminate 4 0 (exec 4 [Op.spawn]) = Outcome.exit 0 :=
  ⟨exec_Reachable 4 _ (by decide) (by simp [Op.inRange]) ⟨_, _, rfl, rfl⟩,
    rfl, rfl, rfl, rfl, rfl, rfl⟩

/-! ### C8: a thread woken by a tick and the thread dispatched by it -/

/-- The dispatcher picks the head the READY deque had when `timer_handler` was
entered, if there was one. -/
theorem timer_handler_head {M : Nat} (s s1 : Sched) (hw : WInv M s)
    (h : timer_handler s = Outcome.switched s1) (hd : Nat) (rest : List Nat)
    (hr : s.ready_threads = hd :: rest) : s1.current_running_thread = some hd := by
  obtain ⟨c, sA, sd, th1, hc, hsA, hth1, hrun, hqd, hheap, _, _, _, _, _, _, _, hcase⟩ :=
    timer_handler_pre_dispatch s s1 hw h
  obtain ⟨_, _, _, _, _, _, _, ⟨w, hw1, _⟩, _, _⟩ :=
    update_sleeping_time_frame s sA hsA
  obtain ⟨p, rest1, tp, hr1, hp, rfl⟩ := run_next_ready_thread_switched sd s1 hrun
  have hsd : ∃ tl, sd.ready_threads = hd :: tl := by
    rcases hcase with ⟨_, _, h1⟩ | ⟨_, _, h1⟩ | ⟨_, _, _, h1⟩
    · exact ⟨rest ++ w ++ [c], by rw [h1, hw1, hr]; simp⟩
    · exact ⟨rest ++ w, by rw [h1, hw1, hr]; simp⟩
    · exact ⟨rest ++ w, by rw [h1, hw1, hr]; simp⟩
  obtain ⟨tl, htl⟩ := hsd
  rw [htl] at hr1
  cases hr1
  rfl

/-- Every dispatch other than the one inside `uthread_terminate(0)` enters
`timer_handler` with the READY deque of the state the operation started in. -/
theorem switched_enters_timer_handler {M : Nat} (s s1 : Sched) (op : Op) (hi : Inv M s)
    (hr : op.inRange) (hop : op ≠ Op.terminate 0) (h : step M s op = Outcome.switched s1) :
    ∃ sm, WInv M sm ∧ timer_handler sm = Outcome.switched s1 ∧
      sm.ready_threads = s.ready_threads := by
  cases op with
  | tick => exact ⟨s, hi.toWInv, h, rfl⟩
  | spawn => exact absurd h (uthread_spawn_not_switched _ _ _)
  | terminate tid =>
    have hne : tid ≠ 0 := fun he => hop (by rw [he])
    simp only [step] at h
    unfold uthread_terminate at h
    rw [if_neg hne] at h
    have h2 := uthread_terminate_single_thread_switched _ _ _ h
    have hu := toUnsigned_ne_zero tid hr hne
    generalize toUnsigned tid = u at h2 hu
    rcases uthread_terminate_running_thread_cases _ s _ h2 with
      ⟨_, ho⟩ | ⟨cur, hc, ⟨_, ho⟩ | ⟨tc, htc, ⟨_, ho⟩ | ⟨hid, m, hm, ho⟩⟩⟩
    · cases ho
    · cases ho
    · cases ho
    · subst hid
      have hw := self_terminate_WInv s cur tc m hi hc htc hu hm
      cases ht : timer_handler
          { (s.write cur { tc with _state := State.TERMINATED }) with
            tid_to_thread_map := Function.update s.tid_to_thread_map tc._id none
            available_tids := setInsert tc._id s.available_tids
            min_tid := m } with
      | ret v s2 => rw [ht] at ho; cases ho
      | switched s2 =>
        rw [ht] at ho
        cases ho
        exact ⟨_, hw, ht, rfl⟩
      | exit v => rw [ht] at ho; cases ho
      | fault => rw [ht] at ho; cases ho
  | block tid =>
    simp only [step] at h
    rcases uthread_block_cases tid s _ h with
      ⟨_, ho⟩ | ⟨_, _, ⟨_, ho⟩ | ⟨cur, hc, ⟨_, ho⟩ | ⟨tc, htc, ⟨_, ho⟩ | ⟨_, ho⟩⟩⟩⟩
    · cases ho
    · cases ho
    · cases ho
    · exact absurd ho.symm (uthread_block_tail_not_switched _ _ _)
    · have hw := self_block_WInv s cur tc hi hc htc
      cases ht : timer_handler
          { (s.write cur { tc with _state := State.BLOCKED }) with
            blocked_threads := s.blocked_threads ++ [cur] } with
      | ret v s2 =>
        rw [ht] at ho
        exact absurd ho.symm (uthread_block_tail_not_switched _ _ _)
      | switched s2 =>
        rw [ht] at ho
        cases ho
        exact ⟨_, hw, ht, rfl⟩
      | exit v => rw [ht] at ho; cases ho
      | fault => rw [ht] at ho; cases ho
  | resume tid => exact absurd h (uthread_resume_not_switched _ _ _)
  | sleep n =>
    simp only [step] at h
    rcases uthread_sleep_cases n s _ h with
      ⟨_, ho⟩ | ⟨_, ho⟩ | ⟨_, ⟨_, ho⟩ | ⟨cur, hc, ⟨_, ho⟩ | ⟨tc, htc, ⟨_, ho⟩ | ⟨_, _, ho⟩ | ⟨_, _, ho⟩⟩⟩⟩
    · cases ho
    · cases ho
    · cases ho
    · cases ho
    · cases ho
    · cases ho
    · have hw := self_sleep_WInv s cur tc (n + 1) hi hc htc
      cases ht : timer_handler
          { (s.write cur { tc with _state := State.SLEEPING,
                                   _quantums_left_in_sleeping := n + 1 }) with
            sleeping_threads := s.sleeping_threads ++ [cur] } with
      | ret v s2 => rw [ht] at ho; cases ho
      | switched s2 =>
        rw [ht] at ho
        cases ho
        exact ⟨_, hw, ht, rfl⟩
      | exit v => rw [ht] at ho; cases ho
      | fault => rw [ht] at ho; cases ho
  | get_tid =>
    simp only [step, uthread_get_tid] at h
    split at h
    · cases h
    · split at h <;> cases h
  | get_total_quantums =>
    simp only [step, uthread_get_total_quantums] at h
    cases h
  | get_quantums tid =>
    simp only [step, uthread_get_quantums] at h
    split at h
    · cases h
    · split at h <;> cases h

/-- C8, as stated, fails: thread 1 sleeps for one quantum while the READY deque
is empty; the tick that wakes it also dispatches it. -/
theorem C8_counterexample :
    ¬ (∀ (s s1 : Sched) (p : Nat) (th : Thread), Reachable 4 s →
        timer_handler s = Outcome.switched s1 → s.heap p = some th →
        th._state = State.SLEEPING → th._quantums_left_in_sleeping = 1 →
        s1.current_running_thread ≠ some p) := by
  intro h
  exact h (exec 4 [Op.spawn, Op.tick, Op.sleep 1])
    (exec 4 [Op.spawn, Op.tick, Op.sleep 1, Op.tick]) 1
    { _id := 1, _state := State.SLEEPING, _num_of_quantum := 1,
      _quantums_left_in_sleeping := 1 }
    (exec_Reachable 4 _ (by decide) (by simp [Op.inRange, isInt, INT_MAX]) ⟨_, _, rfl, rfl⟩)
    rfl rfl rfl rfl rfl

/-- C8, amended: in a reachable state whose READY deque is not empty, a tick
(the timer signal, or the dispatch inside `uthread_sleep`, `uthread_block` or
`uthread_terminate` of the caller itself) dispatches the head of that deque,
which is none of the threads of the SLEEPING deque; so a thread whose sleep
expires in the tick is not the thread dispatched by it. -/
theorem C8_woken_thread_not_dispatched (M : Nat) (s s1 : Sched) (op : Op) (p : Nat)
    (hreach : Reachable M s) (hr : op.inRange) (hop : op ≠ Op.terminate 0)
    (hstep : step M s op = Outcome.switched s1) (hne : s.ready_threads ≠ [])
    (hp : p ∈ s.sleeping_threads) :
    s1.current_running_thread = s.ready_threads.head? ∧
    s1.current_running_thread ≠ some p := by
  have hi := hreach.inv
  obtain ⟨sm, hw, ht, hrd⟩ := switched_enters_timer_handler s s1 op hi hr hop hstep
  cases hl : s.ready_threads with
  | nil => exact absurd hl hne
  | cons hd rest =>
    have hcur := timer_handler_head sm s1 hw ht hd rest (by rw [hrd, hl])
    refine ⟨by rw [hcur]; rfl, ?_⟩
    rw [hcur]
    intro he
    have hpd : hd = p := by injection he
    have h1 := ((hi.q.agree hd).1).mp (by rw [hl]; simp)
    have h2 := (hi.q.agree hd).2.2.2 (by rw [hpd]; exact hp)
    rw [h1] at h2
    simp at h2

/-- C8, amended, at a concrete state: thread 2 is READY while thread 1 sleeps
for one quantum; the tick that wakes thread 1 dispatches thread 2. -/
theorem C8_woken_thread_not_dispatched_witness :
    (exec 4 [Op.spawn, Op.spawn, Op.tick, Op.sleep 1, Op.tick]).current_running_thread
      = (exec 4 [Op.spawn, Op.spawn, Op.tick, Op.sleep 1]).ready_threads.head? ∧
    (exec 4 [Op.spawn, Op.spawn, Op.tick, Op.sleep 1, Op.tick]).current_running_thread
      ≠ some 1 :=
  C8_woken_thread_not_dispatched 4 (exec 4 [Op.spawn, Op.spawn, Op.tick, Op.sleep 1])
    (exec 4 [Op.spawn, Op.spawn, Op.tick, Op.sleep 1, Op.tick]) Op.tick 1
    (exec_Reachable 4 _ (by decide) (by simp [Op.inRange, isInt, INT_MAX]) ⟨_, _, rfl, rfl⟩)
    trivial (by simp) rfl (by decide) (by decide)

/-! ### Blocking and resuming a live thread by its id -/

/-- Between operations, the id of a live thread is mapped to it, is not free,
and is in the range of the ids. -/
theorem Inv.live_id {M : Nat} {s : Sched} (hi : Inv M s) (c : Nat) (th : Thread)
    (hth : s.heap c = some th) :
    s.tid_to_thread_map th._id = some c ∧ th._id ∉ s.available_tids ∧
    0 ≤ th._id ∧ th._id < M ∧ toUnsigned th._id = th._id := by
  have hmap := hi.ids.map_live c th hth (hi.not_terminated c th hth)
  have hrange := hi.ids.key_range _ _ hmap
  refine ⟨hmap, ?_, hrange.1, hrange.2, ?_⟩
  · rw [hi.ids.avail_iff]
    simp [hmap]
  · have := hi.max_ok
    exact toUnsigned_of_nonneg _ hrange.1 (by omega)

/-- The call `uthread_resume` on the id of a live thread, by the state of the thread. -/
theorem uthread_resume_live {M : Nat} (s : Sched) (hi : Inv M s) (c : Nat) (th : Thread)
    (hth : s.heap c = some th) :
    uthread_resume th._id s =
      if th._state = State.SLEEPING_AND_BLOCKED then
        Outcome.ret 0
          { (s.write c { th with _state := State.SLEEPING }) with
            blocked_threads := s.blocked_threads.erase c }
      else if th._state = State.BLOCKED then
        Outcome.ret 0
          { (s.write c { th with _state := State.READY }) with
            ready_threads := s.ready_threads ++ [c]
            blocked_threads := s.blocked_threads.erase c }
      else
        Outcome.ret 0 { s with blocked_threads := s.blocked_threads.erase c } := by
  obtain ⟨hmap, hav, _⟩ := hi.live_id c th hth
  unfold uthread_resume
  rw [if_neg hav]
  simp only [hmap, hth]

/-- The call `uthread_block` on the id of a live thread other than the caller and the
main thread, by the state of the thread. -/
theorem uthread_block_live {M : Nat} (s : Sched) (hi : Inv M s) (c : Nat) (th : Thread)
    (hth : s.heap c = some th) (hne : th._id ≠ 0) (hnr : th._state ≠ State.RUNNING) :
    uthread_block th._id s =
      if th._state = State.READY then
        Outcome.ret 0
          { (s.write c { th with _state := State.BLOCKED }) with
            blocked_threads := s.blocked_threads ++ [c]
            ready_threads := s.ready_threads.erase c }
      else if th._state = State.SLEEPING then
        Outcome.ret 0
          { (s.write c { th with _state := State.SLEEPING_AND_BLOCKED }) with
            blocked_threads := s.blocked_threads ++ [c] }
      else Outcome.ret 0 s := by
  obtain ⟨hmap, hav, _, _, hu⟩ := hi.live_id c th hth
  obtain ⟨cur, tc, hcur, hlive, hrun, _⟩ := hi.stable
  have hcid : tc._id ≠ th._id := by
    intro he
    have h1 := (hi.live_id cur tc hlive).1
    rw [he, hmap] at h1
    cases h1
    rw [hth] at hlive
    cases hlive
    exact hnr hrun
  unfold uthread_block
  rw [if_neg hav, if_neg hne]
  simp only [hcur, hlive, hu, if_neg hcid]
  unfold uthread_block_tail
  simp only [hmap, hth]

/-! ### The part of `uthread_block` that runs after a self-block is resumed -/

/-- When a thread that blocked itself is dispatched again it is RUNNING, and
the rest of `uthread_block` returns 0 without touching the state. -/
theorem uthread_block_tail_running {M : Nat} (s : Sched) (hi : Inv M s) (c : Nat) (th : Thread)
    (hc : s.current_running_thread = some c) (hth : s.heap c = some th) :
    uthread_block_tail th._id s = Outcome.ret 0 s := by
  have hrun := hi.stable.cur_running c th hc hth
  obtain ⟨hmap, _⟩ := hi.live_id c th hth
  unfold uthread_block_tail
  simp only [hmap, hth]
  rw [if_neg (by simp [hrun]), if_neg (by simp [hrun])]

/-! ### C10: block then resume on a READY thread -/

/-- C10: in a reachable state, for a READY thread with id `tid ≠ 0`,
`uthread_block(tid)` and then `uthread_resume(tid)` both return 0, and the
state they leave differs from the initial one only in the READY deque, where
the thread has moved to the tail: every thread record, the BLOCKED and
SLEEPING deques, the counters, the free ids, the id map and the current thread
are as before, and the other READY threads keep their order. -/
theorem C10_block_then_resume_ready (M : Nat) (s : Sched) (tid : Int) (c : Nat) (th : Thread)
    (hreach : Reachable M s) (hth : s.heap c = some th) (hid : th._id = tid)
    (hst : th._state = State.READY) (hne : tid ≠ 0) :
    ∃ s1 s2, uthread_block tid s = Outcome.ret 0 s1 ∧
      uthread_resume tid s1 = Outcome.ret 0 s2 ∧
      s2 = { s with ready_threads := s.ready_threads.erase c ++ [c] } ∧
      s2.heap c = some th ∧ c ∈ s.ready_threads ∧
      s2.ready_threads.getLast? = some c ∧
      s2.ready_threads.erase c = s.ready_threads.erase c := by
  have hi := hreach.inv
  subst hid
  have hb := uthread_block_live s hi c th hth hne (by simp [hst])
  rw [if_pos hst] at hb
  have hi1 : Inv M _ := uthread_block_Inv th._id s _ hi (by rw [hb]; rfl)
  have hr := uthread_resume_live _ hi1 c { th with _state := State.BLOCKED }
    (by simp [Sched.write])
  have hcb : c ∉ s.blocked_threads := by
    rw [hi.q.mem_blocked c th hth]
    simp [hst]
  have hmem : c ∈ s.ready_threads := (hi.q.mem_ready c th hth).mpr hst
  have hnd := hi.q.ready_nodup
  have h1 : (s.blocked_threads ++ [c]).erase c = s.blocked_threads := by
    rw [List.erase_append_right _ hcb]
    simp
  have hthr : ({ th with _state := State.READY } : Thread) = th := by
    cases th
    simp at hst
    simp [hst]
  have h2 : Function.update (Function.update s.heap c
      (some { th with _state := State.BLOCKED })) c (some th) = s.heap := by
    rw [Function.update_idem, ← hth, Function.update_eq_self]
  refine ⟨_, { s with ready_threads := s.ready_threads.erase c ++ [c] }, hb, ?_, rfl, hth,
    hmem, by simp, ?_⟩
  · rw [hr]
    simp only [Sched.write, h1, hthr, h2]
    simp
  · simp only []
    rw [List.erase_append_right]
    · simp
    · exact fun hh => ((hnd.mem_erase_iff).mp hh).1 rfl

/-- C10 at a concrete state: threads 1 and 2 are READY; blocking and resuming
thread 1 moves it behind thread 2 and changes nothing else. -/
theorem C10_block_then_resume_ready_witness :
    ∃ s1 s2, uthread_block 1 (exec 4 [Op.spawn, Op.spawn]) = Outcome.ret 0 s1 ∧
      uthread_resume 1 s1 = Outcome.ret 0 s2 ∧
      s2 = { (exec 4 [Op.spawn, Op.spawn]) with
        ready_threads := (exec 4 [Op.spawn, Op.spawn]).ready_threads.erase 1 ++ [1] } ∧
      s2.heap 1 = some (Thread.spawned 1) ∧ 1 ∈ (exec 4 [Op.spawn, Op.spawn]).ready_threads ∧
      s2.ready_threads.getLast? = some 1 ∧
      s2.ready_threads.erase 1 = (exec 4 [Op.spawn, Op.spawn]).ready_threads.erase 1 :=
  C10_block_then_resume_ready 4 (exec 4 [Op.spawn, Op.spawn]) 1 1 (Thread.spawned 1)
    (exec_Reachable 4 _ (by decide) (by simp [Op.inRange]) ⟨_, _, rfl, rfl⟩)
    rfl rfl rfl (by decide)

/-! ### C14: exactly one thread is RUNNING -/

/-- C14: in every reachable state exactly one live thread is RUNNING; it is
the thread `current_running_thread` points to, and `uthread_get_tid` returns
its id without changing the state. -/
theorem C14_exactly_one_running (M : Nat) (s : Sched) (hreach : Reachable M s) :
    ∃ c th, s.current_running_thread = some c ∧ s.heap c = some th ∧
      th._state = State.RUNNING ∧
      (∀ p t, s.heap p = some t → t._state = State.RUNNING → p = c) ∧
      uthread_get_tid s = Outcome.ret th._id s := by
  obtain ⟨c, th, hc, hth, hrun, huniq⟩ := hreach.inv.stable
  refine ⟨c, th, hc, hth, hrun, fun p t hp ht => huniq p t hp (Or.inl ht), ?_⟩
  unfold uthread_get_tid
  simp only [hc, hth]

/-- C14 at a concrete state: after a spawn and a tick, thread 1 is the one
RUNNING thread. -/
theorem C14_exactly_one_running_witness :
    ∃ c th, (exec 4 [Op.spawn, Op.tick]).current_running_thread = some c ∧
      (exec 4 [Op.spawn, Op.tick]).heap c = some th ∧ th._state = State.RUNNING ∧
      (∀ p t, (exec 4 [Op.spawn, Op.tick]).heap p = some t →
        t._state = State.RUNNING → p = c) ∧
      uthread_get_tid (exec 4 [Op.spawn, Op.tick]) =
        Outcome.ret th._id (exec 4 [Op.spawn, Op.tick]) :=
  C14_exactly_one_running 4 (exec 4 [Op.spawn, Op.tick])
    (exec_Reachable 4 _ (by decide) (by simp [Op.inRange]) ⟨_, _, rfl, rfl⟩)

/-! ### C16: the READY deque and the READY state -/

/-- C16: in every reachable state a live thread is in the READY deque exactly
when its state is READY; every entry of the deque is a live thread, and no
thread is in the deque twice. -/
theorem C16_ready_queue_iff_ready_state (M : Nat) (s : Sched) (hreach : Reachable M s) :
    (∀ p th, s.heap p = some th → (p ∈ s.ready_threads ↔ th._state = State.READY)) ∧
    (∀ p, p ∈ s.ready_threads →
      (∃ th, s.heap p = some th ∧ th._state = State.READY) ∧
      s.ready_threads.count p = 1) := by
  have hi := hreach.inv
  refine ⟨fun p th hp => hi.q.mem_ready p th hp, ?_⟩
  intro p hp
  refine ⟨?_, List.count_eq_one_of_mem hi.q.ready_nodup hp⟩
  have h := ((hi.q.agree p).1).mp hp
  unfold stOf at h
  cases hh : s.heap p with
  | none => rw [hh] at h; simp at h
  | some th =>
    rw [hh] at h
    simp at h
    exact ⟨th, rfl, h⟩

/-- C16 at a concrete state: two spawned threads wait in READY. -/
theorem C16_ready_queue_iff_ready_state_witness :
    (∀ p th, (exec 4 [Op.spawn, Op.spawn]).heap p = some th →
      (p ∈ (exec 4 [Op.spawn, Op.spawn]).ready_threads ↔ th._state = State.READY)) ∧
    (∀ p, p ∈ (exec 4 [Op.spawn, Op.spawn]).ready_threads →
      (∃ th, (exec 4 [Op.spawn, Op.spawn]).heap p = some th ∧ th._state = State.READY) ∧
      (exec 4 [Op.spawn, Op.spawn]).ready_threads.count p = 1) :=
  C16_ready_queue_iff_ready_state 4 (exec 4 [Op.spawn, Op.spawn])
    (exec_Reachable 4 _ (by decide) (by simp [Op.inRange]) ⟨_, _, rfl, rfl⟩)

/-! ### C18: free ids and live ids -/

/-- C18: in every reachable state, an id of `[1, MAX_THREAD_NUM)` is in
`available_tids` exactly when no live thread has it, which is exactly when it
is not a key of `tid_to_thread_map`; so the free ids and the ids of the live
threads are disjoint and together cover `[1, MAX_THREAD_NUM)`. -/
theorem C18_free_ids_partition (M : Nat) (s : Sched) (hreach : Reachable M s) :
    ∀ k : Int, 1 ≤ k → k < M →
      (k ∈ s.available_tids ↔ ¬ s.holdsId k) ∧
      (s.holdsId k ↔ s.tid_to_thread_map k ≠ none) ∧
      (k ∈ s.available_tids ∨ s.holdsId k) ∧
      ¬ (k ∈ s.available_tids ∧ s.holdsId k) := by
  have hi := hreach.inv
  intro k h1 h2
  have ha := hi.ids.avail_iff k
  have hh := hi.holdsId_iff k
  have hiff : k ∈ s.available_tids ↔ ¬ s.holdsId k := by
    rw [ha, hh]
    constructor
    · intro h; simp [h.2.2]
    · intro h; exact ⟨h1, le_of_lt h2, by simpa using h⟩
  refine ⟨hiff, hh, ?_, ?_⟩
  · by_cases hk : s.holdsId k
    · exact Or.inr hk
    · exact Or.inl (hiff.mpr hk)
  · intro h
    exact (hiff.mp h.1) h.2

/-- C18 at a concrete state: ids 1 and 2 were handed out and 1 was given
back; 1 is free, 2 is not. -/
theorem C18_free_ids_partition_witness :
    ((1 : Int) ∈ (exec 4 [Op.spawn, Op.spawn, Op.terminate 1]).available_tids ↔
      ¬ (exec 4 [Op.spawn, Op.spawn, Op.terminate 1]).holdsId 1) ∧
    ((2 : Int) ∈ (exec 4 [Op.spawn, Op.spawn, Op.terminate 1]).available_tids ↔
      ¬ (exec 4 [Op.spawn, Op.spawn, Op.terminate 1]).holdsId 2) :=
  ⟨(C18_free_ids_partition 4 (exec 4 [Op.spawn, Op.spawn, Op.terminate 1])
      (exec_Reachable 4 _ (by decide) (by simp [Op.inRange, isInt, INT_MAX]) ⟨_, _, rfl, rfl⟩)
      1 (by decide) (by decide)).1,
   (C18_free_ids_partition 4 (exec 4 [Op.spawn, Op.spawn, Op.terminate 1])
      (exec_Reachable 4 _ (by decide) (by simp [Op.inRange, isInt, INT_MAX]) ⟨_, _, rfl, rfl⟩)
      2 (by decide) (by decide)).1⟩

/-! ### C12: when `uthread_sleep` fails -/

/-- C12, as stated, fails: the main thread calls `uthread_sleep(0)` right
after `uthread_init`; the caller is the bootstrap thread, yet the call returns
0, not -1. -/
theorem C12_counterexample :
    ¬ (∀ (s : Sched) (N : Int), Reachable 4 s → isInt N →
        ((∃ s1, uthread_sleep N s = Outcome.ret (-1) s1) ↔
          (N < 0 ∨ uthread_get_tid s = Outcome.ret 0 s))) := by
  intro h
  have h1 := (h (exec 4 []) 0
    (exec_Reachable 4 _ (by decide) (by simp) ⟨_, _, rfl, rfl⟩)
    (by simp [isInt, INT_MAX])).mpr (Or.inr rfl)
  obtain ⟨s1, hs1⟩ := h1
  have h0 : uthread_sleep 0 (exec 4 []) = Outcome.ret 0 (exec 4 []) := rfl
  rw [h0] at hs1
  injection hs1 with hv _
  exact absurd hv (by decide)

/-- C12, amended: in a reachable state with caller `th`, `uthread_sleep(N)`
returns -1 exactly when `N < 0`, or `N > 0` and the caller is the main thread
(id 0); the state is then unchanged and no dispatch happens.  For `N = 0` the
call returns 0 with the state unchanged, whoever calls; for `N > 0` and a
caller other than the main thread the call does not return before a
dispatch. -/
theorem C12_sleep_fails_exactly (M : Nat) (s : Sched) (N : Int) (c : Nat) (th : Thread)
    (hreach : Reachable M s) (hc : s.current_running_thread = some c)
    (hth : s.heap c = some th) :
    (∀ s1, uthread_sleep N s = Outcome.ret (-1) s1 ↔
      ((N < 0 ∨ (0 < N ∧ th._id = 0)) ∧ s1 = s)) ∧
    (N = 0 → uthread_sleep N s = Outcome.ret 0 s) ∧
    ((0 < N ∧ th._id ≠ 0) → ∀ v s1, uthread_sleep N s ≠ Outcome.ret v s1) := by
  have hi := hreach.inv
  have hneg : N < 0 → uthread_sleep N s = Outcome.ret (-1) s := by
    intro h
    unfold uthread_sleep
    rw [if_neg (by omega), if_pos h]
  have hzero : N = 0 → uthread_sleep N s = Outcome.ret 0 s := by
    intro h
    unfold uthread_sleep
    rw [if_pos h]
  have hmain : 0 < N → th._id = 0 → uthread_sleep N s = Outcome.ret (-1) s := by
    intro h h0
    unfold uthread_sleep
    rw [if_neg (by omega), if_neg (by omega)]
    simp only [hc, hth, if_pos h0]
  have hother : 0 < N → th._id ≠ 0 → ∀ v s1, uthread_sleep N s ≠ Outcome.ret v s1 := by
    intro h h0 v s1 hs
    rcases uthread_sleep_cases N s _ hs with
      ⟨hn, _⟩ | ⟨hn, _⟩ | ⟨_, ⟨hn, _⟩ | ⟨cur, hcur, ⟨hn, _⟩ | ⟨tc, htc, ⟨hn, _⟩ | ⟨_, _, ho⟩ | ⟨_, _, ho⟩⟩⟩⟩
    · omega
    · omega
    · rw [hc] at hn; cases hn
    · rw [hc] at hcur; cases hcur; rw [hth] at hn; cases hn
    · rw [hc] at hcur; cases hcur; rw [hth] at htc; cases htc; exact h0 hn
    · cases ho
    · rw [hc] at hcur
      cases hcur
      rw [hth] at htc
      cases htc
      cases ht : timer_handler
          { (s.write c { th with _state := State.SLEEPING,
                                 _quantums_left_in_sleeping := N + 1 }) with
            sleeping_threads := s.sleeping_threads ++ [c] } with
      | ret v s2 =>
        obtain ⟨_, _, c1, t1, hc1, ht1, hst⟩ := timer_handler_ret _ _ _ ht
        simp [Sched.write, hc] at hc1
        subst hc1
        simp [Sched.write] at ht1
        subst ht1
        simp at hst
      | switched s2 => rw [ht] at ho; cases ho
      | exit v => rw [ht] at ho; cases ho
      | fault => rw [ht] at ho; cases ho
  refine ⟨?_, hzero, fun h => hother h.1 h.2⟩
  intro s1
  constructor
  · intro hs
    rcases lt_trichotomy N 0 with hn | hn | hn
    · rw [hneg hn] at hs
      injection hs with _ hs2
      exact ⟨Or.inl hn, hs2.symm⟩
    · rw [hzero hn] at hs
      injection hs with hv _
      exact absurd hv (by decide)
    · by_cases h0 : th._id = 0
      · rw [hmain hn h0] at hs
        injection hs with _ hs2
        exact ⟨Or.inr ⟨hn, h0⟩, hs2.symm⟩
      · exact absurd hs (hother hn h0 _ _)
  · rintro ⟨h | ⟨h, h0⟩, rfl⟩
    · exact hneg h
    · exact hmain h h0

/-- C12, amended, at a concrete state: the main thread calls `uthread_sleep(3)`
and gets -1 with the state unchanged. -/
theorem C12_sleep_fails_exactly_witness :
    uthread_sleep 3 (exec 4 [Op.spawn]) = Outcome.ret (-1) (exec 4 [Op.spawn]) :=
  ((C12_sleep_fails_exactly 4 (exec 4 [Op.spawn]) 3 0
    { _id := 0, _state := State.RUNNING, _num_of_quantum := 1,
      _quantums_left_in_sleeping := 0 }
    (exec_Reachable 4 _ (by decide) (by simp [Op.inRange]) ⟨_, _, rfl, rfl⟩)
    rfl rfl).1 (exec 4 [Op.spawn])).mpr ⟨Or.inr ⟨by decide, rfl⟩, rfl⟩

/-! ### C15: the SLEEPING deque and the sleeping states -/

/-- C15 (the code at the failing input): thread 1 sleeps, is blocked and is
then terminated by the main thread.  In the state reached, the SLEEPING deque
still holds the pointer of the deleted thread: no thread object lives there,
no thread has id 1, and id 1 is free.  What does hold in every reachable
state: a live thread is in the SLEEPING deque exactly when its state is
SLEEPING or SLEEPING_AND_BLOCKED, and no pointer is in the deque twice. -/
theorem C15_sleeping_queue_keeps_terminated_thread :
    (Reachable 4 (exec 4 [Op.spawn, Op.tick, Op.sleep 5, Op.block 1, Op.terminate 1]) ∧
      (exec 4 [Op.spawn, Op.tick, Op.sleep 5, Op.block 1, Op.terminate 1]).sleeping_threads
        = [1] ∧
      (exec 4 [Op.spawn, Op.tick, Op.sleep 5, Op.block 1, Op.terminate 1]).heap 1 = none ∧
      ¬ (exec 4 [Op.spawn, Op.tick, Op.sleep 5, Op.block 1, Op.terminate 1]).holdsId 1 ∧
      (1 : Int) ∈
        (exec 4 [Op.spawn, Op.tick, Op.sleep 5, Op.block 1, Op.terminate 1]).available_tids) ∧
    (∀ (M : Nat) (s : Sched), Reachable M s →
      (∀ p th, s.heap p = some th →
        (p ∈ s.sleeping_threads ↔
          (th._state = State.SLEEPING ∨ th._state = State.SLEEPING_AND_BLOCKED))) ∧
      s.sleeping_threads.Nodup) := by
  have hr : Reachable 4 (exec 4 [Op.spawn, Op.tick, Op.sleep 5, Op.block 1, Op.terminate 1]) :=
    exec_Reachable 4 _ (by decide) (by simp [Op.inRange, isInt, INT_MAX]) ⟨_, _, rfl, rfl⟩
  refine ⟨⟨hr, rfl, rfl, ?_, by decide⟩, ?_⟩
  · rw [hr.inv.holdsId_iff]
    simp
    rfl
  · intro M s hreach
    exact ⟨fun p th hp => hreach.inv.q.mem_sleeping p th hp, hreach.inv.q.sleeping_nodup⟩

/-! ### C19: the signal that the API entry points mask -/

/-- C19 (the code as written): the interval timer that the library arms is
`ITIMER_VIRTUAL`, which delivers `SIGVTALRM`, the signal `timer_handler` is
installed for; the set built by `create_signal_set` holds `SIGALRM` only, so
the mask that the API entry points install with `sigprocmask(SIG_BLOCK, ...)`
does not contain the preemption signal. -/
theorem C19_mask_misses_preemption_signal :
    armed_timer.signal = handler_signal ∧
    create_signal_set = [Signal.SIGALRM] ∧
    handler_signal ∉ create_signal_set ∧
    handler_signal ∉ sig_block [] create_signal_set := by
  decide

/-! ### What one operation does to each thread object -/

/-- The chain of `uthread_terminate_single_thread`, spelled out: one of the
three deque searches succeeds, or the caller is the target and the call ends
in the dispatcher, or nothing has the id and the state is left alone. -/
theorem uthread_terminate_single_thread_cases (tid : Int) (s s1 : Sched)
    (h : (uthread_terminate_single_thread tid s).state? = some s1) :
    (∃ q, uthread_terminate_thread tid q s = Outcome.ret 0 s1 ∧
      uthread_terminate_single_thread tid s = Outcome.ret 0 s1) ∨
    (uthread_terminate_running_thread tid s = uthread_terminate_single_thread tid s ∧
      (uthread_terminate_single_thread tid s = Outcome.switched s1 ∨
       uthread_terminate_single_thread tid s = Outcome.ret 0 s1)) ∨
    (s1 = s ∧ uthread_terminate_single_thread tid s = Outcome.ret (-1) s) := by
  unfold uthread_terminate_single_thread at h ⊢
  cases h1 : uthread_terminate_thread tid Queue.ready s with
  | switched s2 => exact absurd h1 (uthread_terminate_thread_not_switched _ _ _ _)
  | exit v => rw [h1] at h; cases h
  | fault => rw [h1] at h; cases h
  | ret v1 s2 =>
    rw [h1] at h
    simp only at h ⊢
    by_cases hv1 : v1 = 0
    · subst hv1
      rw [if_pos rfl] at h ⊢
      cases h
      exact Or.inl ⟨Queue.ready, h1, rfl⟩
    · rw [if_neg hv1] at h ⊢
      obtain ⟨rfl, _⟩ := uthread_terminate_thread_miss tid _ s s2 v1 h1 hv1
      cases h2 : uthread_terminate_running_thread tid s2 with
      | switched s3 =>
        rw [h2] at h
        cases h
        exact Or.inr (Or.inl ⟨rfl, Or.inl rfl⟩)
      | exit v => rw [h2] at h; cases h
      | fault => rw [h2] at h; cases h
      | ret v2 s3 =>
        rw [h2] at h
        simp only at h ⊢
        by_cases hv2 : v2 = 0
        · subst hv2
          rw [if_pos rfl] at h ⊢
          cases h
          exact Or.inr (Or.inl ⟨rfl, Or.inr rfl⟩)
        · rw [if_neg hv2] at h ⊢
          obtain ⟨rfl, _⟩ := uthread_terminate_running_thread_miss tid s2 s3 v2 h2 hv2
          cases h3 : uthread_terminate_thread tid Queue.blocked s3 with
          | switched s4 => exact absurd h3 (uthread_terminate_thread_not_switched _ _ _ _)
          | exit v => rw [h3] at h; cases h
          | fault => rw [h3] at h; cases h
          | ret v3 s4 =>
            rw [h3] at h
            simp only at h ⊢
            by_cases hv3 : v3 = 0
            · subst hv3
              rw [if_pos rfl] at h ⊢
              cases h
              exact Or.inl ⟨Queue.blocked, h3, rfl⟩
            · rw [if_neg hv3] at h ⊢
              obtain ⟨rfl, _⟩ := uthread_terminate_thread_miss tid _ s3 s4 v3 h3 hv3
              cases h4 : uthread_terminate_thread tid Queue.sleeping s4 with
              | switched s5 => exact absurd h4 (uthread_terminate_thread_not_switched _ _ _ _)
              | exit v => rw [h4] at h; cases h
              | fault => rw [h4] at h; cases h
              | ret v4 s5 =>
                rw [h4] at h
                simp only at h ⊢
                by_cases hv4 : v4 = 0
                · subst hv4
                  rw [if_pos rfl] at h ⊢
                  cases h
                  exact Or.inl ⟨Queue.sleeping, h4, rfl⟩
                · rw [if_neg hv4] at h ⊢
                  obtain ⟨rfl, _⟩ := uthread_terminate_thread_miss tid _ s4 s5 v4 h4 hv4
                  cases h
                  exact Or.inr (Or.inr ⟨rfl, rfl⟩)

/-- What a dispatch through `timer_handler` does to the caller: it is ticked
once for each visit of the loop of `update_sleeping_time` (not at all if it
was not in the SLEEPING deque); then a RUNNING caller is requeued READY, a
TERMINATED caller is deleted, and any other caller is left as it is; and the
caller is the thread dispatched only if that left it READY. -/
theorem timer_handler_self {M : Nat} (s s2 : Sched) (hw : WInv M s)
    (h : timer_handler s = Outcome.switched s2) (c : Nat) (th : Thread)
    (hc : s.current_running_thread = some c) (hx : s.heap c = some th) :
    ∃ t1, (∃ k, t1 = Nat.iterate tick_thread k th ∧ (c ∉ s.sleeping_threads → k = 0)) ∧
      ((t1._state = State.RUNNING ∧
          ((s2.current_running_thread ≠ some c ∧
              s2.heap c = some { t1 with _state := State.READY }) ∨
           (s2.current_running_thread = some c ∧
              s2.heap c = some (dispatch_thread { t1 with _state := State.READY })))) ∨
       (t1._state = State.TERMINATED ∧ s2.current_running_thread ≠ some c ∧
          s2.heap c = none) ∨
       (t1._state ≠ State.RUNNING ∧ t1._state ≠ State.TERMINATED ∧
          ((s2.current_running_thread ≠ some c ∧ s2.heap c = some t1) ∨
           (s2.current_running_thread = some c ∧ t1._state = State.READY ∧
              s2.heap c = some (dispatch_thread t1))))) := by
  obtain ⟨c1, s1, sd, th1, hc1, hs1, hth1, hrun, hqd, hheap, e1, e2, e3, e4, e5, e6, e7, hcase⟩ :=
    timer_handler_pre_dispatch s s2 hw h
  rw [hc] at hc1
  cases hc1
  obtain ⟨k, hs1c, hk0⟩ := update_sleeping_time_cell s s1 hs1 c th hx
  refine ⟨Nat.iterate tick_thread k th, ⟨k, rfl, hk0.1⟩, ?_⟩
  rw [hs1c] at hth1
  cases hth1
  obtain ⟨p, rest, t, hr, hp, rfl⟩ := run_next_ready_thread_switched sd s2 hrun
  rcases hcase with ⟨hR, hsd, _⟩ | ⟨hT, hsd, _⟩ | ⟨hnR, hnT, hsd, _⟩
  · left
    refine ⟨hR, ?_⟩
    by_cases hxp : c = p
    · subst hxp
      right
      rw [hsd] at hp
      cases hp
      exact ⟨rfl, by simp [Sched.write]⟩
    · left
      refine ⟨?_, by simp [Sched.write, Function.update_apply, hxp, hsd]⟩
      simp
      intro he
      exact hxp he.symm
  · right; left
    have hxp : c ≠ p := by
      intro he
      subst he
      rw [hsd] at hp
      cases hp
    refine ⟨hT, ?_, by simp [Sched.write, Function.update_apply, hxp, hsd]⟩
    simp
    intro he
    exact hxp he.symm
  · right; right
    refine ⟨hnR, hnT, ?_⟩
    by_cases hxp : c = p
    · subst hxp
      right
      rw [hsd] at hp
      cases hp
      refine ⟨rfl, ?_, by simp [Sched.write]⟩
      exact (hqd.mem_ready c _ hsd).mp (by rw [hr]; simp)
    · left
      refine ⟨?_, by simp [Sched.write, Function.update_apply, hxp, hsd]⟩
      simp
      intro he
      exact hxp he.symm

/-- What an operation that returns to its caller does to the scheduler: the
quantum counter and the current thread stay; a thread object is created only
by `uthread_spawn`; and an existing thread object is left as it is, or deleted
by `uthread_terminate` (never the caller, never id 0), or moved between a
blocked state and its unblocked counterpart by `uthread_block` or
`uthread_resume` called with its own id. -/
theorem quiet_step_cell {M : Nat} (s s1 : Sched) (op : Op) (v : Int) (hi : Inv M s)
    (hr : op.inRange) (h : step M s op = Outcome.ret v s1) :
    s1.quantum_counter = s.quantum_counter ∧
    s1.current_running_thread = s.current_running_thread ∧
    (∀ x, s.heap x = none →
      s1.heap x = none ∨
      (op = Op.spawn ∧ ∃ k : Int, k ≠ 0 ∧ s1.heap x = some (Thread.spawned k))) ∧
    (∀ x th, s.heap x = some th →
      (s1.heap x = none ∧ th._id ≠ 0 ∧ th._state ≠ State.RUNNING ∧
        ∃ tid, op = Op.terminate tid) ∨
      s1.heap x = some th ∨
      (op = Op.block th._id ∧ th._id ≠ 0 ∧
        ((th._state = State.READY ∧ s1.heap x = some { th with _state := State.BLOCKED }) ∨
         (th._state = State.SLEEPING ∧
            s1.heap x = some { th with _state := State.SLEEPING_AND_BLOCKED }))) ∨
      (op = Op.resume th._id ∧
        ((th._state = State.SLEEPING_AND_BLOCKED ∧
            s1.heap x = some { th with _state := State.SLEEPING }) ∨
         (th._state = State.BLOCKED ∧ s1.heap x = some { th with _state := State.READY } ∧
            x ∈ s1.ready_threads)))) := by
  have hsame : s1 = s →
      s1.quantum_counter = s.quantum_counter ∧
      s1.current_running_thread = s.current_running_thread ∧
      (∀ x, s.heap x = none →
        s1.heap x = none ∨
        (op = Op.spawn ∧ ∃ k : Int, k ≠ 0 ∧ s1.heap x = some (Thread.spawned k))) ∧
      (∀ x th, s.heap x = some th →
        (s1.heap x = none ∧ th._id ≠ 0 ∧ th._state ≠ State.RUNNING ∧
          ∃ tid, op = Op.terminate tid) ∨
        s1.heap x = some th ∨
        (op = Op.block th._id ∧ th._id ≠ 0 ∧
          ((th._state = State.READY ∧ s1.heap x = some { th with _state := State.BLOCKED }) ∨
           (th._state = State.SLEEPING ∧
              s1.heap x = some { th with _state := State.SLEEPING_AND_BLOCKED }))) ∨
        (op = Op.resume th._id ∧
          ((th._state = State.SLEEPING_AND_BLOCKED ∧
              s1.heap x = some { th with _state := State.SLEEPING }) ∨
           (th._state = State.BLOCKED ∧ s1.heap x = some { th with _state := State.READY } ∧
              x ∈ s1.ready_threads)))) := by
    intro he
    subst he
    exact ⟨rfl, rfl, fun x hx => Or.inl hx, fun x th hx => Or.inr (Or.inl hx)⟩
  cases op with
  | tick =>
    simp only [step] at h
    exact hsame (timer_handler_ret _ _ _ h).1
  | spawn =>
    simp only [step] at h
    rcases uthread_spawn_ret M s s1 v h with ⟨_, _, he⟩ | ⟨_, _, m, _, rfl⟩
    · exact hsame he
    · have hf := (hi.q.fresh s.next_addr (le_refl _)).1
      have hmin := hi.min_tid_least.1
      refine ⟨rfl, rfl, ?_, ?_⟩
      · intro x hx
        by_cases hxn : x = s.next_addr
        · subst hxn
          right
          exact ⟨rfl, s.min_tid, by omega, by simp⟩
        · left
          simp [Function.update_apply, hxn, hx]
      · intro x th hx
        have hcn : x ≠ s.next_addr := by
          intro he; rw [he, hf] at hx; cases hx
        right; left
        simp [Function.update_apply, hcn, hx]
  | terminate tid =>
    simp only [step] at h
    by_cases h0 : tid = 0
    · subst h0
      exact absurd h (uthread_terminate_zero_not_ret _ _ _ _)
    · unfold uthread_terminate at h
      rw [if_neg h0] at h
      have hne := toUnsigned_ne_zero tid hr h0
      rcases uthread_terminate_single_thread_cases _ s s1 (by rw [h]; rfl) with
        ⟨q, hq, _⟩ | ⟨hrun, hsw⟩ | ⟨he, _⟩
      · obtain ⟨_, p, tp, hmem, hp, hid, hfree, hoth, _⟩ :=
          uthread_terminate_thread_success _ _ _ _ hq
        have hnr : tp._state ≠ State.RUNNING := by
          intro hR
          cases q with
          | ready =>
            have := (hi.q.mem_ready p tp hp).mp hmem
            rw [hR] at this; cases this
          | blocked =>
            have := (hi.q.mem_blocked p tp hp).mp hmem
            rw [hR] at this; rcases this with h | h <;> cases h
          | sleeping =>
            have := (hi.q.mem_sleeping p tp hp).mp hmem
            rw [hR] at this; rcases this with h | h <;> cases h
        have hcq : s1.quantum_counter = s.quantum_counter ∧
            s1.current_running_thread = s.current_running_thread := by
          rcases uthread_terminate_thread_cases _ q s _ hq with
            ⟨_, ho⟩ | ⟨_, ho⟩ | ⟨p1, m, _, _, ho⟩
          · cases ho
          · cases ho
          · cases ho
            cases q <;> exact ⟨rfl, rfl⟩
        refine ⟨hcq.1, hcq.2, ?_, ?_⟩
        · intro x hx
          have hxp : x ≠ p := by
            intro he; subst he; rw [hx] at hp; cases hp
          left
          rw [hoth x hxp, hx]
        · intro x th hx
          by_cases hxp : x = p
          · subst hxp
            rw [hx] at hp
            cases hp
            left
            exact ⟨hfree, by rw [hid]; exact hne, hnr, tid, rfl⟩
          · right; left
            rw [hoth x hxp, hx]
      · exfalso
        rw [h] at hrun hsw
        rcases hsw with hsw | hsw
        · cases hsw
        · have := (uthread_terminate_running_thread_success _ s s1 hi hne
            (Or.inl (hrun.trans hsw))).1
          rw [hrun] at this
          cases this
      · exact hsame he
  | block tid =>
    simp only [step] at h
    have htail : uthread_block_tail tid s = Outcome.ret v s1 → tid ≠ 0 →
        s1.quantum_counter = s.quantum_counter ∧
        s1.current_running_thread = s.current_running_thread ∧
        (∀ x, s.heap x = none →
          s1.heap x = none ∨
          (Op.block tid = Op.spawn ∧ ∃ k : Int, k ≠ 0 ∧ s1.heap x = some (Thread.spawned k))) ∧
        (∀ x th, s.heap x = some th →
          (s1.heap x = none ∧ th._id ≠ 0 ∧ th._state ≠ State.RUNNING ∧
            ∃ tid1, Op.block tid = Op.terminate tid1) ∨
          s1.heap x = some th ∨
          (Op.block tid = Op.block th._id ∧ th._id ≠ 0 ∧
            ((th._state = State.READY ∧ s1.heap x = some { th with _state := State.BLOCKED }) ∨
             (th._state = State.SLEEPING ∧
                s1.heap x = some { th with _state := State.SLEEPING_AND_BLOCKED }))) ∨
          (Op.block tid = Op.resume th._id ∧
            ((th._state = State.SLEEPING_AND_BLOCKED ∧
                s1.heap x = some { th with _state := State.SLEEPING }) ∨
             (th._state = State.BLOCKED ∧ s1.heap x = some { th with _state := State.READY } ∧
                x ∈ s1.ready_threads)))) := by
      intro hta htid
      obtain ⟨_, p, tp, hmap, hp, hcase⟩ := uthread_block_tail_ret tid _ s1 v hta
      obtain ⟨tp1, hp1, hid, _⟩ := hi.ids.map_sound tid p hmap
      rw [hp] at hp1
      cases hp1
      have hnone : ∀ x, s.heap x = none → x ≠ p := by
        intro x hx he; subst he; rw [hx] at hp; cases hp
      rcases hcase with ⟨hst, rfl⟩ | ⟨hst, rfl⟩ | ⟨_, _, he⟩
      · refine ⟨rfl, rfl, ?_, ?_⟩
        · intro x hx
          left
          simp [Sched.write, Function.update_apply, hnone x hx, hx]
        · intro x th hx
          by_cases hxp : x = p
          · subst hxp
            rw [hx] at hp
            cases hp
            right; right; left
            exact ⟨by rw [hid], by rw [hid]; exact htid, Or.inl ⟨hst, by simp [Sched.write]⟩⟩
          · right; left
            simp [Sched.write, Function.update_apply, hxp, hx]
      · refine ⟨rfl, rfl, ?_, ?_⟩
        · intro x hx
          left
          simp [Sched.write, Function.update_apply, hnone x hx, hx]
        · intro x th hx
          by_cases hxp : x = p
          · subst hxp
            rw [hx] at hp
            cases hp
            right; right; left
            exact ⟨by rw [hid], by rw [hid]; exact htid, Or.inr ⟨hst, by simp [Sched.write]⟩⟩
          · right; left
            simp [Sched.write, Function.update_apply, hxp, hx]
      · subst he
        exact ⟨rfl, rfl, fun x hx => Or.inl hx, fun x th hx => Or.inr (Or.inl hx)⟩
    rcases uthread_block_cases tid s _ h with
      ⟨_, ho⟩ | ⟨_, htid, ⟨_, ho⟩ | ⟨cur, hc, ⟨_, ho⟩ | ⟨tc, htc, ⟨_, ho⟩ | ⟨_, ho⟩⟩⟩⟩
    · cases ho; exact hsame rfl
    · cases ho
    · cases ho
    · exact htail ho.symm htid
    · exfalso
      cases ht : timer_handler
          { (s.write cur { tc with _state := State.BLOCKED }) with
            blocked_threads := s.blocked_threads ++ [cur] } with
      | ret v s2 =>
        obtain ⟨_, _, c1, t1, hc1, ht1, hst⟩ := timer_handler_ret _ _ _ ht
        simp [Sched.write, hc] at hc1
        subst hc1
        simp [Sched.write] at ht1
        subst ht1
        simp at hst
      | switched s2 => rw [ht] at ho; cases ho
      | exit v => rw [ht] at ho; cases ho
      | fault => rw [ht] at ho; cases ho
  | resume tid =>
    simp only [step] at h
    rcases uthread_resume_ret tid s s1 v h with ⟨_, _, he⟩ | ⟨_, _, p, tp, hmap, hp, hcase⟩
    · exact hsame he
    · obtain ⟨tp1, hp1, hid, _⟩ := hi.ids.map_sound tid p hmap
      rw [hp] at hp1
      cases hp1
      have hnone : ∀ x, s.heap x = none → x ≠ p := by
        intro x hx he; subst he; rw [hx] at hp; cases hp
      rcases hcase with ⟨hst, rfl⟩ | ⟨hst, rfl⟩ | ⟨_, _, rfl⟩
      · refine ⟨rfl, rfl, ?_, ?_⟩
        · intro x hx
          left
          simp [Sched.write, Function.update_apply, hnone x hx, hx]
        · intro x th hx
          by_cases hxp : x = p
          · subst hxp
            rw [hx] at hp
            cases hp
            right; right; right
            exact ⟨by rw [hid], Or.inl ⟨hst, by simp [Sched.write]⟩⟩
          · right; left
            simp [Sched.write, Function.update_apply, hxp, hx]
      · refine ⟨rfl, rfl, ?_, ?_⟩
        · intro x hx
          left
          simp [Sched.write, Function.update_apply, hnone x hx, hx]
        · intro x th hx
          by_cases hxp : x = p
          · subst hxp
            rw [hx] at hp
            cases hp
            right; right; right
            exact ⟨by rw [hid], Or.inr ⟨hst, by simp [Sched.write], by simp⟩⟩
          · right; left
            simp [Sched.write, Function.update_apply, hxp, hx]
      · exact ⟨rfl, rfl, fun x hx => Or.inl hx, fun x th hx => Or.inr (Or.inl hx)⟩
  | sleep n =>
    simp only [step] at h
    rcases uthread_sleep_cases n s _ h with
      ⟨_, ho⟩ | ⟨_, ho⟩ | ⟨_, ⟨_, ho⟩ | ⟨cur, hc, ⟨_, ho⟩ | ⟨tc, htc, ⟨_, ho⟩ | ⟨_, _, ho⟩ | ⟨_, _, ho⟩⟩⟩⟩
    · cases ho; exact hsame rfl
    · cases ho; exact hsame rfl
    · cases ho
    · cases ho
    · cases ho; exact hsame rfl
    · cases ho
    · exfalso
      cases ht : timer_handler
          { (s.write cur { tc with _state := State.SLEEPING,
                                   _quantums_left_in_sleeping := n + 1 }) with
            sleeping_threads := s.sleeping_threads ++ [cur] } with
      | ret v s2 =>
        obtain ⟨_, _, c1, t1, hc1, ht1, hst⟩ := timer_handler_ret _ _ _ ht
        simp [Sched.write, hc] at hc1
        subst hc1
        simp [Sched.write] at ht1
        subst ht1
        simp at hst
      | switched s2 => rw [ht] at ho; cases ho
      | exit v => rw [ht] at ho; cases ho
      | fault => rw [ht] at ho; cases ho
  | get_tid =>
    simp only [step, uthread_get_tid] at h
    split at h
    · cases h
    · split at h
      · cases h
      · cases h; exact hsame rfl
  | get_total_quantums =>
    simp only [step, uthread_get_total_quantums] at h
    cases h; exact hsame rfl
  | get_quantums tid =>
    simp only [step, uthread_get_quantums] at h
    split at h
    · cases h
    · split at h
      · cases h
      · cases h; exact hsame rfl

/-- A dispatch entered from a state `sm` that differs from `s` only in the
caller: the quantum counter advances by one, no deleted object comes back, and
every thread other than the caller is ticked once for each visit of the loop
(not at all if it was not in the SLEEPING deque, at least once if it was at the
front of it) and is the thread dispatched only if that left it READY. -/
theorem dispatch_via_mid {M : Nat} (s sm s1 : Sched) (c : Nat) (tc : Thread)
    (hw : WInv M sm) (ht : timer_handler sm = Outcome.switched s1)
    (hmc : sm.current_running_thread = some c) (htc : s.heap c = some tc)
    (hheap : ∀ x, x ≠ c → sm.heap x = s.heap x)
    (hsl : ∀ x, x ≠ c → (x ∈ sm.sleeping_threads ↔ x ∈ s.sleeping_threads))
    (hhd : ∀ x, x ≠ c → s.sleeping_threads.head? = some x →
      sm.sleeping_threads.head? = some x)
    (hq : sm.quantum_counter = s.quantum_counter) :
    s1.quantum_counter = s.quantum_counter + 1 ∧
    (∀ x, s.heap x = none → s1.heap x = none) ∧
    (∀ x th, s.heap x = some th → x ≠ c →
      ∃ t1, (∃ k, t1 = Nat.iterate tick_thread k th ∧ (x ∉ s.sleeping_threads → k = 0) ∧
        (s.sleeping_threads.head? = some x → 0 < k)) ∧
        ((s1.current_running_thread ≠ some x ∧ s1.heap x = some t1) ∨
         (s1.current_running_thread = some x ∧ t1._state = State.READY ∧
          s1.heap x = some (dispatch_thread t1)))) := by
  refine ⟨?_, ?_, ?_⟩
  · rw [(timer_handler_frame _ _ hw ht).2.2.2.2.2, hq]
  · intro x hx
    have hxc : x ≠ c := by
      intro he; subst he; rw [hx] at htc; cases htc
    exact timer_handler_none _ _ hw ht x (by rw [hheap x hxc, hx])
  · intro x th hx hxc
    obtain ⟨t1, ht1, hcase⟩ :=
      timer_handler_other sm s1 hw ht c x th hmc hxc (by rw [hheap x hxc, hx])
    obtain ⟨k, hk, hk0, hk1⟩ := ht1
    exact ⟨t1, ⟨k, hk, fun hxs => hk0 (fun h => hxs ((hsl x hxc).mp h)),
      fun h => hk1 (hhd x hxc h)⟩, hcase⟩

/-- What an operation that ends in a dispatch does to the scheduler (all
operations but `uthread_terminate(0)`): the quantum counter advances by one;
no thread object is created; every thread other than the caller is ticked
once for each visit of the loop of `update_sleeping_time` (not at all if it
was not in the SLEEPING deque, at least once if it was at the front of it) and
is the thread dispatched only if that left it READY; and the caller is requeued READY by a timer tick, deleted by
`uthread_terminate`, left BLOCKED by `uthread_block`, and put to sleep and
ticked by `uthread_sleep`, the last three only when its id is not 0. -/
theorem dispatch_step_cell {M : Nat} (s s1 : Sched) (op : Op) (hi : Inv M s)
    (hr : op.inRange) (hop : op ≠ Op.terminate 0) (h : step M s op = Outcome.switched s1) :
    s1.quantum_counter = s.quantum_counter + 1 ∧
    ∃ c tc, s.current_running_thread = some c ∧ s.heap c = some tc ∧
      (∀ x, s.heap x = none → s1.heap x = none) ∧
      (∀ x th, s.heap x = some th → x ≠ c →
        ∃ t1, (∃ k, t1 = Nat.iterate tick_thread k th ∧ (x ∉ s.sleeping_threads → k = 0) ∧
          (s.sleeping_threads.head? = some x → 0 < k)) ∧
          ((s1.current_running_thread ≠ some x ∧ s1.heap x = some t1) ∨
           (s1.current_running_thread = some x ∧ t1._state = State.READY ∧
            s1.heap x = some (dispatch_thread t1)))) ∧
      ((op = Op.tick ∧
          ((s1.current_running_thread ≠ some c ∧
              s1.heap c = some { tc with _state := State.READY }) ∨
           (s1.current_running_thread = some c ∧
              s1.heap c = some (dispatch_thread { tc with _state := State.READY })))) ∨
       (tc._id ≠ 0 ∧
          (((∃ tid, op = Op.terminate tid) ∧ s1.current_running_thread ≠ some c ∧
              s1.heap c = none) ∨
           ((∃ tid, op = Op.block tid) ∧ s1.current_running_thread ≠ some c ∧
              s1.heap c = some { tc with _state := State.BLOCKED }) ∨
           (∃ n, op = Op.sleep n ∧ 0 < n ∧
              ∃ t1, (∃ k, t1 = Nat.iterate tick_thread k
                  { tc with _state := State.SLEEPING,
                            _quantums_left_in_sleeping := n + 1 }) ∧
                ((s1.current_running_thread ≠ some c ∧ s1.heap c = some t1) ∨
                 (s1.current_running_thread = some c ∧ t1._state = State.READY ∧
                    s1.heap c = some (dispatch_thread t1))))))) := by
  obtain ⟨c, tc, hc, htc, hrun, _⟩ := hi.stable
  have hns : c ∉ s.sleeping_threads := by
    rw [hi.q.mem_sleeping c tc htc]
    simp [hrun]
  cases op with
  | tick =>
    simp only [step] at h
    obtain ⟨a1, a2, a3⟩ := dispatch_via_mid s s s1 c tc hi.toWInv h hc htc
      (fun _ _ => rfl) (fun _ _ => Iff.rfl) (fun _ _ h => h) rfl
    refine ⟨a1, c, tc, hc, htc, a2, a3, Or.inl ⟨rfl, ?_⟩⟩
    obtain ⟨t1, ⟨k, hk, hk0⟩, hcase⟩ := timer_handler_self s s1 hi.toWInv h c tc hc htc
    have e : t1 = tc := by rw [hk, hk0 hns]; rfl
    rw [e] at hcase
    rcases hcase with ⟨_, hcase⟩ | ⟨hT, _⟩ | ⟨hnR, _⟩
    · exact hcase
    · rw [hrun] at hT; cases hT
    · exact absurd hrun hnR
  | spawn => exact absurd h (uthread_spawn_not_switched _ _ _)
  | terminate tid =>
    simp only [step] at h
    have h0 : tid ≠ 0 := fun he => hop (by rw [he])
    unfold uthread_terminate at h
    rw [if_neg h0] at h
    have hne := toUnsigned_ne_zero tid hr h0
    have h2 := uthread_terminate_single_thread_switched _ _ _ h
    rcases uthread_terminate_running_thread_cases _ s _ h2 with
      ⟨_, ho⟩ | ⟨cur, hcur, ⟨_, ho⟩ | ⟨tc1, htc1, ⟨_, ho⟩ | ⟨hid, m, hm, ho⟩⟩⟩
    · cases ho
    · cases ho
    · cases ho
    · rw [hc] at hcur
      cases hcur
      rw [htc] at htc1
      cases htc1
      generalize toUnsigned tid = u at h h2 hm hid ho hne
      subst hid
      have hw := self_terminate_WInv s c tc m hi hc htc hne hm
      cases ht : timer_handler
          { (s.write c { tc with _state := State.TERMINATED }) with
            tid_to_thread_map := Function.update s.tid_to_thread_map tc._id none
            available_tids := setInsert tc._id s.available_tids
            min_tid := m } with
      | ret v s2 => rw [ht] at ho; cases ho
      | exit v => rw [ht] at ho; cases ho
      | fault => rw [ht] at ho; cases ho
      | switched s2 =>
        rw [ht] at ho
        cases ho
        obtain ⟨a1, a2, a3⟩ := dispatch_via_mid s _ s1 c tc hw ht hc htc
          (fun x hx => by simp [Sched.write, Function.update_apply, hx])
          (fun _ _ => Iff.rfl) (fun _ _ h => h) rfl
        refine ⟨a1, c, tc, hc, htc, a2, a3, Or.inr ⟨hne, ?_⟩⟩
        obtain ⟨t1, ⟨k, hk, hk0⟩, hcase⟩ := timer_handler_self _ s1 hw ht c
          { tc with _state := State.TERMINATED } hc (by simp [Sched.write])
        have hns1 : c ∉ ({ (s.write c { tc with _state := State.TERMINATED }) with
            tid_to_thread_map := Function.update s.tid_to_thread_map tc._id none
            available_tids := setInsert tc._id s.available_tids
            min_tid := m } : Sched).sleeping_threads := hns
        have e : t1 = { tc with _state := State.TERMINATED } := by rw [hk, hk0 hns1]; rfl
        rw [e] at hcase
        rcases hcase with ⟨hR, _⟩ | ⟨_, hcur, hnone⟩ | ⟨_, hnT, _⟩
        · simp at hR
        · exact Or.inl ⟨⟨tid, rfl⟩, hcur, hnone⟩
        · simp at hnT
  | block tid =>
    simp only [step] at h
    rcases uthread_block_cases tid s _ h with
      ⟨_, ho⟩ | ⟨_, htid, ⟨_, ho⟩ | ⟨cur, hcur, ⟨_, ho⟩ | ⟨tc1, htc1, ⟨_, ho⟩ | ⟨hid, ho⟩⟩⟩⟩
    · cases ho
    · cases ho
    · cases ho
    · exact absurd ho.symm (uthread_block_tail_not_switched _ _ _)
    · rw [hc] at hcur
      cases hcur
      rw [htc] at htc1
      cases htc1
      have hne : tc._id ≠ 0 := by
        rw [hid]
        exact toUnsigned_ne_zero tid hr htid
      have hw := self_block_WInv s c tc hi hc htc
      cases ht : timer_handler
          { (s.write c { tc with _state := State.BLOCKED }) with
            blocked_threads := s.blocked_threads ++ [c] } with
      | ret v s2 =>
        rw [ht] at ho
        exact absurd ho.symm (uthread_block_tail_not_switched _ _ _)
      | exit v => rw [ht] at ho; cases ho
      | fault => rw [ht] at ho; cases ho
      | switched s2 =>
        rw [ht] at ho
        cases ho
        obtain ⟨a1, a2, a3⟩ := dispatch_via_mid s _ s1 c tc hw ht hc htc
          (fun x hx => by simp [Sched.write, Function.update_apply, hx])
          (fun _ _ => Iff.rfl) (fun _ _ h => h) rfl
        refine ⟨a1, c, tc, hc, htc, a2, a3, Or.inr ⟨hne, ?_⟩⟩
        obtain ⟨t1, ⟨k, hk, hk0⟩, hcase⟩ := timer_handler_self _ s1 hw ht c
          { tc with _state := State.BLOCKED } hc (by simp [Sched.write])
        have hns1 : c ∉ ({ (s.write c { tc with _state := State.BLOCKED }) with
            blocked_threads := s.blocked_threads ++ [c] } : Sched).sleeping_threads := hns
        have e : t1 = { tc with _state := State.BLOCKED } := by rw [hk, hk0 hns1]; rfl
        rw [e] at hcase
        rcases hcase with ⟨hR, _⟩ | ⟨hT, _⟩ | ⟨_, _, ⟨hcur, hheap⟩ | ⟨_, hRd, _⟩⟩
        · simp at hR
        · simp at hT
        · exact Or.inr (Or.inl ⟨⟨tid, rfl⟩, hcur, hheap⟩)
        · simp at hRd
  | resume tid => exact absurd h (uthread_resume_not_switched _ _ _)
  | sleep n =>
    simp only [step] at h
    rcases uthread_sleep_cases n s _ h with
      ⟨_, ho⟩ | ⟨_, ho⟩ | ⟨hn, ⟨_, ho⟩ | ⟨cur, hcur, ⟨_, ho⟩ | ⟨tc1, htc1, ⟨_, ho⟩ | ⟨_, _, ho⟩ | ⟨hne, _, ho⟩⟩⟩⟩
    · cases ho
    · cases ho
    · cases ho
    · cases ho
    · cases ho
    · cases ho
    · rw [hc] at hcur
      cases hcur
      rw [htc] at htc1
      cases htc1
      have hw := self_sleep_WInv s c tc (n + 1) hi hc htc
      cases ht : timer_handler
          { (s.write c { tc with _state := State.SLEEPING,
                                 _quantums_left_in_sleeping := n + 1 }) with
            sleeping_threads := s.sleeping_threads ++ [c] } with
      | ret v s2 => rw [ht] at ho; cases ho
      | exit v => rw [ht] at ho; cases ho
      | fault => rw [ht] at ho; cases ho
      | switched s2 =>
        rw [ht] at ho
        cases ho
        obtain ⟨a1, a2, a3⟩ := dispatch_via_mid s _ s1 c tc hw ht hc htc
          (fun x hx => by simp [Sched.write, Function.update_apply, hx])
          (fun x hx => by simp [hx])
          (fun x _ h => by
            show (s.sleeping_threads ++ [c]).head? = some x
            rw [List.head?_append, h]
            rfl) rfl
        refine ⟨a1, c, tc, hc, htc, a2, a3, Or.inr ⟨hne, ?_⟩⟩
        obtain ⟨t1, ⟨k, hk, _⟩, hcase⟩ := timer_handler_self _ s1 hw ht c
          { tc with _state := State.SLEEPING, _quantums_left_in_sleeping := n + 1 } hc
          (by simp [Sched.write])
        have hst := iterate_tick_thread_sleeping k
          { tc with _state := State.SLEEPING, _quantums_left_in_sleeping := n + 1 }
          (Or.inl rfl)
        rw [← hk] at hst
        rcases hcase with ⟨hR, _⟩ | ⟨hT, _⟩ | ⟨_, _, hcase⟩
        · rcases hst with h1 | ⟨h1, _⟩ <;> rw [h1] at hR <;> cases hR
        · rcases hst with h1 | ⟨h1, _⟩ <;> rw [h1] at hT <;> cases hT
        · exact Or.inr (Or.inr ⟨n, rfl, hn, t1, ⟨k, hk⟩, hcase⟩)
  | get_tid =>
    simp only [step, uthread_get_tid] at h
    split at h
    · cases h
    · split at h <;> cases h
  | get_total_quantums =>
    simp only [step, uthread_get_total_quantums] at h
    cases h
  | get_quantums tid =>
    simp only [step, uthread_get_quantums] at h
    split at h
    · cases h
    · split at h <;> cases h

/-- The loop of `uthread_terminate(0)`, when it ends in a dispatch, is a run of
calls `uthread_terminate(i)` with `i ≠ 0` that return, each deleting at most
one thread other than the caller and the main thread, followed by one such
call that ends in the dispatch. -/
theorem terminate_all_loop_chain {M : Nat} (ids : List Nat) (s s1 : Sched) (hi : Inv M s)
    (hids : ∀ i ∈ ids, 1 ≤ i ∧ (i : Int) ≤ INT_MAX)
    (h : terminate_all_loop ids s = Outcome.switched s1) :
    ∃ (sa : Sched) (i : Int), Inv M sa ∧ i ≠ 0 ∧ isInt i ∧
      step M sa (Op.terminate i) = Outcome.switched s1 ∧
      sa.quantum_counter = s.quantum_counter ∧
      sa.current_running_thread = s.current_running_thread ∧
      (∀ p, s.heap p = none → sa.heap p = none) ∧
      (∀ p th, s.heap p = some th →
        (sa.heap p = none ∧ th._id ≠ 0 ∧ th._state ≠ State.RUNNING) ∨ sa.heap p = some th) := by
  induction ids generalizing s with
  | nil => simp [terminate_all_loop] at h
  | cons i ids ih =>
    unfold terminate_all_loop at h
    have hi1 := hids i (by simp)
    have hu : toUnsigned (i : Int) = i := toUnsigned_of_nonneg _ (by omega) hi1.2
    have hne : (i : Int) ≠ 0 := by omega
    have hint : isInt (i : Int) := by
      unfold isInt
      exact ⟨by omega, hi1.2⟩
    have hstep : step M s (Op.terminate i) = uthread_terminate_single_thread (toUnsigned i) s := by
      simp only [step, uthread_terminate, if_neg hne]
    cases h1 : uthread_terminate_single_thread (toUnsigned i) s with
    | ret v s2 =>
      rw [h1] at h
      simp only at h
      have hi2 := step_Inv s s2 (Op.terminate i) hi hint (by rw [hstep, h1]; rfl)
      obtain ⟨sa, j, hia, hj, hjr, hsw, hq, hcur, hn, hl⟩ :=
        ih s2 hi2 (fun j hj => hids j (by simp [hj])) h
      obtain ⟨b1, b2, b3, b4⟩ := quiet_step_cell s s2 (Op.terminate i) v hi hint
        (by rw [hstep, h1])
      refine ⟨sa, j, hia, hj, hjr, hsw, by rw [hq, b1], by rw [hcur, b2], ?_, ?_⟩
      · intro p hp
        rcases b3 p hp with hx | ⟨hx, _⟩
        · exact hn p hx
        · cases hx
      · intro p th hp
        rcases b4 p th hp with ⟨hx, hid, hnr, _⟩ | hx | ⟨hx, _⟩ | ⟨hx, _⟩
        · exact Or.inl ⟨hn p hx, hid, hnr⟩
        · exact hl p th hx
        · cases hx
        · cases hx
    | switched s2 =>
      rw [h1] at h
      cases h
      exact ⟨s, i, hi, hne, hint, by rw [hstep, h1], rfl, rfl, fun p hp => hp,
        fun p th hp => Or.inr hp⟩
    | exit v => rw [h1] at h; cases h
    | fault => rw [h1] at h; cases h

/-- The statement of `terminate_all_loop_chain` for the operation
`uthread_terminate(0)`. -/
theorem terminate_zero_chain {M : Nat} (s s1 : Sched) (hi : Inv M s)
    (h : (step M s (Op.terminate 0)).state? = some s1) :
    step M s (Op.terminate 0) = Outcome.switched s1 ∧
    ∃ (sa : Sched) (i : Int), Inv M sa ∧ i ≠ 0 ∧ isInt i ∧
      step M sa (Op.terminate i) = Outcome.switched s1 ∧
      sa.quantum_counter = s.quantum_counter ∧
      sa.current_running_thread = s.current_running_thread ∧
      (∀ p, s.heap p = none → sa.heap p = none) ∧
      (∀ p th, s.heap p = some th →
        (sa.heap p = none ∧ th._id ≠ 0 ∧ th._state ≠ State.RUNNING) ∨ sa.heap p = some th) := by
  simp only [step, uthread_terminate, if_pos] at h ⊢
  cases h1 : terminate_all_loop (List.range' 1 (M - 1)) s with
  | ret v s2 => rw [h1] at h; cases h
  | switched s2 =>
    rw [h1] at h
    cases h
    exact ⟨rfl, terminate_all_loop_chain _ s _ hi (range_ids_ok hi.max_ok) h1⟩
  | exit v => rw [h1] at h; cases h
  | fault => rw [h1] at h; cases h

/-! ### C13: a blocked thread is not dispatched -/

/-- A dispatch, by any operation but `uthread_terminate(0)`, leaves a thread
that is BLOCKED or SLEEPING_AND_BLOCKED in such a state, with its id and its
count of quanta, and dispatches another thread. -/
theorem dispatch_step_blocked {M : Nat} (s s1 : Sched) (op : Op) (hi : Inv M s)
    (hr : op.inRange) (hop : op ≠ Op.terminate 0) (h : step M s op = Outcome.switched s1)
    (x : Nat) (th : Thread) (hth : s.heap x = some th)
    (hst : th._state = State.BLOCKED ∨ th._state = State.SLEEPING_AND_BLOCKED) :
    s1.current_running_thread ≠ some x ∧
    ∃ t1, s1.heap x = some t1 ∧ t1._id = th._id ∧
      t1._num_of_quantum = th._num_of_quantum ∧
      (t1._state = State.BLOCKED ∨ t1._state = State.SLEEPING_AND_BLOCKED) := by
  obtain ⟨_, c, tc, hc, htc, _, hoth, _⟩ := dispatch_step_cell s s1 op hi hr hop h
  have hxc : x ≠ c := by
    intro he
    subst he
    rw [hth] at htc
    cases htc
    have hrun := hi.stable.cur_running x th hc hth
    rcases hst with h | h <;> rw [h] at hrun <;> cases hrun
  obtain ⟨t1, ht1, hcase⟩ := hoth x th hth hxc
  have hb : t1._id = th._id ∧ t1._num_of_quantum = th._num_of_quantum ∧
      (t1._state = State.BLOCKED ∨ t1._state = State.SLEEPING_AND_BLOCKED) := by
    obtain ⟨k, hk, _⟩ := ht1
    rw [hk]
    exact ⟨(iterate_tick_thread_id k th).1, (iterate_tick_thread_id k th).2,
      (iterate_tick_thread_blocked k th hst.symm).symm⟩
  rcases hcase with ⟨h1, h2⟩ | ⟨_, hR, _⟩
  · exact ⟨h1, t1, h2, hb⟩
  · rcases hb.2.2 with h | h <;> rw [h] at hR <;> cases hR

/-- C13: in a reachable state let thread `x` be BLOCKED or
SLEEPING_AND_BLOCKED.  Whatever operation comes next (a timer tick, or any
API call by the running thread, including those that end in a synchronous
dispatch), `x` is not the thread that runs afterwards; unless the operation is
a `uthread_terminate` that deletes it, `x` keeps its id and its count of
quanta; as long as the operation is not `uthread_resume` on its id it stays
BLOCKED or SLEEPING_AND_BLOCKED; and `uthread_resume` on its id returns 0 and
leaves it READY, at the tail of the READY deque, if it was BLOCKED, and
SLEEPING if it was SLEEPING_AND_BLOCKED. -/
theorem C13_blocked_thread_not_dispatched (M : Nat) (s : Sched) (x : Nat) (th : Thread)
    (hreach : Reachable M s) (hth : s.heap x = some th)
    (hst : th._state = State.BLOCKED ∨ th._state = State.SLEEPING_AND_BLOCKED) :
    (∀ (op : Op) (s1 : Sched), op.inRange → (step M s op).state? = some s1 →
      s1.current_running_thread ≠ some x ∧
      ((s1.heap x = none ∧ ∃ tid, op = Op.terminate tid) ∨
       ∃ t1, s1.heap x = some t1 ∧ t1._id = th._id ∧
        t1._num_of_quantum = th._num_of_quantum ∧
        (op ≠ Op.resume th._id →
          t1._state = State.BLOCKED ∨ t1._state = State.SLEEPING_AND_BLOCKED))) ∧
    (th._state = State.BLOCKED →
      uthread_resume th._id s = Outcome.ret 0
        { (s.write x { th with _state := State.READY }) with
          ready_threads := s.ready_threads ++ [x]
          blocked_threads := s.blocked_threads.erase x }) ∧
    (th._state = State.SLEEPING_AND_BLOCKED →
      uthread_resume th._id s = Outcome.ret 0
        { (s.write x { th with _state := State.SLEEPING }) with
          blocked_threads := s.blocked_threads.erase x }) := by
  have hi := hreach.inv
  refine ⟨?_, ?_, ?_⟩
  · intro op s1 hr hs
    have hi1 := step_Inv s s1 op hi hr hs
    have hcur1 : ∀ t1, s1.heap x = some t1 →
        (t1._state ≠ State.RUNNING) → s1.current_running_thread ≠ some x := by
      intro t1 ht1 hnr hc
      exact hnr (hi1.stable.cur_running x t1 hc ht1)
    have hcur0 : s1.heap x = none → s1.current_running_thread ≠ some x := by
      intro hn hc
      obtain ⟨c, tc, hc1, htc, _⟩ := hi1.stable
      rw [hc] at hc1
      cases hc1
      rw [hn] at htc
      cases htc
    cases ho : step M s op with
    | exit v => rw [ho] at hs; cases hs
    | fault => rw [ho] at hs; cases hs
    | ret v s2 =>
      rw [ho] at hs
      cases hs
      obtain ⟨_, _, _, hcell⟩ := quiet_step_cell s s1 op v hi hr ho
      rcases hcell x th hth with ⟨hx, _, _, ht⟩ | hx | ⟨_, _, ⟨h1, _⟩ | ⟨h1, _⟩⟩ |
          ⟨hop, ⟨_, hx⟩ | ⟨_, hx, _⟩⟩
      · exact ⟨hcur0 hx, Or.inl ⟨hx, ht⟩⟩
      · refine ⟨hcur1 th hx ?_, Or.inr ⟨th, hx, rfl, rfl, fun _ => hst⟩⟩
        rcases hst with h | h <;> simp [h]
      · rcases hst with h | h <;> rw [h] at h1 <;> cases h1
      · rcases hst with h | h <;> rw [h] at h1 <;> cases h1
      · exact ⟨hcur1 _ hx (by simp), Or.inr ⟨_, hx, rfl, rfl, fun hne => absurd hop hne⟩⟩
      · exact ⟨hcur1 _ hx (by simp), Or.inr ⟨_, hx, rfl, rfl, fun hne => absurd hop hne⟩⟩
    | switched s2 =>
      rw [ho] at hs
      cases hs
      by_cases hop : op = Op.terminate 0
      · subst hop
        obtain ⟨_, sa, i, hia, hi0, hir, hsw, _, _, _, hl⟩ :=
          terminate_zero_chain s s1 hi (by rw [ho]; rfl)
        rcases hl x th hth with ⟨hx, _⟩ | hx
        · obtain ⟨_, _, _, _, _, hnone, _⟩ :=
            dispatch_step_cell sa s1 (Op.terminate i) hia hir
              (fun he => hi0 (by injection he)) hsw
          exact ⟨hcur0 (hnone x hx), Or.inl ⟨hnone x hx, 0, rfl⟩⟩
        · obtain ⟨h1, t1, h2, h3, h4, h5⟩ :=
            dispatch_step_blocked sa s1 (Op.terminate i) hia hir
              (fun he => hi0 (by injection he)) hsw x th hx hst
          exact ⟨h1, Or.inr ⟨t1, h2, h3, h4, fun _ => h5⟩⟩
      · obtain ⟨h1, t1, h2, h3, h4, h5⟩ :=
          dispatch_step_blocked s s1 op hi hr hop ho x th hth hst
        exact ⟨h1, Or.inr ⟨t1, h2, h3, h4, fun _ => h5⟩⟩
  · intro hB
    rw [uthread_resume_live s hi x th hth]
    rw [if_neg (by rw [hB]; simp), if_pos hB]
  · intro hSB
    rw [uthread_resume_live s hi x th hth]
    rw [if_pos hSB]

/-- C13 at a concrete state: thread 1 is spawned and blocked by the main
thread; a timer tick then leaves it BLOCKED with zero quanta and keeps the
main thread running, and `uthread_resume(1)` puts it back at the tail of the
READY deque. -/
theorem C13_blocked_thread_not_dispatched_witness :
    (exec 4 [Op.spawn, Op.spawn, Op.block 1, Op.tick]).current_running_thread ≠ some 1 ∧
    (exec 4 [Op.spawn, Op.spawn, Op.block 1, Op.tick]).heap 1 =
      some { _id := 1, _state := State.BLOCKED, _num_of_quantum := 0,
             _quantums_left_in_sleeping := 0 } ∧
    (exec 4 [Op.spawn, Op.spawn, Op.block 1, Op.resume 1]).ready_threads = [2, 1] := by
  have h := C13_blocked_thread_not_dispatched 4 (exec 4 [Op.spawn, Op.spawn, Op.block 1]) 1
    { _id := 1, _state := State.BLOCKED, _num_of_quantum := 0,
      _quantums_left_in_sleeping := 0 }
    (exec_Reachable 4 _ (by decide) (by simp [Op.inRange, isInt, INT_MAX]) ⟨_, _, rfl, rfl⟩)
    rfl (Or.inl rfl)
  have h1 := h.1 Op.tick (exec 4 [Op.spawn, Op.spawn, Op.block 1, Op.tick]) trivial rfl
  refine ⟨h1.1, rfl, rfl⟩

/-! ### C9: sleeping and blocking compose -/

/-- An operation that ends in a dispatch, seen from a thread that is not the
caller: the thread is deleted, which only `uthread_terminate(0)` does, or it is
ticked once for each of the `k` visits of the loop of `update_sleeping_time`
(none if it was not in the SLEEPING deque, at least one if it was at the front
of it and the operation is not `uthread_terminate(0)`), and it is the thread
dispatched only if that left it READY. -/
theorem dispatch_step_other {M : Nat} (s s1 : Sched) (op : Op) (hi : Inv M s)
    (hr : op.inRange) (h : step M s op = Outcome.switched s1) (x : Nat) (th : Thread)
    (hth : s.heap x = some th) (hst : th._state ≠ State.RUNNING) :
    (s1.heap x = none ∧ op = Op.terminate 0) ∨
    ∃ k : Nat, (x ∉ s.sleeping_threads → k = 0) ∧
      (op ≠ Op.terminate 0 → s.sleeping_threads.head? = some x → 0 < k) ∧
      ((s1.current_running_thread ≠ some x ∧
          s1.heap x = some (Nat.iterate tick_thread k th)) ∨
       (s1.current_running_thread = some x ∧
          (Nat.iterate tick_thread k th)._state = State.READY ∧
          s1.heap x = some (dispatch_thread (Nat.iterate tick_thread k th)))) := by
  have hcur : ∀ c tc, s.current_running_thread = some c → s.heap c = some tc → x ≠ c := by
    intro c tc hc htc he
    subst he
    rw [hth] at htc
    cases htc
    exact hst (hi.stable.cur_running x th hc hth)
  by_cases hop : op = Op.terminate 0
  · subst hop
    obtain ⟨_, sa, i, hia, hi0, hir, hsw, _, hca, _, hl⟩ :=
      terminate_zero_chain s s1 hi (by rw [h]; rfl)
    obtain ⟨_, c, tc, hc, htc, hnone, hoth, _⟩ :=
      dispatch_step_cell sa s1 (Op.terminate i) hia hir (fun he => hi0 (by injection he)) hsw
    rcases hl x th hth with ⟨hx, _⟩ | hx
    · exact Or.inl ⟨hnone x hx, rfl⟩
    · right
      have hxc : x ≠ c := by
        intro he
        subst he
        rw [hx] at htc
        cases htc
        exact hst (hia.stable.cur_running x th hc hx)
      obtain ⟨t1, ⟨k, hk, hk0, _⟩, hcase⟩ := hoth x th hx hxc
      subst hk
      refine ⟨k, ?_, fun hne => absurd rfl hne, hcase⟩
      intro hns
      apply hk0
      rw [hia.q.mem_sleeping x th hx]
      rw [hi.q.mem_sleeping x th hth] at hns
      exact hns
  · right
    obtain ⟨_, c, tc, hc, htc, _, hoth, _⟩ := dispatch_step_cell s s1 op hi hr hop h
    obtain ⟨t1, ⟨k, hk, hk0, hk1⟩, hcase⟩ := hoth x th hth (hcur c tc hc htc)
    subst hk
    exact ⟨k, hk0, fun _ => hk1, hcase⟩

/-- C9: in a reachable state, for a live thread `c` with record `th`:
while it is SLEEPING_AND_BLOCKED, BLOCKED or SLEEPING it is not in the READY
deque (which never holds a thread twice); a SLEEPING_AND_BLOCKED thread is in
both the SLEEPING and the BLOCKED deque, and no operation that returns to its
caller makes it READY.
A dispatch visits a thread of the SLEEPING deque some number `k` of times in
the loop of `update_sleeping_time` (at least once if the thread is at the front
of the deque and the operation is not `uthread_terminate(0)`); each visit takes
one quantum off the time left, and the sleep expires in this dispatch when the
time left is at least 1 and at most `k`.
(a) If the sleep of a SLEEPING_AND_BLOCKED thread expires in a dispatch, the
thread becomes BLOCKED, stays in the BLOCKED deque, leaves the SLEEPING deque
and is not put in READY; if it does not expire the thread stays as it is, in
both deques; `uthread_resume` on a BLOCKED thread returns 0 and appends it to
READY.
(b) `uthread_resume` on a SLEEPING_AND_BLOCKED thread returns 0, makes it
SLEEPING with the same time left and removes it from the BLOCKED deque, READY
and SLEEPING unchanged; when the sleep of a SLEEPING thread expires in a
dispatch, the thread becomes READY and is in READY once (or is the thread that
this very dispatch runs); if it does not expire the thread stays SLEEPING, out
of READY. -/
theorem C9_sleep_and_block_compose (M : Nat) (s : Sched) (c : Nat) (th : Thread)
    (hreach : Reachable M s) (hth : s.heap c = some th) :
    (s.ready_threads.Nodup ∧
      ((th._state = State.SLEEPING_AND_BLOCKED ∨ th._state = State.BLOCKED ∨
        th._state = State.SLEEPING) → c ∉ s.ready_threads)) ∧
    (th._state = State.SLEEPING_AND_BLOCKED →
      c ∈ s.sleeping_threads ∧ c ∈ s.blocked_threads ∧
      ∀ (op : Op) (v : Int) (s1 : Sched), op.inRange → step M s op = Outcome.ret v s1 →
        s1.heap c = none ∨ s1.heap c = some th ∨
        s1.heap c = some { th with _state := State.SLEEPING }) ∧
    (th._state = State.SLEEPING_AND_BLOCKED →
      ∀ (op : Op) (s1 : Sched), op.inRange → step M s op = Outcome.switched s1 →
        s1.heap c ≠ none →
        ∃ k : Nat,
          (op ≠ Op.terminate 0 → s.sleeping_threads.head? = some c → 0 < k) ∧
          c ∈ s1.blocked_threads ∧ c ∉ s1.ready_threads ∧
          s1.current_running_thread ≠ some c ∧
          ((1 ≤ th._quantums_left_in_sleeping ∧ th._quantums_left_in_sleeping ≤ k ∧
              s1.heap c = some { th with _state := State.BLOCKED,
                                         _quantums_left_in_sleeping :=
                                           th._quantums_left_in_sleeping - k } ∧
              c ∉ s1.sleeping_threads) ∨
           (¬ (1 ≤ th._quantums_left_in_sleeping ∧ th._quantums_left_in_sleeping ≤ k) ∧
              s1.heap c = some { th with _quantums_left_in_sleeping :=
                                           th._quantums_left_in_sleeping - k } ∧
              c ∈ s1.sleeping_threads))) ∧
    (th._state = State.BLOCKED →
      ∃ s1, uthread_resume th._id s = Outcome.ret 0 s1 ∧
        s1.heap c = some { th with _state := State.READY } ∧
        s1.ready_threads = s.ready_threads ++ [c] ∧ s1.ready_threads.count c = 1 ∧
        c ∉ s1.blocked_threads ∧ s1.sleeping_threads = s.sleeping_threads) ∧
    (th._state = State.SLEEPING_AND_BLOCKED →
      ∃ s1, uthread_resume th._id s = Outcome.ret 0 s1 ∧
        s1.heap c = some { th with _state := State.SLEEPING } ∧
        c ∉ s1.blocked_threads ∧ c ∈ s1.sleeping_threads ∧
        s1.ready_threads = s.ready_threads ∧ s1.sleeping_threads = s.sleeping_threads) ∧
    (th._state = State.SLEEPING →
      ∀ (op : Op) (s1 : Sched), op.inRange → step M s op = Outcome.switched s1 →
        s1.heap c ≠ none →
        ∃ k : Nat,
          (op ≠ Op.terminate 0 → s.sleeping_threads.head? = some c → 0 < k) ∧
          c ∉ s1.blocked_threads ∧
          ((1 ≤ th._quantums_left_in_sleeping ∧ th._quantums_left_in_sleeping ≤ k ∧
              c ∉ s1.sleeping_threads ∧
              ((s1.heap c = some { th with _state := State.READY,
                                           _quantums_left_in_sleeping :=
                                             th._quantums_left_in_sleeping - k } ∧
                  s1.ready_threads.count c = 1) ∨
               (s1.heap c = some (dispatch_thread
                    { th with _state := State.READY,
                              _quantums_left_in_sleeping :=
                                th._quantums_left_in_sleeping - k }) ∧
                  s1.current_running_thread = some c))) ∨
           (¬ (1 ≤ th._quantums_left_in_sleeping ∧ th._quantums_left_in_sleeping ≤ k) ∧
              s1.heap c = some { th with _quantums_left_in_sleeping :=
                                           th._quantums_left_in_sleeping - k } ∧
              c ∈ s1.sleeping_threads ∧ c ∉ s1.ready_threads))) := by
  have hi := hreach.inv
  refine ⟨⟨hi.q.ready_nodup, ?_⟩, ?_, ?_, ?_, ?_, ?_⟩
  · intro hst
    rw [hi.q.mem_ready c th hth]
    rcases hst with h | h | h <;> simp [h]
  · intro hst
    refine ⟨(hi.q.mem_sleeping c th hth).mpr (Or.inr hst),
      (hi.q.mem_blocked c th hth).mpr (Or.inr hst), ?_⟩
    intro op v s1 hr hstep
    rcases quiet_step_thread s s1 op v hi hr hstep c th hth with
      h | h | ⟨h, _⟩ | ⟨h, _⟩ | ⟨_, h⟩ | ⟨h, _⟩
    · exact Or.inl h
    · exact Or.inr (Or.inl h)
    · rw [hst] at h; cases h
    · rw [hst] at h; cases h
    · exact Or.inr (Or.inr h)
    · rw [hst] at h; cases h
  · intro hst op s1 hr hstep hlive
    have hi1 := step_Inv s s1 op hi hr (by rw [hstep]; rfl)
    rcases dispatch_step_other s s1 op hi hr hstep c th hth (by rw [hst]; simp) with
      ⟨h, _⟩ | ⟨k, _, hk1, hcase⟩
    · exact absurd h hlive
    · rw [iterate_tick_thread_eq k th] at hcase
      simp only [hst] at hcase
      refine ⟨k, hk1, ?_⟩
      by_cases hexp : 1 ≤ th._quantums_left_in_sleeping ∧ th._quantums_left_in_sleeping ≤ k
      · simp only [if_pos hexp] at hcase
        rcases hcase with ⟨hc1, hh⟩ | ⟨_, hR, _⟩
        · refine ⟨?_, ?_, hc1, Or.inl ⟨hexp.1, hexp.2, ?_, ?_⟩⟩
          · rw [hi1.q.mem_blocked c _ hh]; simp
          · rw [hi1.q.mem_ready c _ hh]; simp
          · rw [hh]; simp
          · rw [hi1.q.mem_sleeping c _ hh]; simp
        · simp at hR
      · simp only [if_neg hexp] at hcase
        rcases hcase with ⟨hc1, hh⟩ | ⟨_, hR, _⟩
        · refine ⟨?_, ?_, hc1, Or.inr ⟨hexp, ?_, ?_⟩⟩
          · rw [hi1.q.mem_blocked c _ hh]; simp
          · rw [hi1.q.mem_ready c _ hh]; simp
          · rw [hh, hst]
          · rw [hi1.q.mem_sleeping c _ hh]; simp
        · simp at hR
  · intro hst
    have hr := uthread_resume_live s hi c th hth
    rw [if_neg (by simp [hst]), if_pos hst] at hr
    have hi1 : Inv M _ := uthread_resume_Inv th._id s _ 0 hi hr
    refine ⟨_, hr, by simp [Sched.write], rfl, ?_, ?_, rfl⟩
    · exact List.count_eq_one_of_mem hi1.q.ready_nodup (by simp)
    · have h1 : ({ (s.write c { th with _state := State.READY }) with
          ready_threads := s.ready_threads ++ [c]
          blocked_threads := s.blocked_threads.erase c } : Sched).heap c =
          some { th with _state := State.READY } := by simp [Sched.write]
      rw [hi1.q.mem_blocked c _ h1]
      simp
  · intro hst
    have hr := uthread_resume_live s hi c th hth
    rw [if_pos hst] at hr
    have hi1 : Inv M _ := uthread_resume_Inv th._id s _ 0 hi hr
    have h1 : ({ (s.write c { th with _state := State.SLEEPING }) with
        blocked_threads := s.blocked_threads.erase c } : Sched).heap c =
        some { th with _state := State.SLEEPING } := by simp [Sched.write]
    refine ⟨_, hr, h1, ?_, ?_, rfl, rfl⟩
    · rw [hi1.q.mem_blocked c _ h1]
      simp
    · rw [hi1.q.mem_sleeping c _ h1]
      simp
  · intro hst op s1 hr hstep hlive
    have hi1 := step_Inv s s1 op hi hr (by rw [hstep]; rfl)
    rcases dispatch_step_other s s1 op hi hr hstep c th hth (by rw [hst]; simp) with
      ⟨h, _⟩ | ⟨k, _, hk1, hcase⟩
    · exact absurd h hlive
    · rw [iterate_tick_thread_eq k th] at hcase
      simp only [hst] at hcase
      refine ⟨k, hk1, ?_⟩
      by_cases hexp : 1 ≤ th._quantums_left_in_sleeping ∧ th._quantums_left_in_sleeping ≤ k
      · simp only [if_pos hexp] at hcase
        rcases hcase with ⟨_, hh⟩ | ⟨hc1, _, hh⟩
        · refine ⟨?_, Or.inl ⟨hexp.1, hexp.2, ?_, Or.inl ⟨?_, ?_⟩⟩⟩
          · rw [hi1.q.mem_blocked c _ hh]; simp
          · rw [hi1.q.mem_sleeping c _ hh]; simp
          · rw [hh]; simp
          · exact List.count_eq_one_of_mem hi1.q.ready_nodup
              ((hi1.q.mem_ready c _ hh).mpr rfl)
        · refine ⟨?_, Or.inl ⟨hexp.1, hexp.2, ?_, Or.inr ⟨?_, hc1⟩⟩⟩
          · rw [hi1.q.mem_blocked c _ hh]; simp [dispatch_thread]
          · rw [hi1.q.mem_sleeping c _ hh]; simp [dispatch_thread]
          · rw [hh]; simp
      · simp only [if_neg hexp] at hcase
        rcases hcase with ⟨_, hh⟩ | ⟨_, hR, _⟩
        · refine ⟨?_, Or.inr ⟨hexp, ?_, ?_, ?_⟩⟩
          · rw [hi1.q.mem_blocked c _ hh]; simp [hst]
          · rw [hh, hst]
          · rw [hi1.q.mem_sleeping c _ hh]; simp [hst]
          · rw [hi1.q.mem_ready c _ hh]; simp [hst]
        · simp [hst] at hR

/-- C9 at two concrete runs, one for each order.  (a) Thread 1 sleeps for one
quantum and is blocked meanwhile; the tick in which its sleep expires leaves it
BLOCKED, in the BLOCKED deque only.  (b) Thread 1 sleeps for one quantum, is
blocked and resumed meanwhile; the tick in which its sleep expires leaves it
READY, in the READY deque once. -/
theorem C9_sleep_and_block_compose_witness :
    ((exec 4 [Op.spawn, Op.tick, Op.sleep 1, Op.block 1, Op.tick]).heap 1 = some
        { _id := 1, _state := State.BLOCKED, _num_of_quantum := 1,
          _quantums_left_in_sleeping := 0 } ∧
      1 ∈ (exec 4 [Op.spawn, Op.tick, Op.sleep 1, Op.block 1, Op.tick]).blocked_threads ∧
      1 ∉ (exec 4 [Op.spawn, Op.tick, Op.sleep 1, Op.block 1, Op.tick]).sleeping_threads ∧
      1 ∉ (exec 4 [Op.spawn, Op.tick, Op.sleep 1, Op.block 1, Op.tick]).ready_threads) ∧
    ((exec 4 [Op.spawn, Op.spawn, Op.tick, Op.sleep 1, Op.block 1, Op.resume 1,
        Op.tick]).heap 1 = some
        { _id := 1, _state := State.READY, _num_of_quantum := 1,
          _quantums_left_in_sleeping := 0 } ∧
      (exec 4 [Op.spawn, Op.spawn, Op.tick, Op.sleep 1, Op.block 1, Op.resume 1,
        Op.tick]).ready_threads.count 1 = 1 ∧
      1 ∉ (exec 4 [Op.spawn, Op.spawn, Op.tick, Op.sleep 1, Op.block 1, Op.resume 1,
        Op.tick]).sleeping_threads ∧
      1 ∉ (exec 4 [Op.spawn, Op.spawn, Op.tick, Op.sleep 1, Op.block 1, Op.resume 1,
        Op.tick]).blocked_threads) := by
  constructor
  · obtain ⟨k, hk, hb, hr, _, hcase⟩ :=
      (C9_sleep_and_block_compose 4 (exec 4 [Op.spawn, Op.tick, Op.sleep 1, Op.block 1]) 1
        { _id := 1, _state := State.SLEEPING_AND_BLOCKED, _num_of_quantum := 1,
          _quantums_left_in_sleeping := 1 }
        (exec_Reachable 4 _ (by decide) (by simp [Op.inRange, isInt, INT_MAX])
          ⟨_, _, rfl, rfl⟩)
        rfl).2.2.1 rfl Op.tick
        (exec 4 [Op.spawn, Op.tick, Op.sleep 1, Op.block 1, Op.tick]) trivial rfl (by decide)
    have hk1 : 0 < k := hk (fun h => by cases h) rfl
    rcases hcase with ⟨_, _, _, hs⟩ | ⟨hn, _⟩
    · exact ⟨rfl, hb, hs, hr⟩
    · exact absurd ⟨le_refl _, by
        show (1 : Int) ≤ (k : Int)
        exact_mod_cast hk1⟩ hn
  · obtain ⟨k, hk, hb, hcase⟩ :=
      (C9_sleep_and_block_compose 4
        (exec 4 [Op.spawn, Op.spawn, Op.tick, Op.sleep 1, Op.block 1, Op.resume 1]) 1
        { _id := 1, _state := State.SLEEPING, _num_of_quantum := 1,
          _quantums_left_in_sleeping := 1 }
        (exec_Reachable 4 _ (by decide) (by simp [Op.inRange, isInt, INT_MAX])
          ⟨_, _, rfl, rfl⟩)
        rfl).2.2.2.2.2 rfl Op.tick
        (exec 4 [Op.spawn, Op.spawn, Op.tick, Op.sleep 1, Op.block 1, Op.resume 1, Op.tick])
        trivial rfl (by decide)
    have hk1 : 0 < k := hk (fun h => by cases h) rfl
    rcases hcase with ⟨_, _, hs, ⟨_, hc⟩ | ⟨_, hcur⟩⟩ | ⟨hn, _⟩
    · exact ⟨rfl, hc, hs, hb⟩
    · exact absurd hcur (by decide)
    · exact absurd ⟨le_refl _, by
        show (1 : Int) ≤ (k : Int)
        exact_mod_cast hk1⟩ hn

/-! ### C20: the main thread is always RUNNING or READY -/

/-- An operation other than `uthread_terminate(0)` keeps a thread with id 0
that is RUNNING or READY at its address, with id 0, RUNNING or READY. -/
theorem simple_step_main {M : Nat} (s s1 : Sched) (op : Op) (hi : Inv M s)
    (hr : op.inRange) (hop : op ≠ Op.terminate 0) (h : (step M s op).state? = some s1)
    (p : Nat) (th : Thread) (hth : s.heap p = some th) (hid : th._id = 0)
    (hst : th._state = State.RUNNING ∨ th._state = State.READY) :
    ∃ t1, s1.heap p = some t1 ∧ t1._id = 0 ∧
      (t1._state = State.RUNNING ∨ t1._state = State.READY) := by
  cases ho : step M s op with
  | exit v => rw [ho] at h; cases h
  | fault => rw [ho] at h; cases h
  | ret v s2 =>
    rw [ho] at h
    cases h
    obtain ⟨_, _, _, hcell⟩ := quiet_step_cell s s1 op v hi hr ho
    rcases hcell p th hth with ⟨_, hne, _⟩ | hx | ⟨_, hne, _⟩ | ⟨_, ⟨h1, _⟩ | ⟨h1, _⟩⟩
    · exact absurd hid hne
    · exact ⟨th, hx, hid, hst⟩
    · exact absurd hid hne
    · rcases hst with h | h <;> rw [h] at h1 <;> cases h1
    · rcases hst with h | h <;> rw [h] at h1 <;> cases h1
  | switched s2 =>
    rw [ho] at h
    cases h
    obtain ⟨_, c, tc, hc, htc, _, hoth, hself⟩ := dispatch_step_cell s s1 op hi hr hop ho
    by_cases hpc : p = c
    · subst hpc
      rw [hth] at htc
      cases htc
      rcases hself with ⟨_, ⟨_, hx⟩ | ⟨_, hx⟩⟩ | ⟨hne, _⟩
      · exact ⟨_, hx, hid, Or.inr rfl⟩
      · exact ⟨_, hx, hid, Or.inl rfl⟩
      · exact absurd hid hne
    · have hns : p ∉ s.sleeping_threads := by
        rw [hi.q.mem_sleeping p th hth]
        rcases hst with h | h <;> simp [h]
      obtain ⟨t1, ht1, hcase⟩ := hoth p th hth hpc
      obtain ⟨k, hk, hk0, _⟩ := ht1
      have e : t1 = th := by rw [hk, hk0 hns]; rfl
      rw [e] at hcase
      rcases hcase with ⟨_, hx⟩ | ⟨_, _, hx⟩
      · exact ⟨_, hx, hid, hst⟩
      · exact ⟨_, hx, hid, Or.inl rfl⟩

/-- Every operation keeps a thread with id 0 that is RUNNING or READY at its
address, with id 0, RUNNING or READY. -/
theorem step_main {M : Nat} (s s1 : Sched) (op : Op) (hi : Inv M s)
    (hr : op.inRange) (h : (step M s op).state? = some s1)
    (p : Nat) (th : Thread) (hth : s.heap p = some th) (hid : th._id = 0)
    (hst : th._state = State.RUNNING ∨ th._state = State.READY) :
    ∃ t1, s1.heap p = some t1 ∧ t1._id = 0 ∧
      (t1._state = State.RUNNING ∨ t1._state = State.READY) := by
  by_cases hop : op = Op.terminate 0
  · subst hop
    obtain ⟨_, sa, i, hia, hi0, hir, hsw, _, _, _, hl⟩ := terminate_zero_chain s s1 hi h
    rcases hl p th hth with ⟨_, hne, _⟩ | hx
    · exact absurd hid hne
    · exact simple_step_main sa s1 (Op.terminate i) hia hir (fun he => hi0 (by injection he))
        (by rw [hsw]; rfl) p th hx hid hst
  · exact simple_step_main s s1 op hi hr hop h p th hth hid hst

/-- C20: in every reachable state the main thread exists and is RUNNING or
READY: the id map binds id 0 to a thread object whose id is 0 and whose state
is RUNNING or READY (so not BLOCKED, SLEEPING, SLEEPING_AND_BLOCKED or
TERMINATED), and no other thread object has id 0. -/
theorem C20_main_thread_running_or_ready (M : Nat) (s : Sched) (hreach : Reachable M s) :
    ∃ p th, s.tid_to_thread_map 0 = some p ∧ s.heap p = some th ∧ th._id = 0 ∧
      (th._state = State.RUNNING ∨ th._state = State.READY) ∧
      th._state ≠ State.BLOCKED ∧ th._state ≠ State.SLEEPING ∧
      th._state ≠ State.SLEEPING_AND_BLOCKED ∧ th._state ≠ State.TERMINATED ∧
      ∀ q t, s.heap q = some t → t._id = 0 → q = p := by
  have hi := hreach.inv
  have key : ∃ p th, s.heap p = some th ∧ th._id = 0 ∧
      (th._state = State.RUNNING ∨ th._state = State.READY) := by
    induction hreach with
    | init q s hmax h0 =>
      unfold uthread_init at h0
      split at h0
      · cases h0
      · simp only at h0
        split at h0
        · cases h0
        · cases h0
          exact ⟨0, ⟨Thread.main._id, State.RUNNING, Thread.main._num_of_quantum + 1,
            Thread.main._quantums_left_in_sleeping⟩, by simp [boot], rfl, Or.inl rfl⟩
    | step s s1 op hreach hr hs ih =>
      obtain ⟨p, th, hth, hid, hst⟩ := ih hreach.inv
      obtain ⟨t1, h1, h2, h3⟩ := step_main s s1 op hreach.inv hr hs p th hth hid hst
      exact ⟨p, t1, h1, h2, h3⟩
  obtain ⟨p, th, hth, hid, hst⟩ := key
  have hmap := (hi.live_id p th hth).1
  rw [hid] at hmap
  refine ⟨p, th, hmap, hth, hid, hst, ?_, ?_, ?_, ?_, ?_⟩
  · rcases hst with h | h <;> simp [h]
  · rcases hst with h | h <;> simp [h]
  · rcases hst with h | h <;> simp [h]
  · rcases hst with h | h <;> simp [h]
  · intro q t hq hqid
    have := (hi.live_id q t hq).1
    rw [hqid, hmap] at this
    cases this
    rfl

/-- C20 at a concrete state: thread 1 preempts the main thread, fails to block
it and goes to sleep; the main thread was READY meanwhile and runs again. -/
theorem C20_main_thread_running_or_ready_witness :
    ∃ p th, (exec 4 [Op.spawn, Op.tick, Op.block 0, Op.sleep 2]).tid_to_thread_map 0 = some p ∧
      (exec 4 [Op.spawn, Op.tick, Op.block 0, Op.sleep 2]).heap p = some th ∧ th._id = 0 ∧
      (th._state = State.RUNNING ∨ th._state = State.READY) ∧
      th._state ≠ State.BLOCKED ∧ th._state ≠ State.SLEEPING ∧
      th._state ≠ State.SLEEPING_AND_BLOCKED ∧ th._state ≠ State.TERMINATED ∧
      ∀ q t, (exec 4 [Op.spawn, Op.tick, Op.block 0, Op.sleep 2]).heap q = some t →
        t._id = 0 → q = p :=
  C20_main_thread_running_or_ready 4 (exec 4 [Op.spawn, Op.tick, Op.block 0, Op.sleep 2])
    (exec_Reachable 4 _ (by decide) (by simp [Op.inRange, isInt, INT_MAX]) ⟨_, _, rfl, rfl⟩)

/-! ### C11: exhausting and refilling the pool of ids -/

/-- A successful `uthread_terminate_single_thread` removes the id from the map
and changes no other binding. -/
theorem uthread_terminate_single_thread_map {M : Nat} (tid : Int) (s s1 : Sched)
    (hi : Inv M s) (hne : tid ≠ 0)
    (h : uthread_terminate_single_thread tid s = Outcome.ret 0 s1 ∨
      uthread_terminate_single_thread tid s = Outcome.switched s1) :
    s1.tid_to_thread_map = Function.update s.tid_to_thread_map tid none := by
  have hs : (uthread_terminate_single_thread tid s).state? = some s1 := by
    rcases h with h | h <;> rw [h] <;> rfl
  rcases uthread_terminate_single_thread_cases tid s s1 hs with
    ⟨q, hq, _⟩ | ⟨hrun, _⟩ | ⟨_, he⟩
  · rcases uthread_terminate_thread_cases tid q s _ hq with ⟨_, ho⟩ | ⟨_, ho⟩ | ⟨p, m, _, _, ho⟩
    · cases ho
    · cases ho
    · cases ho
      rfl
  · have h2 : uthread_terminate_running_thread tid s = Outcome.ret 0 s1 ∨
        uthread_terminate_running_thread tid s = Outcome.switched s1 := by
      rw [hrun]; exact h
    have h3 := (uthread_terminate_running_thread_success tid s s1 hi hne h2).1
    rcases uthread_terminate_running_thread_cases tid s _ h3 with
      ⟨_, ho⟩ | ⟨c, hc, ⟨_, ho⟩ | ⟨th, hth, ⟨_, ho⟩ | ⟨hid, m, hm, ho⟩⟩⟩
    · cases ho
    · cases ho
    · cases ho
    · subst hid
      have hw := self_terminate_WInv s c th m hi hc hth hne hm
      cases ht : timer_handler
          { (s.write c { th with _state := State.TERMINATED }) with
            tid_to_thread_map := Function.update s.tid_to_thread_map th._id none
            available_tids := setInsert th._id s.available_tids
            min_tid := m } with
      | ret v s2 => rw [ht] at ho; cases ho
      | exit v => rw [ht] at ho; cases ho
      | fault => rw [ht] at ho; cases ho
      | switched s2 =>
        rw [ht] at ho
        cases ho
        rw [(timer_handler_frame _ _ hw ht).2.2.2.2.1]
  · rw [he] at h
    rcases h with h | h
    · injection h with hv _
      exact absurd hv (by decide)
    · cases h

/-- When exactly the ids below `j` are taken, `j` is the smallest free id. -/
theorem min_tid_of_prefix {M : Nat} (s : Sched) (hi : Inv M s) (j : Int)
    (h1 : 1 ≤ j) (hM : j ≤ M)
    (hp : ∀ i : Int, 1 ≤ i → i ≤ M → (s.tid_to_thread_map i ≠ none ↔ i < j)) :
    s.min_tid = j := by
  obtain ⟨a1, a2, a3, a4⟩ := hi.min_tid_least
  rw [hi.holdsId_iff] at a3
  have hge : ¬ s.min_tid < j := fun hlt => a3 ((hp _ a1 a2).mpr hlt)
  have hle : s.min_tid ≤ j := by
    apply a4 j h1 hM
    rw [hi.holdsId_iff]
    intro hne
    have := (hp j h1 hM).mp hne
    omega
  omega

/-- With every id of `[1, MAX_THREAD_NUM)` taken, `uthread_spawn` fails and
leaves the state alone. -/
theorem uthread_spawn_exhausted {M : Nat} (s : Sched) (hi : Inv M s)
    (hp : ∀ i : Int, 1 ≤ i → i ≤ M → (s.tid_to_thread_map i ≠ none ↔ i < M)) :
    uthread_spawn M s = Outcome.ret (-1) s := by
  have hm := min_tid_of_prefix s hi M (by have := hi.min_tid_least; omega) (le_refl _) hp
  unfold uthread_spawn
  rw [if_pos (by rw [hm])]

/-- A failing `uthread_spawn` means that every id of `[1, MAX_THREAD_NUM)` is
taken. -/
theorem exhausted_of_spawn_fails {M : Nat} (s : Sched) (hi : Inv M s)
    (h : uthread_spawn M s = Outcome.ret (-1) s) :
    ∀ i : Int, 1 ≤ i → i ≤ M → (s.tid_to_thread_map i ≠ none ↔ i < M) := by
  obtain ⟨a1, a2, a3, a4⟩ := hi.min_tid_least
  have hm : s.min_tid = M := by
    rcases uthread_spawn_ret M s s (-1) h with ⟨hge, _⟩ | ⟨_, hv, _⟩
    · omega
    · omega
  intro i h1 h2
  constructor
  · intro hne
    have hk := hi.ids.key_range i
    cases hmap : s.tid_to_thread_map i with
    | none => exact absurd hmap hne
    | some p => exact (hk p hmap).2
  · intro hlt hnone
    have := a4 i h1 h2 (by rw [hi.holdsId_iff]; simpa using hnone)
    omega

/-- One successful `uthread_spawn` when exactly the ids below `j` are taken. -/
theorem uthread_spawn_prefix {M : Nat} (s : Sched) (hi : Inv M s) (j : Int)
    (h1 : 1 ≤ j) (hM : j < M)
    (hp : ∀ i : Int, 1 ≤ i → i ≤ M → (s.tid_to_thread_map i ≠ none ↔ i < j)) :
    ∃ s1, uthread_spawn M s = Outcome.ret j s1 ∧ Inv M s1 ∧
      (∀ i : Int, 1 ≤ i → i ≤ M → (s1.tid_to_thread_map i ≠ none ↔ i < j + 1)) ∧
      (∀ p th, s1.heap p = some th →
        s.heap p = some th ∨ (th._id = j ∧ th._state = State.READY)) := by
  have hm := min_tid_of_prefix s hi j h1 (by omega) hp
  obtain ⟨m, _, hsp⟩ := uthread_spawn_succeeds s hi (by rw [hm]; exact hM)
  rw [hm] at hsp
  refine ⟨_, hsp, uthread_spawn_Inv s _ j hi hsp, ?_, ?_⟩
  · intro i hi1 hi2
    by_cases hij : i = j
    · subst hij
      simp
    · simp only [Function.update_apply, if_neg hij]
      rw [hp i hi1 hi2]
      omega
  · intro p th hpth
    by_cases hpn : p = s.next_addr
    · subst hpn
      simp at hpth
      subst hpth
      exact Or.inr ⟨rfl, rfl⟩
    · left
      simpa [Function.update_apply, hpn] using hpth

/-- The run of successful calls of `uthread_spawn`: from a state in which exactly the
ids below `j` are taken, `n` calls return `j, j + 1, ...` as long as these stay
below `MAX_THREAD_NUM`. -/
theorem spawn_seq_prefix {M : Nat} (n : Nat) (s : Sched) (j : Nat) (hi : Inv M s)
    (h1 : 1 ≤ j) (hM : j + n ≤ M)
    (hp : ∀ i : Int, 1 ≤ i → i ≤ M → (s.tid_to_thread_map i ≠ none ↔ i < j))
    (hready : ∀ p th, s.heap p = some th → th._id ≠ 0 → th._state = State.READY) :
    ∃ s1, spawn_seq M n s = some ((List.range' j n).map (fun i : Nat => (i : Int)), s1) ∧
      Inv M s1 ∧
      (∀ i : Int, 1 ≤ i → i ≤ M → (s1.tid_to_thread_map i ≠ none ↔ i < (j + n : Nat))) ∧
      (∀ p th, s1.heap p = some th → th._id ≠ 0 → th._state = State.READY) := by
  induction n generalizing s j with
  | zero => exact ⟨s, rfl, hi, by simpa using hp, hready⟩
  | succ n ih =>
    obtain ⟨s1, hsp, hi1, hp1, hh1⟩ := uthread_spawn_prefix s hi j (by omega) (by omega) hp
    obtain ⟨s2, hseq, hi2, hp2, hr2⟩ := ih s1 (j + 1) hi1 (by omega) (by omega)
      (by simpa using hp1)
      (by
        intro p th hpth hne
        rcases hh1 p th hpth with h | ⟨_, h⟩
        · exact hready p th h hne
        · exact h)
    refine ⟨s2, ?_, hi2, ?_, hr2⟩
    · simp only [spawn_seq, hsp, hseq, List.range', List.map_cons]
    · intro i a b
      rw [hp2 i a b]
      constructor <;> intro h <;> omega

/-- The search loop finds an element when some element of the deque has the
id and every element can be dereferenced. -/
theorem scan_for_tid_exists (heap : Nat → Option Thread) (tid : Int) (l : List Nat)
    (hlive : ∀ x ∈ l, heap x ≠ none)
    (hex : ∃ x th, x ∈ l ∧ heap x = some th ∧ th._id = tid) :
    ∃ p, scan_for_tid heap tid l = some (some p) := by
  induction l with
  | nil =>
    obtain ⟨x, _, hx, _⟩ := hex
    simp at hx
  | cons a l ih =>
    unfold scan_for_tid
    cases ha : heap a with
    | none => exact absurd ha (hlive a (by simp))
    | some ta =>
      simp only
      by_cases hid : ta._id = tid
      · rw [if_pos hid]
        exact ⟨a, rfl⟩
      · rw [if_neg hid]
        apply ih (fun x hx => hlive x (by simp [hx]))
        obtain ⟨x, th, hx, hth, hxid⟩ := hex
        rcases List.mem_cons.mp hx with rfl | hx
        · rw [ha] at hth
          cases hth
          exact absurd hxid hid
        · exact ⟨x, th, hx, hth, hxid⟩

/-- Terminating a READY thread by its id returns 0. -/
theorem uthread_terminate_ready {M : Nat} (s : Sched) (hi : Inv M s) (k : Int) (p : Nat)
    (th : Thread) (hk : k ≠ 0) (hth : s.heap p = some th) (hid : th._id = k)
    (hst : th._state = State.READY) :
    ∃ s1, uthread_terminate M k s = Outcome.ret 0 s1 := by
  have hu : toUnsigned k = k := by
    rw [← hid]
    exact (hi.live_id p th hth).2.2.2.2
  obtain ⟨p1, hscan⟩ := scan_for_tid_exists s.heap k s.ready_threads
    (by
      intro x hx hnone
      have := (hi.q.agree x).1.mp hx
      simp [stOf, hnone] at this)
    ⟨p, th, (hi.q.mem_ready p th hth).mpr hst, hth, hid⟩
  have h1 : ∃ s1, uthread_terminate_thread k Queue.ready s = Outcome.ret 0 s1 := by
    rcases uthread_terminate_thread_cases k Queue.ready s _ rfl with
      ⟨hs, _⟩ | ⟨hs, _⟩ | ⟨p2, m, _, _, ho⟩
    · rw [Sched.queue, hscan] at hs; cases hs
    · rw [Sched.queue, hscan] at hs; cases hs
    · exact ⟨_, ho⟩
  obtain ⟨s1, h1⟩ := h1
  refine ⟨s1, ?_⟩
  unfold uthread_terminate
  rw [if_neg hk, hu]
  unfold uthread_terminate_single_thread
  rw [h1]
  simp

/-- In a state where `uthread_spawn` fails, a successful `uthread_terminate(k)`
frees exactly one id: the next `uthread_spawn` returns `k` and the one after
it fails again. -/
theorem spawn_after_terminate {M : Nat} (s s1 : Sched) (k : Int) (hi : Inv M s)
    (hfull : ∀ i : Int, 1 ≤ i → i ≤ M → (s.tid_to_thread_map i ≠ none ↔ i < M))
    (hk : isInt k) (hk0 : k ≠ 0)
    (h : uthread_terminate M k s = Outcome.ret 0 s1 ∨
      uthread_terminate M k s = Outcome.switched s1) :
    ∃ s2, uthread_spawn M s1 = Outcome.ret k s2 ∧
      uthread_spawn M s2 = Outcome.ret (-1) s2 := by
  have hi1 : Inv M s1 := uthread_terminate_Inv k s s1 hi hk (by
    rcases h with h | h <;> rw [h] <;> rfl)
  unfold uthread_terminate at h
  rw [if_neg hk0] at h
  have hne := toUnsigned_ne_zero k hk hk0
  have hmap := uthread_terminate_single_thread_map _ s s1 hi hne h
  obtain ⟨_, p, th, hth, hid, _⟩ := uthread_terminate_single_thread_success _ s s1 hi hne h
  obtain ⟨_, _, h0, hlt, hu⟩ := hi.live_id p th hth
  rw [hid] at h0 hlt
  have hkk : toUnsigned k = k := by
    unfold toUnsigned at h0 hlt ⊢
    unfold isInt INT_MAX at hk
    have := hi.max_ok
    unfold INT_MAX at this
    omega
  rw [hkk] at hmap hne hlt
  -- the smallest free id after the call is `k`
  have hmin : s1.min_tid = k := by
    obtain ⟨a1, a2, a3, a4⟩ := hi1.min_tid_least
    have hle : s1.min_tid ≤ k := by
      apply a4 k (by omega) (by omega)
      rw [hi1.holdsId_iff, hmap]
      simp
    by_contra hne1
    have hlt1 : s1.min_tid < k := by omega
    rw [hi1.holdsId_iff, hmap] at a3
    simp only [Function.update_apply, if_neg hne1] at a3
    exact a3 ((hfull _ a1 a2).mpr (by omega))
  obtain ⟨m, _, hsp⟩ := uthread_spawn_succeeds s1 hi1 (by rw [hmin]; exact hlt)
  rw [hmin] at hsp
  refine ⟨_, hsp, ?_⟩
  apply uthread_spawn_exhausted _ (uthread_spawn_Inv s1 _ k hi1 hsp)
  intro i a b
  by_cases hik : i = k
  · subst hik
    simp [hlt]
  · simp only [Function.update_apply, if_neg hik, hmap]
    exact hfull i a b

/-- C11: from the state right after a successful `uthread_init`,
`MAX_THREAD_NUM - 1` consecutive calls of `uthread_spawn` return
`1, 2, ..., MAX_THREAD_NUM - 1` in that order; the next call returns -1 and
leaves the state as it is; and for every spawned id `k`, `uthread_terminate(k)`
then returns 0, the next `uthread_spawn` returns `k`, and the one after it
returns -1 again.  More generally, in every reachable state in which
`uthread_spawn` fails, a successful `uthread_terminate(k)` (one that returns 0
or, for the caller itself, ends in a dispatch) is followed by exactly one
successful `uthread_spawn`, which returns `k`. -/
theorem C11_id_pool_exhaustion (M : Nat) (quantum_usecs : Int) (s0 : Sched)
    (hmax : (M : Int) ≤ INT_MAX)
    (hinit : uthread_init M quantum_usecs boot = Outcome.ret 0 s0) :
    (∃ sfull,
      spawn_seq M (M - 1) s0 =
        some ((List.range' 1 (M - 1)).map (fun i : Nat => (i : Int)), sfull) ∧
      uthread_spawn M sfull = Outcome.ret (-1) sfull ∧
      ∀ k : Int, 1 ≤ k → k < M →
        ∃ s1 s2, uthread_terminate M k sfull = Outcome.ret 0 s1 ∧
          uthread_spawn M s1 = Outcome.ret k s2 ∧
          uthread_spawn M s2 = Outcome.ret (-1) s2) ∧
    (∀ (s s1 : Sched) (k : Int), Reachable M s →
      uthread_spawn M s = Outcome.ret (-1) s → isInt k → k ≠ 0 →
      (uthread_terminate M k s = Outcome.ret 0 s1 ∨
        uthread_terminate M k s = Outcome.switched s1) →
      ∃ s2, uthread_spawn M s1 = Outcome.ret k s2 ∧
        uthread_spawn M s2 = Outcome.ret (-1) s2) := by
  have hi0 := uthread_init_Inv quantum_usecs s0 hmax hinit
  have hM1 : 1 ≤ M := by
    have := hi0.min_tid_least
    omega
  constructor
  · have hs0 : s0.tid_to_thread_map = Function.update (fun _ => none) 0 (some 0) ∧
        ∀ p th, s0.heap p = some th → th._id = 0 := by
      unfold uthread_init at hinit
      split at hinit
      · cases hinit
      · simp only at hinit
        split at hinit
        · cases hinit
        · cases hinit
          refine ⟨rfl, ?_⟩
          intro p th hp
          by_cases hp0 : p = 0
          · subst hp0
            simp [boot] at hp
            subst hp
            rfl
          · simp [boot, Function.update_apply, hp0] at hp
    obtain ⟨sfull, hseq, hif, hpf, hrf⟩ := spawn_seq_prefix (M - 1) s0 1 hi0 (le_refl _)
      (by omega)
      (by
        intro i a b
        rw [hs0.1]
        have : i ≠ 0 := by omega
        simp [Function.update_apply, this]
        omega)
      (by
        intro p th hp hne
        exact absurd (hs0.2 p th hp) hne)
    have hcast : ((1 + (M - 1) : Nat) : Int) = M := by omega
    rw [hcast] at hpf
    refine ⟨sfull, hseq, uthread_spawn_exhausted sfull hif hpf, ?_⟩
    intro k hk1 hkM
    have hk0 : k ≠ 0 := by omega
    have hne := (hpf k hk1 (by omega)).mpr hkM
    cases hmap : sfull.tid_to_thread_map k with
    | none => exact absurd hmap hne
    | some p =>
      obtain ⟨th, hth, hid, _⟩ := hif.ids.map_sound k p hmap
      obtain ⟨s1, hterm⟩ := uthread_terminate_ready sfull hif k p th hk0 hth hid
        (hrf p th hth (by rw [hid]; exact hk0))
      have hint : isInt k := by
        unfold isInt
        have := hmax
        unfold INT_MAX at this ⊢
        omega
      obtain ⟨s2, h2, h3⟩ := spawn_after_terminate sfull s1 k hif hpf hint hk0 (Or.inl hterm)
      exact ⟨s1, s2, hterm, h2, h3⟩
  · intro s s1 k hreach hfull hk hk0 hterm
    exact spawn_after_terminate s s1 k hreach.inv
      (exhausted_of_spawn_fails s hreach.inv hfull) hk hk0 hterm

/-- C11 for `MAX_THREAD_NUM = 4`: three calls of `uthread_spawn` return 1, 2, 3
and the fourth returns -1; after `uthread_terminate(2)` one call returns 2 and
the next returns -1. -/
theorem C11_id_pool_exhaustion_witness :
    (∃ sfull,
      spawn_seq 4 (4 - 1) (exec 4 []) =
        some ((List.range' 1 (4 - 1)).map (fun i : Nat => (i : Int)), sfull) ∧
      uthread_spawn 4 sfull = Outcome.ret (-1) sfull ∧
      ∀ k : Int, 1 ≤ k → k < (4 : Nat) →
        ∃ s1 s2, uthread_terminate 4 k sfull = Outcome.ret 0 s1 ∧
          uthread_spawn 4 s1 = Outcome.ret k s2 ∧
          uthread_spawn 4 s2 = Outcome.ret (-1) s2) ∧
    (∀ (s s1 : Sched) (k : Int), Reachable 4 s →
      uthread_spawn 4 s = Outcome.ret (-1) s → isInt k → k ≠ 0 →
      (uthread_terminate 4 k s = Outcome.ret 0 s1 ∨
        uthread_terminate 4 k s = Outcome.switched s1) →
      ∃ s2, uthread_spawn 4 s1 = Outcome.ret k s2 ∧
        uthread_spawn 4 s2 = Outcome.ret (-1) s2) :=
  C11_id_pool_exhaustion 4 1000 (exec 4 []) (by decide) rfl

/-! ### C17: the quantum counter is the sum of the quanta of all threads -/

theorem sum_range_tail (g : Nat → Int) (n k : Nat) (hn : ∀ p, n ≤ p → g p = 0) :
    ((List.range (n + k)).map g).sum = ((List.range n).map g).sum := by
  induction k with
  | zero => rfl
  | succ k ih =>
    rw [← Nat.add_assoc, List.sum_range_succ, ih, hn (n + k) (by omega)]
    simp

theorem sum_range_ext (g : Nat → Int) (n m : Nat) (hn : ∀ p, n ≤ p → g p = 0)
    (hm : ∀ p, m ≤ p → g p = 0) :
    ((List.range n).map g).sum = ((List.range m).map g).sum := by
  rcases Nat.le_total n m with h | h
  · obtain ⟨k, rfl⟩ := Nat.exists_eq_add_of_le h
    exact (sum_range_tail g n k hn).symm
  · obtain ⟨k, rfl⟩ := Nat.exists_eq_add_of_le h
    exact sum_range_tail g m k hm

theorem sum_range_pointwise (a b c e : Nat → Int) (n : Nat)
    (h : ∀ p, p < n → a p + b p = c p + e p) :
    ((List.range n).map a).sum + ((List.range n).map b).sum =
      ((List.range n).map c).sum + ((List.range n).map e).sum := by
  induction n with
  | zero => simp
  | succ n ih =>
    simp only [List.sum_range_succ]
    have h1 := ih (fun p hp => h p (by omega))
    have h2 := h n (by omega)
    omega

theorem sum_range_indicator (d n : Nat) (h : d < n) :
    ((List.range n).map (fun p => if p = d then (1 : Int) else 0)).sum = 1 := by
  induction n with
  | zero => omega
  | succ n ih =>
    rw [List.sum_range_succ]
    by_cases hd : d = n
    · subst hd
      have : ((List.range d).map (fun p => if p = d then (1 : Int) else 0)).sum = 0 := by
        apply List.sum_eq_zero
        intro x hx
        simp only [List.mem_map, List.mem_range] at hx
        obtain ⟨p, hp, rfl⟩ := hx
        rw [if_neg (by omega)]
      rw [this]
      simp
    · rw [ih (by omega), if_neg (fun he => hd he.symm)]
      simp

theorem tick_thread_quanta (th : Thread) :
    (tick_thread th)._num_of_quantum = th._num_of_quantum := rfl

/-- What an operation other than `uthread_terminate(0)` that ends in a dispatch does
to the counts of quanta: the thread dispatched gains one quantum and every
other thread that is not deleted keeps its count. -/
theorem simple_dispatch_quanta {M : Nat} (s s1 : Sched) (op : Op) (hi : Inv M s)
    (hr : op.inRange) (hop : op ≠ Op.terminate 0) (h : step M s op = Outcome.switched s1) :
    s1.quantum_counter = s.quantum_counter + 1 ∧
    (∀ x, s.heap x = none → s1.heap x = none) ∧
    ∃ d td td1, s1.current_running_thread = some d ∧ s.heap d = some td ∧
      s1.heap d = some td1 ∧ td1._num_of_quantum = td._num_of_quantum + 1 ∧
      ∀ x th, x ≠ d → s.heap x = some th →
        s1.heap x = none ∨
        ∃ th1, s1.heap x = some th1 ∧ th1._num_of_quantum = th._num_of_quantum := by
  have hi1 := step_Inv s s1 op hi hr (by rw [h]; rfl)
  obtain ⟨hq, c, tc, hc, htc, hnone, hoth, hself⟩ := dispatch_step_cell s s1 op hi hr hop h
  obtain ⟨d, td1, hd, htd1, _, _⟩ := hi1.stable
  -- every cell, the caller included
  have hcell : ∀ x th, s.heap x = some th →
      (s1.current_running_thread ≠ some x ∧
        (s1.heap x = none ∨
          ∃ th1, s1.heap x = some th1 ∧ th1._num_of_quantum = th._num_of_quantum)) ∨
      (s1.current_running_thread = some x ∧
        ∃ th1, s1.heap x = some th1 ∧ th1._num_of_quantum = th._num_of_quantum + 1) := by
    intro x th hx
    by_cases hxc : x = c
    · subst hxc
      rw [hx] at htc
      cases htc
      rcases hself with ⟨_, ⟨h1, h2⟩ | ⟨h1, h2⟩⟩ |
        ⟨_, ⟨_, h1, h2⟩ | ⟨_, h1, h2⟩ | ⟨n, _, _, t1, ⟨k, hk⟩, ⟨h1, h2⟩ | ⟨h1, _, h2⟩⟩⟩
      · exact Or.inl ⟨h1, Or.inr ⟨_, h2, rfl⟩⟩
      · exact Or.inr ⟨h1, _, h2, rfl⟩
      · exact Or.inl ⟨h1, Or.inl h2⟩
      · exact Or.inl ⟨h1, Or.inr ⟨_, h2, rfl⟩⟩
      · exact Or.inl ⟨h1, Or.inr ⟨_, h2, by rw [hk]; exact (iterate_tick_thread_id k _).2⟩⟩
      · exact Or.inr ⟨h1, _, h2, by
          rw [hk]
          simp only [dispatch_thread]
          rw [(iterate_tick_thread_id k _).2]⟩
    · obtain ⟨t1, ht1, hcase⟩ := hoth x th hx hxc
      have hn : t1._num_of_quantum = th._num_of_quantum := by
        obtain ⟨k, hk, _⟩ := ht1
        rw [hk]
        exact (iterate_tick_thread_id k th).2
      rcases hcase with ⟨h1, h2⟩ | ⟨h1, _, h2⟩
      · exact Or.inl ⟨h1, Or.inr ⟨_, h2, hn⟩⟩
      · exact Or.inr ⟨h1, _, h2, by simp [dispatch_thread, hn]⟩
  refine ⟨hq, hnone, d, ?_⟩
  cases hsd : s.heap d with
  | none =>
    rw [hnone d hsd] at htd1
    cases htd1
  | some td =>
    refine ⟨td, td1, hd, rfl, htd1, ?_, ?_⟩
    · rcases hcell d td hsd with ⟨h1, _⟩ | ⟨_, t, h2, h3⟩
      · exact absurd hd h1
      · rw [htd1] at h2
        cases h2
        exact h3
    · intro x th hxd hx
      rcases hcell x th hx with ⟨_, h2⟩ | ⟨h1, _⟩
      · exact h2
      · rw [hd] at h1
        cases h1
        exact absurd rfl hxd

/-- What an operation does to the quantum counter and to the counts of quanta
of the threads: an operation that returns changes neither; an operation that
ends in a dispatch adds one to the counter and one to the count of the thread
dispatched.  A thread object that is created has count 0. -/
theorem step_quanta {M : Nat} (s s1 : Sched) (op : Op) (hi : Inv M s)
    (hr : op.inRange) (h : (step M s op).state? = some s1) :
    (∀ x, s.heap x = none → quanta_at s1.heap x = 0) ∧
    (((∃ v, step M s op = Outcome.ret v s1) ∧ s1.quantum_counter = s.quantum_counter ∧
      ∀ x th, s.heap x = some th →
        s1.heap x = none ∨
        ∃ th1, s1.heap x = some th1 ∧ th1._num_of_quantum = th._num_of_quantum) ∨
     (step M s op = Outcome.switched s1 ∧ s1.quantum_counter = s.quantum_counter + 1 ∧
      ∃ d td td1, s1.current_running_thread = some d ∧ s.heap d = some td ∧
        s1.heap d = some td1 ∧ td1._num_of_quantum = td._num_of_quantum + 1 ∧
        ∀ x th, x ≠ d → s.heap x = some th →
          s1.heap x = none ∨
          ∃ th1, s1.heap x = some th1 ∧ th1._num_of_quantum = th._num_of_quantum)) := by
  cases ho : step M s op with
  | exit v => rw [ho] at h; cases h
  | fault => rw [ho] at h; cases h
  | ret v s2 =>
    rw [ho] at h
    cases h
    obtain ⟨hq, _, hnone, hcell⟩ := quiet_step_cell s s1 op v hi hr ho
    refine ⟨?_, Or.inl ⟨⟨v, rfl⟩, hq, ?_⟩⟩
    · intro x hx
      rcases hnone x hx with h1 | ⟨_, k, _, h1⟩
      · simp [quanta_at, h1]
      · simp [quanta_at, h1, Thread.spawned]
    · intro x th hx
      rcases hcell x th hx with ⟨h1, _⟩ | h1 | ⟨_, _, ⟨_, h1⟩ | ⟨_, h1⟩⟩ |
          ⟨_, ⟨_, h1⟩ | ⟨_, h1, _⟩⟩
      · exact Or.inl h1
      · exact Or.inr ⟨_, h1, rfl⟩
      · exact Or.inr ⟨_, h1, rfl⟩
      · exact Or.inr ⟨_, h1, rfl⟩
      · exact Or.inr ⟨_, h1, rfl⟩
      · exact Or.inr ⟨_, h1, rfl⟩
  | switched s2 =>
    rw [ho] at h
    cases h
    by_cases hop : op = Op.terminate 0
    · subst hop
      obtain ⟨_, sa, i, hia, hi0, hir, hsw, hqa, _, hna, hla⟩ :=
        terminate_zero_chain s s1 hi (by rw [ho]; rfl)
      obtain ⟨hq, hnone, d, td, td1, hd, htd, htd1, hnum, hoth⟩ :=
        simple_dispatch_quanta sa s1 (Op.terminate i) hia hir
          (fun he => hi0 (by injection he)) hsw
      refine ⟨?_, Or.inr ⟨rfl, by rw [hq, hqa], d, td, td1, hd, ?_, htd1, hnum, ?_⟩⟩
      · intro x hx
        simp [quanta_at, hnone x (hna x hx)]
      · cases hsd : s.heap d with
        | none =>
          rw [hna d hsd] at htd
          cases htd
        | some t =>
          rcases hla d t hsd with ⟨h1, _⟩ | h1
          · rw [h1] at htd; cases htd
          · rw [h1] at htd; exact htd
      · intro x th hxd hx
        rcases hla x th hx with ⟨h1, _⟩ | h1
        · exact Or.inl (hnone x h1)
        · exact hoth x th hxd h1
    · obtain ⟨hq, hnone, hrest⟩ := simple_dispatch_quanta s s1 op hi hr hop ho
      refine ⟨?_, Or.inr ⟨rfl, hq, hrest⟩⟩
      intro x hx
      simp [quanta_at, hnone x hx]

/-- The ledger of a reachable state balances: the quantum counter is the sum of
the counts of quanta of the live threads and of the final counts of the
terminated threads. -/
theorem Accounted.balance {M : Nat} {s : Sched} {r : Int} (h : Accounted M s r) :
    Reachable M s ∧ s.quantum_counter = live_quanta s + r := by
  induction h with
  | init q s hmax h0 =>
    refine ⟨Reachable.init q s hmax h0, ?_⟩
    unfold uthread_init at h0
    split at h0
    · cases h0
    · simp only at h0
      split at h0
      · cases h0
      · cases h0
        simp [live_quanta, quanta_at, boot, Thread.main, List.range_succ]
  | step s s1 op r _ hr hs ih =>
    obtain ⟨hreach, hbal⟩ := ih
    have hi := hreach.inv
    have hreach1 := Reachable.step s s1 op hreach hr hs
    have hi1 := hreach1.inv
    refine ⟨hreach1, ?_⟩
    obtain ⟨hnew, hcase⟩ := step_quanta s s1 op hi hr hs
    have hlive : live_quanta s1 = ((List.range s.next_addr).map (quanta_at s1.heap)).sum := by
      unfold live_quanta
      apply sum_range_ext
      · intro p hp
        simp [quanta_at, (hi1.q.fresh p hp).1]
      · intro p hp
        exact hnew p (hi.q.fresh p hp).1
    have hlt : ∀ p th, s.heap p = some th → p < s.next_addr := by
      intro p th hp
      by_contra hge
      have := (hi.q.fresh p (by omega)).1
      rw [this] at hp
      cases hp
    rcases hcase with ⟨_, hq, hcell⟩ | ⟨_, hq, d, td, td1, hd, htd, htd1, hnum, hcell⟩
    · have hsum : ((List.range s.next_addr).map (quanta_at s1.heap)).sum + reaped_quanta s s1 =
          live_quanta s + ((List.range s.next_addr).map (fun _ => (0 : Int))).sum :=
        sum_range_pointwise _ _ _ _ s.next_addr (by
          intro p _
          show quanta_at s1.heap p + (match s1.heap p with
            | none => quanta_at s.heap p
            | some _ => 0) = quanta_at s.heap p + 0
          cases hp : s.heap p with
          | none =>
            have := hnew p hp
            simp only [quanta_at, hp] at this ⊢
            cases h1 : s1.heap p with
            | none => simp
            | some t => rw [h1] at this; simpa using this
          | some th =>
            rcases hcell p th hp with h1 | ⟨t, h1, h2⟩
            · simp [quanta_at, hp, h1]
            · simp [quanta_at, hp, h1, h2])
      have hz : ((List.range s.next_addr).map (fun _ => (0 : Int))).sum = 0 := by simp
      rw [hz] at hsum
      rw [hlive, hq, hbal]
      omega
    · have hsum : ((List.range s.next_addr).map (quanta_at s1.heap)).sum + reaped_quanta s s1 =
          live_quanta s +
            ((List.range s.next_addr).map (fun p => if p = d then (1 : Int) else 0)).sum :=
        sum_range_pointwise _ _ _ _ s.next_addr (by
          intro p _
          show quanta_at s1.heap p + (match s1.heap p with
            | none => quanta_at s.heap p
            | some _ => 0) = quanta_at s.heap p + (if p = d then (1 : Int) else 0)
          cases hp : s.heap p with
          | none =>
            have hpd : p ≠ d := by
              intro he; subst he; rw [hp] at htd; cases htd
            have := hnew p hp
            simp only [quanta_at, hp, if_neg hpd] at this ⊢
            cases h1 : s1.heap p with
            | none => simp
            | some t => rw [h1] at this; simpa using this
          | some th =>
            by_cases hpd : p = d
            · subst hpd
              rw [hp] at htd
              cases htd
              simp [quanta_at, hp, htd1, hnum]
            · rcases hcell p th hpd hp with h1 | ⟨t, h1, h2⟩
              · simp [quanta_at, hp, h1, hpd]
              · simp [quanta_at, hp, h1, h2, hpd])
      rw [sum_range_indicator d s.next_addr (hlt d td htd)] at hsum
      rw [hlive, hq, hbal]
      omega

/-- Every reachable state has a ledger. -/
theorem Reachable.accounted {M : Nat} {s : Sched} (h : Reachable M s) :
    ∃ r, Accounted M s r := by
  induction h with
  | init q s hmax h0 => exact ⟨0, Accounted.init q s hmax h0⟩
  | step s s1 op _ hr hs ih =>
    obtain ⟨r, hacc⟩ := ih
    exact ⟨_, Accounted.step s s1 op r hacc hr hs⟩

/-- C17: in every reachable state `uthread_get_total_quantums` returns the sum
of `_num_of_quantum` over all threads that ever existed: the live threads,
plus the final count of every terminated thread (whatever run of operations
led to the state).  Equivalently: `uthread_init` leaves the counter and the
count of the main thread at 1; an operation that ends in a dispatch adds
exactly one to the counter and one to the count of the thread dispatched, and
leaves the count of every other surviving thread as it is; and an operation
that returns to its caller changes neither the counter nor the count of any
surviving thread. -/
theorem C17_total_quantums_is_sum (M : Nat) (s : Sched) (hreach : Reachable M s) :
    (∃ r, Accounted M s r) ∧
    (∀ r, Accounted M s r →
      uthread_get_total_quantums s = Outcome.ret (live_quanta s + r) s) ∧
    (∀ (q : Int) (s0 : Sched), uthread_init M q boot = Outcome.ret 0 s0 →
      s0.quantum_counter = 1 ∧ live_quanta s0 = 1 ∧
      ∃ c th, s0.current_running_thread = some c ∧ s0.heap c = some th ∧ th._id = 0 ∧
        th._num_of_quantum = 1) ∧
    (∀ (op : Op) (s1 : Sched), op.inRange → step M s op = Outcome.switched s1 →
      s1.quantum_counter = s.quantum_counter + 1 ∧
      ∃ d td td1, s1.current_running_thread = some d ∧ s.heap d = some td ∧
        s1.heap d = some td1 ∧ td1._num_of_quantum = td._num_of_quantum + 1 ∧
        ∀ x th, x ≠ d → s.heap x = some th →
          s1.heap x = none ∨
          ∃ th1, s1.heap x = some th1 ∧ th1._num_of_quantum = th._num_of_quantum) ∧
    (∀ (op : Op) (v : Int) (s1 : Sched), op.inRange → step M s op = Outcome.ret v s1 →
      s1.quantum_counter = s.quantum_counter ∧
      (∀ x, s.heap x = none → quanta_at s1.heap x = 0) ∧
      ∀ x th, s.heap x = some th →
        s1.heap x = none ∨
        ∃ th1, s1.heap x = some th1 ∧ th1._num_of_quantum = th._num_of_quantum) := by
  have hi := hreach.inv
  refine ⟨hreach.accounted, ?_, ?_, ?_, ?_⟩
  · intro r hacc
    unfold uthread_get_total_quantums
    rw [hacc.balance.2]
  · intro q s0 h0
    unfold uthread_init at h0
    split at h0
    · cases h0
    · simp only at h0
      split at h0
      · cases h0
      · cases h0
        refine ⟨by simp [boot],
          by simp [live_quanta, quanta_at, boot, Thread.main, List.range_succ], 0,
          ⟨Thread.main._id, State.RUNNING, Thread.main._num_of_quantum + 1,
            Thread.main._quantums_left_in_sleeping⟩, rfl, by simp [boot], rfl, ?_⟩
        simp [Thread.main]
  · intro op s1 hr hs
    obtain ⟨_, hcase⟩ := step_quanta s s1 op hi hr (by rw [hs]; rfl)
    rcases hcase with ⟨⟨v, hv⟩, _⟩ | ⟨_, hrest⟩
    · rw [hs] at hv; cases hv
    · exact hrest
  · intro op v s1 hr hs
    obtain ⟨hnew, hcase⟩ := step_quanta s s1 op hi hr (by rw [hs]; rfl)
    rcases hcase with ⟨_, hq, hcell⟩ | ⟨hsw, _⟩
    · exact ⟨hq, hnew, hcell⟩
    · rw [hs] at hsw; cases hsw

/-- C17 at a concrete state: thread 1 runs for one quantum and is terminated
by the main thread during the main thread's second quantum.  The live threads
have 2 quanta, the terminated thread had 1, and `uthread_get_total_quantums`
returns 3. -/
theorem C17_total_quantums_is_sum_witness :
    Accounted 4 (exec 4 [Op.spawn, Op.tick, Op.tick, Op.terminate 1]) 1 ∧
    live_quanta (exec 4 [Op.spawn, Op.tick, Op.tick, Op.terminate 1]) = 2 ∧
    uthread_get_total_quantums (exec 4 [Op.spawn, Op.tick, Op.tick, Op.terminate 1]) =
      Outcome.ret 3 (exec 4 [Op.spawn, Op.tick, Op.tick, Op.terminate 1]) := by
  have h0 : Accounted 4 (exec 4 []) 0 := Accounted.init 1000 _ (by decide) rfl
  have h1 : Accounted 4 (exec 4 [Op.spawn]) 0 :=
    Accounted.step _ (exec 4 [Op.spawn]) Op.spawn 0 h0 trivial rfl
  have h2 : Accounted 4 (exec 4 [Op.spawn, Op.tick]) 0 :=
    Accounted.step _ (exec 4 [Op.spawn, Op.tick]) Op.tick 0 h1 trivial rfl
  have h3 : Accounted 4 (exec 4 [Op.spawn, Op.tick, Op.tick]) 0 :=
    Accounted.step _ (exec 4 [Op.spawn, Op.tick, Op.tick]) Op.tick 0 h2 trivial rfl
  have h4 : Accounted 4 (exec 4 [Op.spawn, Op.tick, Op.tick, Op.terminate 1]) 1 :=
    Accounted.step _ (exec 4 [Op.spawn, Op.tick, Op.tick, Op.terminate 1]) (Op.terminate 1) 0 h3
      (by simp [Op.inRange, isInt, INT_MAX]) rfl
  exact ⟨h4, rfl,
    (C17_total_quantums_is_sum 4 (exec 4 [Op.spawn, Op.tick, Op.tick, Op.terminate 1])
      (exec_Reachable 4 _ (by decide) (by simp [Op.inRange, isInt, INT_MAX])
        ⟨_, _, rfl, rfl⟩)).2.1 1 h4⟩

/-! ### C21: the READY deque when the dispatcher runs -/

/-- The function `timer_handler`, once it gets to call the dispatcher, ends as
the dispatcher ends. -/
theorem timer_handler_dispatch_some (s sd : Sched) (h : timer_handler_dispatch s = some sd) :
    timer_handler s = run_next_ready_thread sd := by
  unfold timer_handler_dispatch at h
  unfold timer_handler
  cases hc : s.current_running_thread with
  | none => rw [hc] at h; cases h
  | some c =>
    rw [hc] at h
    simp only at h ⊢
    cases hth : s.heap c with
    | none => rw [hth] at h; cases h
    | some th =>
      rw [hth] at h
      simp only at h ⊢
      by_cases hst : th._state = State.TERMINATED ∨ th._state = State.BLOCKED ∨
          th._state = State.SLEEPING ∨ th._state = State.RUNNING
      · rw [if_pos hst] at h ⊢
        cases hu : update_sleeping_time s with
        | none => rw [hu] at h; cases h
        | some s1 =>
          rw [hu] at h
          simp only at h ⊢
          cases h1 : s1.heap c with
          | none => rw [h1] at h; cases h
          | some th1 =>
            rw [h1] at h
            simp only at h ⊢
            by_cases hR : th1._state = State.RUNNING
            · rw [if_pos hR] at h ⊢
              cases h
              rfl
            · rw [if_neg hR] at h ⊢
              by_cases hT : th1._state = State.TERMINATED
              · rw [if_pos hT] at h ⊢
                cases h
                rfl
              · rw [if_neg hT] at h ⊢
                cases h
                rfl
      · rw [if_neg hst] at h
        cases h

/-- The function `timer_handler` does not dispatch unless it gets to call the
dispatcher. -/
theorem timer_handler_dispatch_none (s s2 : Sched) (h : timer_handler_dispatch s = none) :
    timer_handler s ≠ Outcome.switched s2 := by
  intro ht
  unfold timer_handler_dispatch at h
  unfold timer_handler at ht
  cases hc : s.current_running_thread with
  | none => rw [hc] at ht; cases ht
  | some c =>
    rw [hc] at h ht
    simp only at h ht
    cases hth : s.heap c with
    | none => rw [hth] at ht; cases ht
    | some th =>
      rw [hth] at h ht
      simp only at h ht
      by_cases hst : th._state = State.TERMINATED ∨ th._state = State.BLOCKED ∨
          th._state = State.SLEEPING ∨ th._state = State.RUNNING
      · rw [if_pos hst] at h ht
        cases hu : update_sleeping_time s with
        | none => rw [hu] at ht; cases ht
        | some s1 =>
          rw [hu] at h ht
          simp only at h ht
          cases h1 : s1.heap c with
          | none => rw [h1] at ht; cases ht
          | some th1 =>
            rw [h1] at h
            simp only at h
            split at h
            · cases h
            · split at h <;> cases h
      · rw [if_neg hst] at ht
        cases ht

/-- The state in which `timer_handler` calls the dispatcher satisfies the deque
invariant, and its READY deque starts with the READY deque the handler was
entered with. -/
theorem timer_handler_dispatch_ready {M : Nat} (s sd : Sched) (hw : WInv M s)
    (h : timer_handler_dispatch s = some sd) :
    QInvC sd.heap sd.next_addr sd.ready_threads sd.blocked_threads sd.sleeping_threads ∧
    ∃ w, sd.ready_threads = s.ready_threads ++ w := by
  unfold timer_handler_dispatch at h
  cases hc : s.current_running_thread with
  | none => rw [hc] at h; cases h
  | some c =>
    rw [hc] at h
    simp only at h
    cases hth : s.heap c with
    | none => rw [hth] at h; cases h
    | some th =>
      rw [hth] at h
      simp only at h
      by_cases hst : th._state = State.TERMINATED ∨ th._state = State.BLOCKED ∨
          th._state = State.SLEEPING ∨ th._state = State.RUNNING
      · rw [if_pos hst] at h
        cases hu : update_sleeping_time s with
        | none => rw [hu] at h; cases h
        | some s1 =>
          rw [hu] at h
          simp only at h
          have hw1 := update_sleeping_time_WInv s s1 hw hu
          obtain ⟨_, _, _, _, _, _, _, ⟨w, hwr, _⟩, f9, _⟩ :=
            update_sleeping_time_frame s s1 hu
          cases h1 : s1.heap c with
          | none => rw [h1] at h; cases h
          | some th1 =>
            rw [h1] at h
            simp only at h
            by_cases hR : th1._state = State.RUNNING
            · rw [if_pos hR] at h
              cases h
              exact ⟨hw1.q.preempt c th1 _ h1 hR rfl, w ++ [c], by simp [hwr]⟩
            · rw [if_neg hR] at h
              by_cases hT : th1._state = State.TERMINATED
              · rw [if_pos hT] at h
                cases h
                exact ⟨hw1.q.free_plain c th1 h1 (Or.inr hT), w, hwr⟩
              · rw [if_neg hT] at h
                cases h
                exact ⟨hw1.q, w, hwr⟩
      · rw [if_neg hst] at h
        cases h

/-- A RUNNING caller outside the SLEEPING deque is at the tail of the READY
deque when `timer_handler` calls the dispatcher. -/
theorem timer_handler_dispatch_running (s sd : Sched)
    (h : timer_handler_dispatch s = some sd) (c : Nat) (th : Thread)
    (hc : s.current_running_thread = some c) (hth : s.heap c = some th)
    (hR : th._state = State.RUNNING) (hns : c ∉ s.sleeping_threads) :
    sd.ready_threads ≠ [] := by
  unfold timer_handler_dispatch at h
  rw [hc] at h
  simp only at h
  rw [hth] at h
  simp only at h
  rw [if_pos (Or.inr (Or.inr (Or.inr hR)))] at h
  cases hu : update_sleeping_time s with
  | none => rw [hu] at h; cases h
  | some s1 =>
    rw [hu] at h
    simp only at h
    obtain ⟨_, _, _, _, _, _, _, _, f9, _⟩ :=
      update_sleeping_time_frame s s1 hu
    have h1 : s1.heap c = some th := by rw [f9 c hns, hth]
    rw [h1] at h
    simp only at h
    rw [if_pos hR] at h
    cases h
    simp

/-- With a non-empty READY deque whose entries are live READY threads, the
dispatcher takes the front, which is a live thread, and switches to it. -/
theorem run_next_ready_thread_defined (sd : Sched)
    (hq : QInvC sd.heap sd.next_addr sd.ready_threads sd.blocked_threads sd.sleeping_threads)
    (hne : sd.ready_threads ≠ []) :
    ∃ p rest th, sd.ready_threads = p :: rest ∧ sd.heap p = some th ∧
      th._state = State.READY ∧
      run_next_ready_thread sd = Outcome.switched
        { (sd.write p (dispatch_thread th)) with
          current_running_thread := some p
          quantum_counter := sd.quantum_counter + 1
          ready_threads := rest } := by
  cases hr : sd.ready_threads with
  | nil => exact absurd hr hne
  | cons p rest =>
    have hmem : p ∈ sd.ready_threads := by rw [hr]; simp
    have hst := (hq.agree p).1.mp hmem
    cases hp : sd.heap p with
    | none => simp [stOf, hp] at hst
    | some th =>
      simp [stOf, hp] at hst
      refine ⟨p, rest, th, rfl, hp, hst, ?_⟩
      unfold run_next_ready_thread
      rw [hr]
      simp only [hp]
      rfl

/-- The state in which `uthread_terminate_running_thread` calls `timer_handler`, spelled out,
and the outcome of the call in terms of the outcome of `timer_handler`. -/
theorem uthread_terminate_running_thread_handler_some (tid : Int) (s sm : Sched)
    (h : uthread_terminate_running_thread_handler tid s = some sm) :
    ∃ c th m, s.current_running_thread = some c ∧ s.heap c = some th ∧ th._id = tid ∧
      (setInsert tid s.available_tids).head? = some m ∧
      sm = { (s.write c { th with _state := State.TERMINATED }) with
             tid_to_thread_map := Function.update s.tid_to_thread_map tid none
             available_tids := setInsert tid s.available_tids
             min_tid := m } ∧
      uthread_terminate_running_thread tid s =
        (match timer_handler sm with
         | Outcome.ret _ s1 => Outcome.ret 0 s1
         | o => o) := by
  unfold uthread_terminate_running_thread_handler at h
  unfold uthread_terminate_running_thread
  cases hc : s.current_running_thread with
  | none => rw [hc] at h; cases h
  | some c =>
    rw [hc] at h
    simp only at h ⊢
    cases hth : s.heap c with
    | none => rw [hth] at h; cases h
    | some th =>
      rw [hth] at h
      simp only at h ⊢
      by_cases hid : th._id = tid
      · rw [if_pos hid] at h ⊢
        cases hm : (setInsert tid s.available_tids).head? with
        | none => rw [hm] at h; cases h
        | some m =>
          rw [hm] at h
          simp only at h ⊢
          cases h
          exact ⟨c, th, m, rfl, hth, hid, rfl, rfl, rfl⟩
      · rw [if_neg hid] at h
        cases h

theorem uthread_terminate_running_thread_handler_none (tid : Int) (s s2 : Sched)
    (h : uthread_terminate_running_thread_handler tid s = none) :
    uthread_terminate_running_thread tid s ≠ Outcome.switched s2 := by
  intro ht
  rcases uthread_terminate_running_thread_cases tid s _ ht with
    ⟨_, ho⟩ | ⟨c, hc, ⟨_, ho⟩ | ⟨th, hth, ⟨_, ho⟩ | ⟨hid, m, hm, _⟩⟩⟩
  · cases ho
  · cases ho
  · cases ho
  · unfold uthread_terminate_running_thread_handler at h
    rw [hc] at h
    simp only at h
    rw [hth] at h
    simp only at h
    rw [if_pos hid, hm] at h
    cases h

/-- The state in which `uthread_terminate_single_thread` reaches `timer_handler`: the
search of the READY deque has left the state alone. -/
theorem uthread_terminate_single_thread_handler_some (tid : Int) (s sm : Sched)
    (h : uthread_terminate_single_thread_handler tid s = some sm) :
    uthread_terminate_running_thread_handler tid s = some sm ∧
    uthread_terminate_single_thread tid s =
      (match uthread_terminate_running_thread tid s with
       | Outcome.ret v s2 =>
         if v = 0 then Outcome.ret 0 s2
         else
           match uthread_terminate_thread tid Queue.blocked s2 with
           | Outcome.ret v s3 =>
             if v = 0 then Outcome.ret 0 s3
             else
               match uthread_terminate_thread tid Queue.sleeping s3 with
               | Outcome.ret v s4 => if v = 0 then Outcome.ret 0 s4 else Outcome.ret (-1) s4
               | o => o
           | o => o
       | o => o) := by
  unfold uthread_terminate_single_thread_handler at h
  unfold uthread_terminate_single_thread
  cases h1 : uthread_terminate_thread tid Queue.ready s with
  | switched s2 => rw [h1] at h; cases h
  | exit v => rw [h1] at h; cases h
  | fault => rw [h1] at h; cases h
  | ret v1 s2 =>
    rw [h1] at h
    simp only at h ⊢
    by_cases hv1 : v1 = 0
    · rw [if_pos hv1] at h
      cases h
    · rw [if_neg hv1] at h ⊢
      obtain ⟨rfl, _⟩ := uthread_terminate_thread_miss tid _ s s2 v1 h1 hv1
      exact ⟨h, rfl⟩

theorem uthread_terminate_single_thread_handler_none (tid : Int) (s s2 : Sched)
    (h : uthread_terminate_single_thread_handler tid s = none) :
    uthread_terminate_single_thread tid s ≠ Outcome.switched s2 := by
  intro ht
  have h2 := uthread_terminate_single_thread_switched _ _ _ ht
  unfold uthread_terminate_single_thread_handler at h
  unfold uthread_terminate_single_thread at ht
  cases h1 : uthread_terminate_thread tid Queue.ready s with
  | switched s3 => exact absurd h1 (uthread_terminate_thread_not_switched _ _ _ _)
  | exit v => rw [h1] at ht; cases ht
  | fault => rw [h1] at ht; cases ht
  | ret v1 s3 =>
    rw [h1] at h ht
    simp only at h ht
    by_cases hv1 : v1 = 0
    · rw [if_pos hv1] at ht
      cases ht
    · rw [if_neg hv1] at h
      obtain ⟨rfl, _⟩ := uthread_terminate_thread_miss tid _ s s3 v1 h1 hv1
      exact uthread_terminate_running_thread_handler_none tid s3 s2 h h2

/-- A call of `uthread_terminate_single_thread` that reaches the dispatcher ends as the
dispatcher ends. -/
theorem uthread_terminate_single_thread_dispatch (tid : Int) (s sm sd : Sched)
    (h : uthread_terminate_single_thread_handler tid s = some sm)
    (hd : timer_handler_dispatch sm = some sd) :
    uthread_terminate_single_thread tid s = run_next_ready_thread sd := by
  obtain ⟨h1, h2⟩ := uthread_terminate_single_thread_handler_some tid s sm h
  obtain ⟨c, th, m, _, _, _, _, _, h3⟩ := uthread_terminate_running_thread_handler_some tid s sm h1
  have h4 := timer_handler_dispatch_some sm sd hd
  rw [h2, h3, h4]
  cases hr : run_next_ready_thread sd with
  | ret v s1 => exact absurd hr (run_next_ready_thread_not_ret _ _ _)
  | switched s1 => rfl
  | exit v => rfl
  | fault => rfl

/-- The state in which `uthread_block` calls `timer_handler`, spelled out. -/
theorem uthread_block_handler_some (tid : Int) (s sm : Sched)
    (h : uthread_block_handler tid s = some sm) :
    ∃ c th, s.current_running_thread = some c ∧ s.heap c = some th ∧
      th._id = toUnsigned tid ∧ tid ≠ 0 ∧
      sm = { (s.write c { th with _state := State.BLOCKED }) with
             blocked_threads := s.blocked_threads ++ [c] } ∧
      uthread_block tid s =
        (match timer_handler sm with
         | Outcome.ret _ s1 => uthread_block_tail tid s1
         | o => o) := by
  unfold uthread_block_handler at h
  unfold uthread_block
  by_cases ha : tid ∈ s.available_tids
  · rw [if_pos ha] at h; cases h
  · rw [if_neg ha] at h ⊢
    by_cases h0 : tid = 0
    · rw [if_pos h0] at h; cases h
    · rw [if_neg h0] at h ⊢
      cases hc : s.current_running_thread with
      | none => rw [hc] at h; cases h
      | some c =>
        rw [hc] at h
        simp only at h ⊢
        cases hth : s.heap c with
        | none => rw [hth] at h; cases h
        | some th =>
          rw [hth] at h
          simp only at h ⊢
          by_cases hid : th._id = toUnsigned tid
          · rw [if_pos hid] at h ⊢
            cases h
            exact ⟨c, th, rfl, hth, hid, h0, rfl, rfl⟩
          · rw [if_neg hid] at h
            cases h

theorem uthread_block_handler_none (tid : Int) (s s2 : Sched)
    (h : uthread_block_handler tid s = none) :
    uthread_block tid s ≠ Outcome.switched s2 := by
  intro ht
  rcases uthread_block_cases tid s _ ht with
    ⟨_, ho⟩ | ⟨ha, h0, ⟨_, ho⟩ | ⟨c, hc, ⟨_, ho⟩ | ⟨th, hth, ⟨_, ho⟩ | ⟨hid, _⟩⟩⟩⟩
  · cases ho
  · cases ho
  · cases ho
  · exact absurd ho.symm (uthread_block_tail_not_switched _ _ _)
  · unfold uthread_block_handler at h
    rw [if_neg ha, if_neg h0, hc] at h
    simp only at h
    rw [hth] at h
    simp only at h
    rw [if_pos hid] at h
    cases h

/-- The state in which `uthread_sleep` calls `timer_handler`, spelled out. -/
theorem uthread_sleep_handler_some (n : Int) (s sm : Sched)
    (h : uthread_sleep_handler n s = some sm) :
    ∃ c th, s.current_running_thread = some c ∧ s.heap c = some th ∧
      th._id ≠ 0 ∧ 0 < n ∧
      sm = { (s.write c { th with _state := State.SLEEPING,
                                  _quantums_left_in_sleeping := n + 1 }) with
             sleeping_threads := s.sleeping_threads ++ [c] } ∧
      uthread_sleep n s =
        (match timer_handler sm with
         | Outcome.ret _ s1 => Outcome.ret 0 s1
         | o => o) := by
  unfold uthread_sleep_handler at h
  unfold uthread_sleep
  by_cases hz : n = 0
  · rw [if_pos hz] at h; cases h
  · rw [if_neg hz] at h ⊢
    by_cases hn : n < 0
    · rw [if_pos hn] at h; cases h
    · rw [if_neg hn] at h ⊢
      cases hc : s.current_running_thread with
      | none => rw [hc] at h; cases h
      | some c =>
        rw [hc] at h
        simp only at h ⊢
        cases hth : s.heap c with
        | none => rw [hth] at h; cases h
        | some th =>
          rw [hth] at h
          simp only at h ⊢
          by_cases hid : th._id = 0
          · rw [if_pos hid] at h; cases h
          · rw [if_neg hid] at h ⊢
            by_cases ho : n + 1 > INT_MAX
            · rw [if_pos ho] at h; cases h
            · rw [if_neg ho] at h ⊢
              cases h
              exact ⟨c, th, rfl, hth, hid, by omega, rfl, rfl⟩

theorem uthread_sleep_handler_none (n : Int) (s s2 : Sched)
    (h : uthread_sleep_handler n s = none) :
    uthread_sleep n s ≠ Outcome.switched s2 := by
  intro ht
  rcases uthread_sleep_cases n s _ ht with
    ⟨_, ho⟩ | ⟨_, ho⟩ | ⟨hn, ⟨_, ho⟩ | ⟨c, hc, ⟨_, ho⟩ | ⟨th, hth, ⟨_, ho⟩ | ⟨_, _, ho⟩ | ⟨hid, hle, _⟩⟩⟩⟩
  · cases ho
  · cases ho
  · cases ho
  · cases ho
  · cases ho
  · cases ho
  · unfold uthread_sleep_handler at h
    rw [if_neg (by omega), if_neg (by omega), hc] at h
    simp only at h
    rw [hth] at h
    simp only at h
    rw [if_neg hid, if_neg (by omega)] at h
    cases h

/-- A call of `uthread_terminate_single_thread` that reaches `timer_handler` does not
return: the caller is TERMINATED when the handler is entered. -/
theorem uthread_terminate_single_thread_handler_not_ret (tid : Int) (s sm : Sched)
    (h : uthread_terminate_single_thread_handler tid s = some sm) (v : Int) (s1 : Sched) :
    uthread_terminate_single_thread tid s ≠ Outcome.ret v s1 := by
  intro hret
  obtain ⟨h1, h2⟩ := uthread_terminate_single_thread_handler_some tid s sm h
  obtain ⟨c, th, m, hc, hth, _, _, hsm, h3⟩ :=
    uthread_terminate_running_thread_handler_some tid s sm h1
  have hnr : ∀ w s2, timer_handler sm ≠ Outcome.ret w s2 := by
    intro w s2 ht
    obtain ⟨_, _, c1, t1, hc1, ht1, hst⟩ := timer_handler_ret _ _ _ ht
    rw [hsm] at hc1 ht1
    simp [Sched.write, hc] at hc1
    subst hc1
    simp [Sched.write] at ht1
    subst ht1
    simp at hst
  rw [h2, h3] at hret
  cases ht : timer_handler sm with
  | ret w s2 => exact hnr w s2 ht
  | switched s2 => rw [ht] at hret; cases hret
  | exit w => rw [ht] at hret; cases hret
  | fault => rw [ht] at hret; cases hret

/-- A call of `uthread_terminate_single_thread` that ends in a dispatch went through
`timer_handler`. -/
theorem uthread_terminate_single_thread_handler_switched (tid : Int) (s s2 : Sched)
    (h : uthread_terminate_single_thread tid s = Outcome.switched s2) :
    ∃ sm, uthread_terminate_single_thread_handler tid s = some sm ∧
      timer_handler sm = Outcome.switched s2 := by
  cases hh : uthread_terminate_single_thread_handler tid s with
  | none => exact absurd h (uthread_terminate_single_thread_handler_none tid s s2 hh)
  | some sm =>
    refine ⟨sm, rfl, ?_⟩
    obtain ⟨h1, _⟩ := uthread_terminate_single_thread_handler_some tid s sm hh
    obtain ⟨c, th, m, _, _, _, _, _, h3⟩ :=
      uthread_terminate_running_thread_handler_some tid s sm h1
    have h4 := uthread_terminate_single_thread_switched _ _ _ h
    rw [h3] at h4
    cases ht : timer_handler sm with
    | ret w s3 => rw [ht] at h4; cases h4
    | switched s3 => rw [ht] at h4; exact h4
    | exit w => rw [ht] at h4; cases h4
    | fault => rw [ht] at h4; cases h4

/-- The loop of `uthread_terminate(0)`, once it reaches the dispatcher, ends as
the dispatcher ends. -/
theorem terminate_all_loop_dispatch (ids : List Nat) (s sm sd : Sched)
    (h : terminate_all_loop_handler ids s = some sm)
    (hd : timer_handler_dispatch sm = some sd) :
    terminate_all_loop ids s = run_next_ready_thread sd := by
  induction ids generalizing s with
  | nil => simp [terminate_all_loop_handler] at h
  | cons i ids ih =>
    unfold terminate_all_loop_handler at h
    unfold terminate_all_loop
    cases hh : uthread_terminate_single_thread_handler (toUnsigned i) s with
    | some sm1 =>
      rw [hh] at h
      simp only at h
      cases h
      have h1 := uthread_terminate_single_thread_dispatch _ s sm sd hh hd
      rw [h1]
      cases hr : run_next_ready_thread sd with
      | ret v s1 => exact absurd hr (run_next_ready_thread_not_ret _ _ _)
      | switched s1 => rfl
      | exit v => rfl
      | fault => rfl
    | none =>
      rw [hh] at h
      simp only at h
      cases h1 : uthread_terminate_single_thread (toUnsigned i) s with
      | ret v s1 =>
        rw [h1] at h
        simp only at h ⊢
        exact ih s1 h
      | switched s1 => rw [h1] at h; cases h
      | exit v => rw [h1] at h; cases h
      | fault => rw [h1] at h; cases h

/-- The loop of `uthread_terminate(0)`, when it ends in a dispatch, went through
`timer_handler`. -/
theorem terminate_all_loop_handler_switched (ids : List Nat) (s s2 : Sched)
    (h : terminate_all_loop ids s = Outcome.switched s2) :
    ∃ sm, terminate_all_loop_handler ids s = some sm ∧
      timer_handler sm = Outcome.switched s2 := by
  induction ids generalizing s with
  | nil => simp [terminate_all_loop] at h
  | cons i ids ih =>
    unfold terminate_all_loop at h
    unfold terminate_all_loop_handler
    cases h1 : uthread_terminate_single_thread (toUnsigned i) s with
    | ret v s1 =>
      rw [h1] at h
      simp only at h
      cases hh : uthread_terminate_single_thread_handler (toUnsigned i) s with
      | some sm1 =>
        exact absurd h1 (uthread_terminate_single_thread_handler_not_ret _ s sm1 hh v s1)
      | none =>
        simp only
        exact ih s1 h
    | switched s1 =>
      rw [h1] at h
      cases h
      obtain ⟨sm, hsm, ht⟩ := uthread_terminate_single_thread_handler_switched _ s _ h1
      rw [hsm]
      exact ⟨sm, rfl, ht⟩
    | exit v => rw [h1] at h; cases h
    | fault => rw [h1] at h; cases h

/-- The state in which the loop of `uthread_terminate(0)` reaches `timer_handler` is
prepared by a call `uthread_terminate(i)`, `i ≠ 0`, made in a state that
satisfies the invariant and still holds every thread with id 0. -/
theorem terminate_all_loop_handler_chain {M : Nat} (ids : List Nat) (s sm : Sched)
    (hi : Inv M s) (hids : ∀ i ∈ ids, 1 ≤ i ∧ (i : Int) ≤ INT_MAX)
    (h : terminate_all_loop_handler ids s = some sm) :
    ∃ (sa : Sched) (u : Int), Inv M sa ∧ u ≠ 0 ∧
      uthread_terminate_single_thread_handler u sa = some sm ∧
      (∀ p th, s.heap p = some th → th._id = 0 → sa.heap p = some th) := by
  induction ids generalizing s with
  | nil => simp [terminate_all_loop_handler] at h
  | cons i ids ih =>
    unfold terminate_all_loop_handler at h
    have hi1 := hids i (by simp)
    have hu : toUnsigned (i : Int) = i := toUnsigned_of_nonneg _ (by omega) hi1.2
    have hne : (i : Int) ≠ 0 := by omega
    have hint : isInt (i : Int) := by
      unfold isInt
      exact ⟨by omega, hi1.2⟩
    have hstep : step M s (Op.terminate i) = uthread_terminate_single_thread (toUnsigned i) s := by
      simp only [step, uthread_terminate, if_neg hne]
    cases hh : uthread_terminate_single_thread_handler (toUnsigned i) s with
    | some sm1 =>
      rw [hh] at h
      simp only at h
      cases h
      exact ⟨s, toUnsigned i, hi, by rw [hu]; exact hne, hh, fun p th hp _ => hp⟩
    | none =>
      rw [hh] at h
      simp only at h
      cases h1 : uthread_terminate_single_thread (toUnsigned i) s with
      | ret v s1 =>
        rw [h1] at h
        simp only at h
        have hi2 := step_Inv s s1 (Op.terminate i) hi hint (by rw [hstep, h1]; rfl)
        obtain ⟨sa, u, hia, hu0, hsa, hmain⟩ :=
          ih s1 hi2 (fun j hj => hids j (by simp [hj])) h
        obtain ⟨_, _, _, b4⟩ := quiet_step_cell s s1 (Op.terminate i) v hi hint
          (by rw [hstep, h1])
        refine ⟨sa, u, hia, hu0, hsa, ?_⟩
        intro p th hp hid
        rcases b4 p th hp with ⟨_, hid0, _⟩ | hx | ⟨hx, _⟩ | ⟨hx, _⟩
        · exact absurd hid hid0
        · exact hmain p th hx hid
        · cases hx
        · cases hx
      | switched s1 => rw [h1] at h; cases h
      | exit v => rw [h1] at h; cases h
      | fault => rw [h1] at h; cases h

/-- An operation that reaches the dispatcher ends as the dispatcher ends. -/
theorem handler_entry_dispatch (M : Nat) (s sm sd : Sched) (op : Op)
    (h : handler_entry M s op = some sm) (hd : timer_handler_dispatch sm = some sd) :
    step M s op = run_next_ready_thread sd := by
  have h4 := timer_handler_dispatch_some sm sd hd
  have hnr : ∀ o, o = run_next_ready_thread sd →
      (∀ (f : Sched → Outcome), (match o with
        | Outcome.ret _ s1 => f s1
        | o1 => o1) = o) := by
    intro o ho f
    cases hr : o with
    | ret v s1 => rw [hr] at ho; exact absurd ho.symm (run_next_ready_thread_not_ret _ _ _)
    | switched s1 => rfl
    | exit v => rfl
    | fault => rfl
  cases op with
  | tick =>
    simp only [handler_entry] at h
    cases h
    exact h4
  | spawn => simp [handler_entry] at h
  | terminate tid =>
    simp only [handler_entry, uthread_terminate_handler] at h
    simp only [step, uthread_terminate]
    by_cases h0 : tid = 0
    · rw [if_pos h0] at h ⊢
      rw [terminate_all_loop_dispatch _ s sm sd h hd]
      cases hr : run_next_ready_thread sd with
      | ret v s1 => exact absurd hr (run_next_ready_thread_not_ret _ _ _)
      | switched s1 => rfl
      | exit v => rfl
      | fault => rfl
    · rw [if_neg h0] at h ⊢
      exact uthread_terminate_single_thread_dispatch _ s sm sd h hd
  | block tid =>
    simp only [handler_entry] at h
    obtain ⟨_, _, _, _, _, _, _, heq⟩ := uthread_block_handler_some tid s sm h
    simp only [step]
    rw [heq, h4]
    exact hnr _ rfl _
  | resume tid => simp [handler_entry] at h
  | sleep n =>
    simp only [handler_entry] at h
    obtain ⟨_, _, _, _, _, _, _, heq⟩ := uthread_sleep_handler_some n s sm h
    simp only [step]
    rw [heq, h4]
    exact hnr _ rfl _
  | get_tid => simp [handler_entry] at h
  | get_total_quantums => simp [handler_entry] at h
  | get_quantums tid => simp [handler_entry] at h

/-- An operation that ends in a dispatch went through the dispatcher. -/
theorem dispatcher_entry_of_switched (M : Nat) (s s2 : Sched) (op : Op)
    (h : step M s op = Outcome.switched s2) :
    ∃ sd, dispatcher_entry M s op = some sd ∧
      run_next_ready_thread sd = Outcome.switched s2 := by
  have key : ∃ sm, handler_entry M s op = some sm ∧ timer_handler sm = Outcome.switched s2 := by
    cases op with
    | tick => exact ⟨s, rfl, h⟩
    | spawn => exact absurd h (uthread_spawn_not_switched _ _ _)
    | terminate tid =>
      simp only [step, uthread_terminate] at h
      simp only [handler_entry, uthread_terminate_handler]
      by_cases h0 : tid = 0
      · rw [if_pos h0] at h ⊢
        cases h1 : terminate_all_loop (List.range' 1 (M - 1)) s with
        | ret v s3 => rw [h1] at h; cases h
        | switched s3 =>
          rw [h1] at h
          cases h
          exact terminate_all_loop_handler_switched _ s _ h1
        | exit v => rw [h1] at h; cases h
        | fault => rw [h1] at h; cases h
      · rw [if_neg h0] at h ⊢
        exact uthread_terminate_single_thread_handler_switched _ s s2 h
    | block tid =>
      simp only [step] at h
      simp only [handler_entry]
      cases hh : uthread_block_handler tid s with
      | none => exact absurd h (uthread_block_handler_none tid s s2 hh)
      | some sm =>
        refine ⟨sm, rfl, ?_⟩
        obtain ⟨_, _, _, _, _, _, _, heq⟩ := uthread_block_handler_some tid s sm hh
        rw [heq] at h
        cases ht : timer_handler sm with
        | ret w s3 =>
          rw [ht] at h
          exact absurd h (uthread_block_tail_not_switched _ _ _)
        | switched s3 => rw [ht] at h; exact h
        | exit w => rw [ht] at h; cases h
        | fault => rw [ht] at h; cases h
    | resume tid => exact absurd h (uthread_resume_not_switched _ _ _)
    | sleep n =>
      simp only [step] at h
      simp only [handler_entry]
      cases hh : uthread_sleep_handler n s with
      | none => exact absurd h (uthread_sleep_handler_none n s s2 hh)
      | some sm =>
        refine ⟨sm, rfl, ?_⟩
        obtain ⟨_, _, _, _, _, _, _, heq⟩ := uthread_sleep_handler_some n s sm hh
        rw [heq] at h
        cases ht : timer_handler sm with
        | ret w s3 => rw [ht] at h; cases h
        | switched s3 => rw [ht] at h; exact h
        | exit w => rw [ht] at h; cases h
        | fault => rw [ht] at h; cases h
    | get_tid =>
      simp only [step, uthread_get_tid] at h
      split at h
      · cases h
      · split at h <;> cases h
    | get_total_quantums =>
      simp only [step, uthread_get_total_quantums] at h
      cases h
    | get_quantums tid =>
      simp only [step, uthread_get_quantums] at h
      split at h
      · cases h
      · split at h <;> cases h
  obtain ⟨sm, hsm, ht⟩ := key
  cases hd : timer_handler_dispatch sm with
  | none => exact absurd ht (timer_handler_dispatch_none sm s2 hd)
  | some sd =>
    refine ⟨sd, ?_, ?_⟩
    · simp [dispatcher_entry, hsm, hd]
    · rw [← timer_handler_dispatch_some sm sd hd]
      exact ht

/-- The state in which a self-termination enters `timer_handler` satisfies the
invariant of that program point, has the READY deque of the state before the
call, and the caller's id is not 0. -/
theorem uthread_terminate_single_thread_handler_WInv {M : Nat} (u : Int) (s sm : Sched)
    (hi : Inv M s) (hne : u ≠ 0)
    (h : uthread_terminate_single_thread_handler u s = some sm) :
    WInv M sm ∧ sm.ready_threads = s.ready_threads ∧
      ∃ c tc, s.current_running_thread = some c ∧ s.heap c = some tc ∧ tc._id ≠ 0 := by
  obtain ⟨h1, _⟩ := uthread_terminate_single_thread_handler_some u s sm h
  obtain ⟨c, th, m, hc, hth, hid, hm, hsm, _⟩ :=
    uthread_terminate_running_thread_handler_some u s sm h1
  subst hid
  rw [hsm]
  exact ⟨self_terminate_WInv s c th m hi hc hth hne hm, rfl, c, th, hc, hth, hne⟩

/-- The state in which an operation enters `timer_handler`: for the timer
signal it is the state itself; for an API call it satisfies the invariant of
that program point, the caller's id is not 0, and its READY deque is that of a
state which satisfies the invariant and still holds every thread with id 0. -/
theorem handler_entry_WInv {M : Nat} (s sm : Sched) (op : Op) (hi : Inv M s)
    (hr : op.inRange) (h : handler_entry M s op = some sm) :
    WInv M sm ∧
    ((op = Op.tick ∧ sm = s) ∨
     ∃ sa c tc, Inv M sa ∧ sa.current_running_thread = some c ∧ sa.heap c = some tc ∧
       tc._id ≠ 0 ∧ sm.ready_threads = sa.ready_threads ∧
       ∀ p th, s.heap p = some th → th._id = 0 → sa.heap p = some th) := by
  cases op with
  | tick =>
    simp only [handler_entry] at h
    cases h
    exact ⟨hi.toWInv, Or.inl ⟨rfl, rfl⟩⟩
  | spawn => simp [handler_entry] at h
  | terminate tid =>
    simp only [handler_entry, uthread_terminate_handler] at h
    by_cases h0 : tid = 0
    · rw [if_pos h0] at h
      obtain ⟨sa, u, hia, hu0, hsa, hmain⟩ :=
        terminate_all_loop_handler_chain _ s sm hi (range_ids_ok hi.max_ok) h
      obtain ⟨hw, hrd, c, tc, hc, htc, hid⟩ :=
        uthread_terminate_single_thread_handler_WInv u sa sm hia hu0 hsa
      exact ⟨hw, Or.inr ⟨sa, c, tc, hia, hc, htc, hid, hrd, hmain⟩⟩
    · rw [if_neg h0] at h
      obtain ⟨hw, hrd, c, tc, hc, htc, hid⟩ :=
        uthread_terminate_single_thread_handler_WInv _ s sm hi
          (toUnsigned_ne_zero tid hr h0) h
      exact ⟨hw, Or.inr ⟨s, c, tc, hi, hc, htc, hid, hrd, fun p th hp _ => hp⟩⟩
  | block tid =>
    simp only [handler_entry] at h
    obtain ⟨c, th, hc, hth, hid, h0, hsm, _⟩ := uthread_block_handler_some tid s sm h
    rw [hsm]
    refine ⟨self_block_WInv s c th hi hc hth, Or.inr ⟨s, c, th, hi, hc, hth, ?_, rfl,
      fun p th hp _ => hp⟩⟩
    rw [hid]
    exact toUnsigned_ne_zero tid hr h0
  | resume tid => simp [handler_entry] at h
  | sleep n =>
    simp only [handler_entry] at h
    obtain ⟨c, th, hc, hth, hid, _, hsm, _⟩ := uthread_sleep_handler_some n s sm h
    rw [hsm]
    exact ⟨self_sleep_WInv s c th (n + 1) hi hc hth, Or.inr ⟨s, c, th, hi, hc, hth, hid, rfl,
      fun p th hp _ => hp⟩⟩
  | get_tid => simp [handler_entry] at h
  | get_total_quantums => simp [handler_entry] at h
  | get_quantums tid => simp [handler_entry] at h

/-- In every reachable state a thread with id 0 exists and is RUNNING or
READY. -/
theorem Reachable.main_live {M : Nat} {s : Sched} (h : Reachable M s) :
    ∃ p th, s.heap p = some th ∧ th._id = 0 ∧
      (th._state = State.RUNNING ∨ th._state = State.READY) := by
  induction h with
  | init q s hmax h0 =>
    unfold uthread_init at h0
    split at h0
    · cases h0
    · simp only at h0
      split at h0
      · cases h0
      · cases h0
        exact ⟨0, ⟨Thread.main._id, State.RUNNING, Thread.main._num_of_quantum + 1,
          Thread.main._quantums_left_in_sleeping⟩, by simp [boot], rfl, Or.inl rfl⟩
  | step s s1 op hreach hr hs ih =>
    obtain ⟨p, th, hth, hid, hst⟩ := ih
    obtain ⟨t1, h1, h2, h3⟩ := step_main s s1 op hreach.inv hr hs p th hth hid hst
    exact ⟨p, t1, h1, h2, h3⟩

/-- C21: in every reachable state, whenever an operation (a timer tick, or
`uthread_block` on the caller, `uthread_sleep`, `uthread_terminate` on the
caller or the loop of `uthread_terminate(0)`) gets to call
`run_next_ready_thread`, the READY deque is not empty at that moment and its
front is a live thread in state READY: the dispatcher takes it, pops it and
switches to it, and that is how the operation ends.  Conversely every
operation that ends in a dispatch went through such a call. -/
theorem C21_dispatcher_ready_nonempty (M : Nat) (s : Sched) (op : Op)
    (hreach : Reachable M s) (hr : op.inRange) :
    (∀ sd, dispatcher_entry M s op = some sd →
      ∃ p rest th, sd.ready_threads = p :: rest ∧ sd.heap p = some th ∧
        th._state = State.READY ∧
        run_next_ready_thread sd = Outcome.switched
          { (sd.write p (dispatch_thread th)) with
            current_running_thread := some p
            quantum_counter := sd.quantum_counter + 1
            ready_threads := rest } ∧
        step M s op = run_next_ready_thread sd) ∧
    (∀ s1, step M s op = Outcome.switched s1 →
      ∃ sd, dispatcher_entry M s op = some sd ∧
        run_next_ready_thread sd = Outcome.switched s1) := by
  have hi := hreach.inv
  refine ⟨?_, fun s1 h => dispatcher_entry_of_switched M s s1 op h⟩
  intro sd hsd
  unfold dispatcher_entry at hsd
  cases hh : handler_entry M s op with
  | none => rw [hh] at hsd; cases hsd
  | some sm =>
    rw [hh] at hsd
    simp only [Option.bind] at hsd
    obtain ⟨hw, hcase⟩ := handler_entry_WInv s sm op hi hr hh
    obtain ⟨hq, w, hrd⟩ := timer_handler_dispatch_ready sm sd hw hsd
    have hne : sd.ready_threads ≠ [] := by
      rcases hcase with ⟨_, hs⟩ | ⟨sa, c, tc, hia, hc, htc, hid, hrs, hmain⟩
      · subst hs
        obtain ⟨c, tc, hc, htc, hrun, _⟩ := hi.stable
        refine timer_handler_dispatch_running sm sd hsd c tc hc htc hrun ?_
        rw [hi.q.mem_sleeping c tc htc]
        simp [hrun]
      · obtain ⟨p0, th0, hp0, hid0, hst0⟩ := hreach.main_live
        have hp0a := hmain p0 th0 hp0 hid0
        have hready : th0._state = State.READY := by
          rcases hst0 with hR | hR
          · exfalso
            obtain ⟨c1, tc1, hc1, htc1, _, huniq⟩ := hia.stable
            have := huniq p0 th0 hp0a (Or.inl hR)
            subst this
            rw [hc] at hc1
            cases hc1
            rw [htc] at hp0a
            cases hp0a
            exact hid hid0
          · exact hR
        have hmem : p0 ∈ sa.ready_threads := (hia.q.mem_ready p0 th0 hp0a).mpr hready
        intro hnil
        rw [hrd, hrs] at hnil
        simp at hnil
        rw [hnil.1] at hmem
        simp at hmem
    obtain ⟨p, rest, th, h1, h2, h3, h4⟩ := run_next_ready_thread_defined sd hq hne
    exact ⟨p, rest, th, h1, h2, h3, h4, handler_entry_dispatch M s sm sd op hh hsd⟩

/-- C21 at a concrete state: thread 1 runs and calls `uthread_sleep(2)`.  The
call reaches the dispatcher; the READY deque then holds the main thread, which
is live and READY, and the call ends with the main thread running. -/
theorem C21_dispatcher_ready_nonempty_witness :
    (dispatcher_entry 4 (exec 4 [Op.spawn, Op.tick]) (Op.sleep 2)).isSome = true ∧
    (∃ p rest th,
      ((dispatcher_entry 4 (exec 4 [Op.spawn, Op.tick]) (Op.sleep 2)).getD boot).ready_threads
        = p :: rest ∧
      ((dispatcher_entry 4 (exec 4 [Op.spawn, Op.tick]) (Op.sleep 2)).getD boot).heap p
        = some th ∧
      th._state = State.READY ∧
      run_next_ready_thread
          ((dispatcher_entry 4 (exec 4 [Op.spawn, Op.tick]) (Op.sleep 2)).getD boot) =
        Outcome.switched
          { (((dispatcher_entry 4 (exec 4 [Op.spawn, Op.tick]) (Op.sleep 2)).getD boot).write p
              (dispatch_thread th)) with
            current_running_thread := some p
            quantum_counter :=
              ((dispatcher_entry 4 (exec 4 [Op.spawn, Op.tick]) (Op.sleep 2)).getD
                boot).quantum_counter + 1
            ready_threads := rest } ∧
      step 4 (exec 4 [Op.spawn, Op.tick]) (Op.sleep 2) =
        run_next_ready_thread
          ((dispatcher_entry 4 (exec 4 [Op.spawn, Op.tick]) (Op.sleep 2)).getD boot)) ∧
    (exec 4 [Op.spawn, Op.tick, Op.sleep 2]).current_running_thread = some 0 :=
  ⟨rfl,
   (C21_dispatcher_ready_nonempty 4 (exec 4 [Op.spawn, Op.tick]) (Op.sleep 2)
      (exec_Reachable 4 _ (by decide) (by simp [Op.inRange]) ⟨_, _, rfl, rfl⟩)
      (by simp [Op.inRange, isInt, INT_MAX])).1 _ rfl,
   rfl⟩

end UThreads
